import Mathlib

/-!
# The snapshot ring of the raw backend (`maro/backends/raw/snapshotlist.cpp`)

A shallow embedding of `SnapshotList` together with the part of `AttributeStore`
that it consumes, followed by the properties established about it.

Conventions of the embedding.

* `std::map<INT, T>` is a list of pairs kept in ascending key order (`TickMap`),
  `std::unordered_map<ULONG, size_t>` is an association list.
* A member function that can throw returns an `Outcome`: either `returned v s`
  or `threw e s`, where `s` is the object state left behind in both cases.
* Sizes and offsets (`size_t`) and the snapshot counters are natural numbers.
* Where the C++ code would read or write outside a container (undefined
  behaviour) the embedding reads a default value and drops the write; this is
  said again at each place where it happens.
-/

namespace maro

/-! ## Scalar types

The integer types of the backend are embedded as follows: the tick type `INT`
is `Int`; the unsigned types `USHORT`, `UINT`, `ULONG`, `IDENTIFIER`,
`NODE_INDEX`, `SLOT_INDEX` and `size_t` are `Nat`; the payload obtained with
`ATTR_FLOAT(attr)` is kept as an `Int`, the conversion being taken as exact. -/

/-- Modelled from the spec: `attribute.h` is not among the sources. A cell is a
tagged scalar, either the empty/NaN marker or a numeric value; a
default-constructed cell is NaN. -/
inductive Attribute where
  | nan : Attribute
  | num (v : Int) : Attribute
deriving DecidableEq, Repr

namespace Attribute

/-- Modelled from the spec: `Attribute::is_nan`, true exactly for the empty marker. -/
def is_nan : Attribute → Bool
  | nan => true
  | num _ => false

/-- Modelled from the spec: the conversion `ATTR_FLOAT(attr)` of a cell. -/
def toFloat : Attribute → Int
  | nan => 0
  | num v => v

/-- Modelled from the spec: a cell all of whose bytes are zero, as left by the
`memset` of `SnapshotList::reset`. -/
def zeroed : Attribute := num 0

end Attribute

/-- Width of one part of a packed key, `sizeof(USHORT) * BITS_PER_BYTE`
(attributestore.h, line 40). -/
def LENGTH_PER_PART : Nat := 16

/-- Modelled from the spec: `attr_index_key` is only declared in
attributestore.h. The four identifiers are concatenated as bit fields of
`LENGTH_PER_PART` bits each into one 64-bit word. -/
def attr_index_key (node_id : Nat) (node_index : Nat) (attr_id : Nat)
    (slot_index : Nat) : Nat :=
  (((node_id % 2 ^ LENGTH_PER_PART) * 2 ^ LENGTH_PER_PART + node_index % 2 ^ LENGTH_PER_PART)
      * 2 ^ LENGTH_PER_PART + attr_id % 2 ^ LENGTH_PER_PART) * 2 ^ LENGTH_PER_PART
    + slot_index % 2 ^ LENGTH_PER_PART

/-! ## Ordered maps keyed by tick -/

/-- An ordered map `std::map<INT, α>`: pairs in ascending key order. -/
abbrev TickMap (α : Type) := List (Int × α)

namespace TickMap

variable {α : Type}

/-- Lookup `m.find(k)`; `none` stands for `m.end()`. -/
def find : TickMap α → Int → Option α
  | [], _ => none
  | (k', v) :: rest, k => if k' = k then some v else find rest k

/-- Removal `m.erase(k)`. -/
def erase : TickMap α → Int → TickMap α
  | [], _ => []
  | (k', v) :: rest, k => if k' = k then erase rest k else (k', v) :: erase rest k

/-- Assignment `m[k] = v`: replaces the value of an existing key, otherwise
inserts the pair at its place in the key order. -/
def assign : TickMap α → Int → α → TickMap α
  | [], k, v => [(k, v)]
  | (k', v') :: rest, k, v =>
    if k < k' then (k, v) :: (k', v') :: rest
    else if k = k' then (k, v) :: rest
    else (k', v') :: assign rest k v

/-- First entry `m.begin()`, the one with the smallest key. -/
def begin (m : TickMap α) : Option (Int × α) := m.head?

/-- Last entry `m.rbegin()`, the one with the largest key. -/
def rbegin (m : TickMap α) : Option (Int × α) := m.getLast?

/-- Number of entries `m.size()`. -/
def size (m : TickMap α) : Nat := m.length

/-- Keys of the map in iteration order. -/
def keys (m : TickMap α) : List Int := m.map Prod.fst

end TickMap

/-! ## The attribute store, as far as the snapshot list consumes it -/

/-- An unordered map from packed keys to offsets, `unordered_map<ULONG, size_t>`. -/
abbrev AttrMapping := List (Nat × Nat)

/-- Lookup in an `unordered_map<ULONG, size_t>`. -/
def AttrMapping.find (m : AttrMapping) (key : Nat) : Option Nat := m.lookup key

/-- The data members of `AttributeStore` declared in attributestore.h (lines
55-69). The reverse map `_i2kmaping` and the bit mask `_slot_masks` repeat the
information of `_mapping` and are left out. -/
structure AttributeStore where
  _mapping : AttrMapping
  _attributes : List Attribute
  _is_dirty : Bool
  _last_index : Nat
deriving DecidableEq, Repr

namespace AttributeStore

/-- Modelled from the spec: `AttributeStore::size` is only declared in
attributestore.h; it is the number of mapped keys. -/
def size (st : AttributeStore) : Nat := st._mapping.length

/-- Modelled from the spec: `AttributeStore::is_dirty` is only declared in
attributestore.h; it reports the dirty flag. -/
def is_dirty (st : AttributeStore) : Bool := st._is_dirty

/-- Modelled from the spec: `AttributeStore::operator()` is only declared in
attributestore.h; it yields the cell of a mapped key (`none` stands for
`BadAttributeIndexing`). -/
def cell (st : AttributeStore) (key : Nat) : Option Attribute :=
  match st._mapping.find key with
  | none => none
  | some i => some (st._attributes.getD i Attribute.nan)

/-- Modelled from the spec: `AttributeStore::arrange` is only declared in
attributestore.h. Compaction moves the live cells down to `[0, size())`
preserving their relative order, renumbers the mapping accordingly, clears
the dirty flag and sets `_last_index` to `size()`. -/
def arrange (st : AttributeStore) : AttributeStore :=
  let live := st._mapping.insertionSort (fun a b => a.2 ≤ b.2)
  { _mapping := live.enum.map (fun p => (p.2.1, p.1))
    _attributes := live.map (fun p => st._attributes.getD p.2 Attribute.nan)
      ++ List.replicate (st._attributes.length - live.length) Attribute.nan
    _is_dirty := false
    _last_index := live.length }

/-- Modelled from the spec: `AttributeStore::copy_to` is only declared in
attributestore.h ("this function will arrange internally before copy"). It
yields the cells `[0, _last_index)` of the arranged store and its mapping; the
store itself is left arranged. -/
def copy_to (st : AttributeStore) : List Attribute × AttrMapping :=
  (st.arrange._attributes.take st.arrange._last_index, st.arrange._mapping)

end AttributeStore

/-! ## The frame, as far as the snapshot list consumes it -/

/-- Modelled from the spec: per-node view of the frame (`frame.h` is not among
the sources). -/
structure NodeInfo where
  id : Nat
  name : String
  number : Nat
deriving DecidableEq, Repr

/-- Modelled from the spec: per-attribute view of the frame. -/
structure AttrInfo where
  id : Nat
  name : String
  max_slots : Nat
deriving DecidableEq, Repr

/-- Modelled from the spec: the members of `Frame` that snapshotlist.cpp reads. -/
structure Frame where
  _attr_store : AttributeStore
  _nodes : List NodeInfo
  _attributes : List AttrInfo
deriving DecidableEq, Repr

/-- Entry `_frame->_nodes[node_id]`; an index outside the vector reads a default. -/
def Frame.node (f : Frame) (node_id : Nat) : NodeInfo :=
  f._nodes.getD node_id { id := node_id, name := "", number := 0 }

/-- Entry `_frame->_attributes[attr_id]`; an index outside the vector reads a default. -/
def Frame.attribute (f : Frame) (attr_id : Nat) : AttrInfo :=
  f._attributes.getD attr_id { id := attr_id, name := "", max_slots := 0 }

/-- Modelled from the spec: `Frame::ensure_node_id` is not among the sources; it
accepts exactly the ids that index `_nodes` and fails with an out-of-range
error otherwise. -/
def Frame.ensure_node_id (f : Frame) (node_id : Nat) : Bool := decide (node_id < f._nodes.length)

/-! ## SnapshotList -/

/-- The named error conditions thrown by snapshotlist.cpp, and the
out-of-range error of `Frame::ensure_node_id`. -/
inductive SnapshotError where
  | InvalidSnapshotTick
  | InvalidSnapshotSize
  | SnapshotQueryNotPrepared
  | SnapshotQueryNoAttributes
  | SnapshotInvalidFrameState
  | SnapshotQueryResultPtrNull
  | BadNodeIdentifier
deriving DecidableEq, Repr

/-- The stored parameters of a prepared query (`SnapshotQueryParameters`). A
pointer argument is `none` for `nullptr` and otherwise the array it points to. -/
structure SnapshotQueryParameters where
  node_id : Nat
  ticks : Option (List Int)
  tick_length : Nat
  node_indices : Option (List Nat)
  node_length : Nat
  attributes : Option (List Nat)
  attr_length : Nat
deriving DecidableEq, Repr

/-- Translation of `SnapshotQueryParameters::reset` (lines 12-24). -/
def SnapshotQueryParameters.reset (_p : SnapshotQueryParameters) : SnapshotQueryParameters :=
  { node_id := 0, ticks := none, tick_length := 0, node_indices := none, node_length := 0,
    attributes := none, attr_length := 0 }

/-- The shape of a query result (`SnapshotResultShape`). -/
structure SnapshotResultShape where
  tick_number : Nat
  max_node_number : Nat
  attr_number : Nat
  max_slot_number : Nat
deriving DecidableEq, Repr

/-- The data members of `SnapshotList` used by snapshotlist.cpp. `_frame` holds
the bound frame (`none` for `nullptr`) together with its current contents. The
width of `_cur_snapshot_num` is fixed in snapshotlist.h, which is not among the
sources; the counter is unbounded here. -/
structure SnapshotList where
  _frame : Option Frame
  _max_size : Nat
  _cur_snapshot_num : Nat
  _attr_store : List Attribute
  _tick2index_map : TickMap Nat
  _tick2size_map : TickMap Nat
  _tick_attr_map : TickMap Nat
  _mappings : List AttrMapping
  _first_empty_slot_index : Nat
  _empty_slots_length : Nat
  _end_index : Nat
  _last_tick : Int
  _is_prepared : Bool
  _query_parameters : SnapshotQueryParameters
deriving DecidableEq, Repr

/-- Result of a member function that may throw: the value returned or the
error thrown, and the state of the list afterwards. -/
inductive Outcome (α : Type) where
  | returned (value : α) (state : SnapshotList) : Outcome α
  | threw (error : SnapshotError) (state : SnapshotList) : Outcome α

namespace Outcome

variable {α : Type}

/-- State of the list after the call. -/
def state : Outcome α → SnapshotList
  | returned _ s => s
  | threw _ s => s

/-- Error thrown by the call, if any. -/
def thrown : Outcome α → Option SnapshotError
  | returned _ _ => none
  | threw e _ => some e

/-- Value returned by the call, if it returned. -/
def value : Outcome α → Option α
  | returned v _ => some v
  | threw _ _ => none

end Outcome

/-- Vector `resize(n)`: truncates, or pads with default-constructed (NaN) cells. -/
def resize (v : List Attribute) (n : Nat) : List Attribute :=
  v.take n ++ List.replicate (n - v.length) Attribute.nan

/-- Copy of `src` to `&dest[start]`. Cells that would land past the end of
`dest` (undefined behaviour in the source) are dropped. -/
def writeCells : List Attribute → Nat → List Attribute → List Attribute
  | [], _, _ => []
  | c :: cs, 0, [] => c :: cs
  | _ :: cs, 0, x :: xs => x :: writeCells cs 0 xs
  | c :: cs, n + 1, src => c :: writeCells cs n src

namespace SnapshotList

/-- Modelled from the spec: the member initialisers are in snapshotlist.h, which
is not among the sources. A new list has no frame, capacity 0, no snapshots,
`_last_tick` at the sentinel -1 and nothing prepared. -/
def fresh : SnapshotList :=
  { _frame := none, _max_size := 0, _cur_snapshot_num := 0, _attr_store := [],
    _tick2index_map := [], _tick2size_map := [], _tick_attr_map := [], _mappings := [],
    _first_empty_slot_index := 0, _empty_slots_length := 0, _end_index := 0,
    _last_tick := -1, _is_prepared := false,
    _query_parameters :=
      { node_id := 0, ticks := none, tick_length := 0, node_indices := none, node_length := 0,
        attributes := none, attr_length := 0 } }

/-- The member `_defaultAttr`, a default-constructed cell that is never assigned. -/
def _defaultAttr : Attribute := Attribute.nan

/-- Translation of `SnapshotList::set_frame` (lines 26-29). -/
def set_frame (s : SnapshotList) (frame : Option Frame) : SnapshotList :=
  { s with _frame := frame }

/-- Translation of `SnapshotList::set_max_size` (lines 31-42). -/
def set_max_size (s : SnapshotList) (max_size : Nat) : Outcome Unit :=
  if max_size = 0 then .threw .InvalidSnapshotSize s
  else if s._max_size = 0 then .returned () { s with _max_size := max_size }
  else .returned () s

/-- Translation of `SnapshotList::prepare_memory` (lines 550-556). -/
def prepare_memory (s : SnapshotList) : SnapshotList :=
  match s._frame with
  | none => s
  | some f =>
    if s._attr_store.length = 0 then
      { s with _attr_store := resize s._attr_store (f._attr_store.size * s._max_size) }
    else s

/-- The decision of `copy_from_attr_store` whether the mapping of the source
store is copied (lines 458-474). An index outside `_mappings` reads an empty
mapping. -/
def is_copy_mapping (s : SnapshotList) (frame_attr_store : AttributeStore) : Bool :=
  match s._tick_attr_map.rbegin with
  | none => true
  | some (_, id) =>
    if frame_attr_store.is_dirty then true
    else decide ((s._mappings.getD id []).length ≠ frame_attr_store.size)

/-- Translation of `SnapshotList::copy_from_attr_store` (lines 456-493). -/
def copy_from_attr_store (s : SnapshotList) (frame_attr_store : AttributeStore) (tick : Int)
    (start_index : Nat) : SnapshotList :=
  if s.is_copy_mapping frame_attr_store then
    { s with
      _mappings := s._mappings ++ [frame_attr_store.copy_to.2]
      _attr_store := writeCells s._attr_store start_index frame_attr_store.copy_to.1
      _tick_attr_map := s._tick_attr_map.assign tick s._mappings.length }
  else
    { s with
      _attr_store := writeCells s._attr_store start_index frame_attr_store.copy_to.1
      _tick_attr_map :=
        s._tick_attr_map.assign tick (match s._tick_attr_map.rbegin with
          | none => 0
          | some (_, id) => id) }

/-- Translation of `SnapshotList::append_to_end` (lines 495-512). -/
def append_to_end (s : SnapshotList) (frame_attr_store : AttributeStore) (tick : Int) :
    SnapshotList :=
  let snapshot_size := frame_attr_store.size
  let s1 : SnapshotList :=
    if s._end_index + snapshot_size > s._attr_store.length then
      { s with _attr_store := resize s._attr_store ((s._end_index + snapshot_size) * 2) }
    else s
  let s2 := s1.copy_from_attr_store frame_attr_store tick s1._end_index
  { s2 with
    _tick2size_map := s2._tick2size_map.assign tick snapshot_size
    _tick2index_map := s2._tick2index_map.assign tick s2._end_index
    _end_index := s2._end_index + snapshot_size }

/-- Translation of `SnapshotList::write_to_empty_slots` (lines 514-526). -/
def write_to_empty_slots (s : SnapshotList) (frame_attr_store : AttributeStore) (tick : Int) :
    SnapshotList :=
  let snapshot_size := frame_attr_store.size
  let s1 := s.copy_from_attr_store frame_attr_store tick s._first_empty_slot_index
  { s1 with
    _tick2index_map := s1._tick2index_map.assign tick s1._first_empty_slot_index
    _tick2size_map := s1._tick2size_map.assign tick snapshot_size
    _first_empty_slot_index := s1._first_empty_slot_index + snapshot_size
    _empty_slots_length := s1._empty_slots_length - snapshot_size }

/-- The block of `take_snapshot` that removes an existing record of the tick
being overwritten (lines 87-108). A tick missing from `_tick2size_map` reads
size 0. -/
def remove_existing (s : SnapshotList) (tick : Int) (exist_tick_index : Nat) : SnapshotList :=
  let exist_tick_length := (s._tick2size_map.find tick).getD 0
  let s1 : SnapshotList :=
    { s with
      _tick2index_map := s._tick2index_map.erase tick
      _tick2size_map := s._tick2size_map.erase tick
      _tick_attr_map := s._tick_attr_map.erase tick }
  let s2 : SnapshotList :=
    if exist_tick_index + exist_tick_length = s1._end_index then
      { s1 with _end_index := exist_tick_index }
    else
      { s1 with
        _first_empty_slot_index := exist_tick_index
        _empty_slots_length := s1._empty_slots_length + exist_tick_length }
  { s2 with _cur_snapshot_num := s2._cur_snapshot_num - 1 }

/-- The block of `take_snapshot` that evicts the oldest tick (lines 120-143).
On an empty map (where `begin()` may not be dereferenced) nothing is evicted. -/
def erase_oldest (s : SnapshotList) : SnapshotList :=
  match s._tick2index_map.begin with
  | none => s
  | some (oldest_tick, oldest_index) =>
    let oldest_size := (s._tick2size_map.find oldest_tick).getD 0
    let s1 : SnapshotList :=
      { s with
        _tick2index_map := s._tick2index_map.erase oldest_tick
        _tick2size_map := s._tick2size_map.erase oldest_tick
        _tick_attr_map := s._tick_attr_map.erase oldest_tick }
    if s1._empty_slots_length = 0 then
      { s1 with _first_empty_slot_index := oldest_index, _empty_slots_length := oldest_size }
    else
      { s1 with _empty_slots_length := s1._empty_slots_length + oldest_size }

/-- The part of `take_snapshot` that places the new snapshot (lines 112-162). -/
def place_snapshot (s : SnapshotList) (tick : Int) (frame_attr_store : AttributeStore)
    (skip_oldest_erase : Bool) : SnapshotList :=
  let snapshot_size := frame_attr_store.size
  let s1 : SnapshotList := { s with _cur_snapshot_num := s._cur_snapshot_num + 1 }
  let s2 : SnapshotList :=
    if s1._cur_snapshot_num > s1._max_size then
      let s3 := if !skip_oldest_erase then s1.erase_oldest else s1
      if s3._empty_slots_length ≥ snapshot_size then
        s3.write_to_empty_slots frame_attr_store tick
      else
        s3.append_to_end frame_attr_store tick
    else
      s1.append_to_end frame_attr_store tick
  { s2 with _last_tick := tick }

/-- The part of `take_snapshot` that runs once the source store is known
(lines 57-163). -/
def take_snapshot_of (s : SnapshotList) (tick : Int) (frame_attr_store : AttributeStore) :
    Outcome Unit :=
  if s._max_size = 0 then .threw .InvalidSnapshotSize s
  else
    let s1 := s.prepare_memory
    match s1._tick2index_map.find tick with
    | some exist_tick_index =>
      if s1._last_tick ≠ tick then .threw .InvalidSnapshotTick s1
      else
        .returned () ((s1.remove_existing tick exist_tick_index).place_snapshot tick
          frame_attr_store true)
    | none => .returned () (s1.place_snapshot tick frame_attr_store false)

/-- The frame after its store served as the source of a snapshot: `copy_to`
leaves the store arranged. -/
def arrange_frame (s : SnapshotList) : SnapshotList :=
  match s._frame with
  | none => s
  | some f => { s with _frame := some { f with _attr_store := f._attr_store.arrange } }

/-- Translation of `SnapshotList::take_snapshot` (lines 44-163). The argument is
`none` for `nullptr`, in which case the store of the bound frame is used. -/
def take_snapshot (s : SnapshotList) (tick : Int) (frame_attr_store : Option AttributeStore) :
    Outcome Unit :=
  match frame_attr_store with
  | some store => s.take_snapshot_of tick store
  | none =>
    match s._frame with
    | none => .threw .SnapshotInvalidFrameState s
    | some f =>
      match s.take_snapshot_of tick f._attr_store with
      | .returned v s1 => .returned v s1.arrange_frame
      | .threw e s1 => .threw e s1

/-- The lookup of `operator()` once the key is packed (lines 167-189). A
mapping id missing from `_tick_attr_map` or `_mappings`, and an offset outside
`_attr_store`, read defaults. -/
def get (s : SnapshotList) (tick : Int) (key : Nat) : Attribute :=
  match s._tick2index_map.find tick with
  | none => _defaultAttr
  | some tick_start_index =>
    let mapping := s._mappings.getD ((s._tick_attr_map.find tick).getD 0) []
    match mapping.find key with
    | none => _defaultAttr
    | some offset => s._attr_store.getD (tick_start_index + offset) _defaultAttr

/-- Translation of `SnapshotList::operator()` (lines 165-190). -/
def call (s : SnapshotList) (tick : Int) (node_id : Nat) (node_index : Nat)
    (attr_id : Nat) (slot_index : Nat) : Attribute :=
  s.get tick (attr_index_key node_id node_index attr_id slot_index)

/-- Translation of `SnapshotList::size` (lines 192-195). -/
def size (s : SnapshotList) : Nat :=
  if s._cur_snapshot_num > s._max_size then s._max_size else s._cur_snapshot_num

/-- Translation of `SnapshotList::max_size` (lines 197-200). -/
def max_size (s : SnapshotList) : Nat := s._max_size

/-- Translation of `SnapshotList::reset` (lines 202-218). -/
def reset (s : SnapshotList) : SnapshotList :=
  { s with
    _tick2index_map := []
    _tick2size_map := []
    _tick_attr_map := []
    _mappings := []
    _attr_store := List.replicate s._attr_store.length Attribute.zeroed
    _first_empty_slot_index := 0
    _empty_slots_length := 0
    _end_index := 0
    _cur_snapshot_num := 0
    _last_tick := -1
    _is_prepared := false
    _query_parameters := s._query_parameters.reset }

/-- Translation of `SnapshotList::get_ticks` (lines 284-293): the values written
to `result[0]`, `result[1]`, ... in this order. -/
def get_ticks (s : SnapshotList) : List Int := s._tick2index_map.keys

/-- The loop of `prepare` over the queried attributes (lines 318-323), started
from the value-initialised `max_slot_number` 0. Reading `attributes` past its
end yields 0. -/
def prepare_max_slot_number (f : Frame) (attributes : List Nat) (attr_length : Nat) :
    Nat :=
  (List.range attr_length).foldl
    (fun max_slot_number attr_index =>
      max (f.attribute (attributes.getD attr_index 0)).max_slots max_slot_number) 0

/-- Translation of `SnapshotList::prepare` (lines 295-354). -/
def prepare (s : SnapshotList) (node_id : Nat) (ticks : Option (List Int))
    (tick_length : Nat) (node_indices : Option (List Nat)) (node_length : Nat)
    (attributes : Option (List Nat)) (attr_length : Nat) :
    Outcome SnapshotResultShape :=
  match attributes with
  | none => .threw .SnapshotQueryNoAttributes s
  | some attrs =>
    if s._max_size = 0 then .threw .InvalidSnapshotSize s
    else
      match s._frame with
      | none => .threw .SnapshotInvalidFrameState s
      | some f =>
        if !f.ensure_node_id node_id then .threw .BadNodeIdentifier s
        else
          let node := f.node node_id
          let node_length1 := if node_indices.isNone then node.number else node_length
          let tick_length1 := if ticks.isNone then s._tick2index_map.size else tick_length
          .returned
            { max_slot_number := prepare_max_slot_number f attrs attr_length
              max_node_number := node_length1
              tick_number := tick_length1
              attr_number := attr_length }
            { s with
              _query_parameters :=
                { attributes := some attrs
                  attr_length := attr_length
                  node_id := node_id
                  node_indices := node_indices
                  node_length := node_length1
                  ticks := ticks
                  tick_length := tick_length1 }
              _is_prepared := true }

/-- The innermost loop of `query` over the slots (lines 435-445). The pair is
`(result_index, result)`; a write past the end of `result` is dropped. -/
def query_slots (s : SnapshotList) (tick : Int) (node_id : Nat) (node_index : Nat)
    (attr_id : Nat) (max_slot_number : Nat) (acc : Nat × List Int) :
    Nat × List Int :=
  (List.range max_slot_number).foldl
    (fun acc slot_index =>
      let attr := s.call tick node_id node_index attr_id slot_index
      (acc.1 + 1, if !attr.is_nan then acc.2.set acc.1 attr.toFloat else acc.2)) acc

/-- The loop nest of `query` (lines 421-448). Reading an array past its end
yields 0. -/
def query_loops (s : SnapshotList) (node_id : Nat) (ticks : List Int) (tick_length : Nat)
    (node_indices : List Nat) (node_length : Nat) (attrs : List Nat)
    (attr_length : Nat) (max_slot_number : Nat) (result : List Int) :
    Nat × List Int :=
  (List.range tick_length).foldl
    (fun acc i =>
      (List.range node_length).foldl
        (fun acc j =>
          (List.range attr_length).foldl
            (fun acc k =>
              s.query_slots (ticks.getD i 0) node_id (node_indices.getD j 0) (attrs.getD k 0)
                max_slot_number acc) acc) acc) (0, result)

/-- Translation of `SnapshotList::query` (lines 356-454). The argument is `none`
for a null result pointer; the value returned is the content of the result
buffer after the call. -/
def query (s : SnapshotList) (result : Option (List Int)) (shape : SnapshotResultShape) :
    Outcome (List Int) :=
  match result with
  | none => .threw .SnapshotQueryResultPtrNull s
  | some buf =>
    if !s._is_prepared then .threw .SnapshotQueryNotPrepared s
    else if shape.attr_number = 0 ∨ shape.max_node_number = 0 ∨ shape.max_slot_number = 0
        ∨ shape.tick_number = 0 then .returned buf s
    else if s._max_size = 0 then .threw .InvalidSnapshotSize s
    else
      match s._frame with
      | none => .threw .SnapshotInvalidFrameState s
      | some f =>
        let node_id := s._query_parameters.node_id
        let node := f.node node_id
        let tick_length :=
          if s._query_parameters.ticks.isNone then s._tick2index_map.size
          else s._query_parameters.tick_length
        let ticks := s._query_parameters.ticks.getD s._tick2index_map.keys
        let node_length :=
          if s._query_parameters.node_indices.isNone then node.number
          else s._query_parameters.node_length
        let node_indices := s._query_parameters.node_indices.getD (List.range node.number)
        let attrs := s._query_parameters.attributes.getD []
        let attr_length := s._query_parameters.attr_length
        .returned
          (s.query_loops node_id ticks tick_length node_indices node_length attrs attr_length
            shape.max_slot_number buf).2
          { s with _is_prepared := false, _query_parameters := s._query_parameters.reset }

end SnapshotList

/-! ## Reachable states -/

/-- States of a list reachable from the state `s0` by calls of its public
member functions, whether they return or throw. Rebinding the frame also
stands for any change made to the bound frame from outside. -/
inductive ReachableFrom (s0 : SnapshotList) : SnapshotList → Prop where
  | start : ReachableFrom s0 s0
  | set_frame (s : SnapshotList) (frame : Option Frame) :
      ReachableFrom s0 s → ReachableFrom s0 (s.set_frame frame)
  | set_max_size (s : SnapshotList) (n : Nat) :
      ReachableFrom s0 s → ReachableFrom s0 (s.set_max_size n).state
  | take_snapshot (s : SnapshotList) (tick : Int) (store : Option AttributeStore) :
      ReachableFrom s0 s → ReachableFrom s0 (s.take_snapshot tick store).state
  | reset (s : SnapshotList) : ReachableFrom s0 s → ReachableFrom s0 s.reset
  | prepare (s : SnapshotList) (node_id : Nat) (ticks : Option (List Int))
      (tick_length : Nat) (node_indices : Option (List Nat)) (node_length : Nat)
      (attributes : Option (List Nat)) (attr_length : Nat) :
      ReachableFrom s0 s →
      ReachableFrom s0 (s.prepare node_id ticks tick_length node_indices node_length attributes
        attr_length).state
  | query (s : SnapshotList) (result : Option (List Int)) (shape : SnapshotResultShape) :
      ReachableFrom s0 s → ReachableFrom s0 (s.query result shape).state

/-- States of a list reachable from a newly constructed one. -/
abbrev Reachable (s : SnapshotList) : Prop := ReachableFrom SnapshotList.fresh s

/-! ## Auxiliary definitions for the statements and proofs -/

/-- Insertion of a key at its place in an ascending key list, as done on the
keys by `TickMap.assign`. -/
def insertKey (k : Int) : List Int → List Int
  | [] => [k]
  | k' :: rest =>
    if k < k' then k :: k' :: rest
    else if k = k' then k :: rest
    else k' :: insertKey k rest

/-- Removal of a key from a key list, as done on the keys by `TickMap.erase`. -/
def removeKey (k : Int) : List Int → List Int
  | [] => []
  | a :: rest => if a = k then removeKey k rest else a :: removeKey k rest

/-- Removal of the first key from a key list, as done on the keys by the
eviction of the oldest tick. -/
def dropOldest : List Int → List Int
  | [] => []
  | h :: rest => removeKey h (h :: rest)

/-- Bookkeeping invariant of the per-tick maps: the keys are strictly
ascending, the three maps have the same keys, and their number is the
reported size. -/
structure WF (s : SnapshotList) : Prop where
  sorted : s._tick2index_map.keys.Pairwise (· < ·)
  size_keys : s._tick2size_map.keys = s._tick2index_map.keys
  attr_keys : s._tick_attr_map.keys = s._tick2index_map.keys
  count : s._tick2index_map.keys.length = min s._cur_snapshot_num s._max_size
  unset : s._max_size = 0 → s._cur_snapshot_num = 0

/-- The list after a sequence of `take_snapshot` calls, each given as the tick
and the store argument (`none` for `nullptr`), whether they return or throw. -/
def run_snapshots (s : SnapshotList) : List (Int × Option AttributeStore) → SnapshotList
  | [] => s
  | (tick, store) :: rest => run_snapshots (s.take_snapshot tick store).state rest

/-- The ticks of those calls of a sequence of `take_snapshot` calls that
returned, in call order. -/
def succeeded_ticks (s : SnapshotList) : List (Int × Option AttributeStore) → List Int
  | [] => []
  | (tick, store) :: rest =>
    if (s.take_snapshot tick store).thrown = none then
      tick :: succeeded_ticks (s.take_snapshot tick store).state rest
    else succeeded_ticks (s.take_snapshot tick store).state rest

/-! ## Concrete stores and lists used as inputs -/

/-- A store holding `n` cells for the node instances `0 .. n-1` of node 0,
attribute 0, slot 0, instance `i` at index `i` with value `base + i`; it has no
holes and is not dirty. Its capacity is 64 cells. -/
def dense_store (n : Nat) (base : Int) : AttributeStore :=
  { _mapping := (List.range n).map (fun i => (attr_index_key 0 i 0 0, i))
    _attributes := (List.range n).map (fun i => Attribute.num (base + i))
      ++ List.replicate (64 - n) Attribute.nan
    _is_dirty := false
    _last_index := n }

/-- A list of capacity 2 without a frame. -/
def ring2 : SnapshotList := (SnapshotList.fresh.set_max_size 2).state

/-- The store of `dense_store 2 5` after instance 1 was removed and instance 2
was added with value 7: instance 2 took over the freed index 1, so the store
has the same size as before and is not dirty. -/
def changed_store : AttributeStore :=
  { _mapping := [(attr_index_key 0 0 0 0, 0), (attr_index_key 0 2 0 0, 1)]
    _attributes := [Attribute.num 5, Attribute.num 7] ++ List.replicate 62 Attribute.nan
    _is_dirty := false
    _last_index := 2 }

/-- The list of capacity 2 after snapshots of sizes 2, 1, 1, 3 at ticks 1 to 4. -/
def ring2_after_four : SnapshotList :=
  run_snapshots ring2
    [(1, some (dense_store 2 100)), (2, some (dense_store 1 200)), (3, some (dense_store 1 300)),
     (4, some (dense_store 3 400))]

/-- A list of capacity 1 without a frame. -/
def ring1 : SnapshotList := (SnapshotList.fresh.set_max_size 1).state

/-- A list that was just constructed and given capacity `m`, or just reset
while having capacity `m`. -/
def Cleared (m : Nat) (start : SnapshotList) : Prop :=
  (∃ frame, start = ((SnapshotList.fresh.set_frame frame).set_max_size m).state)
  ∨ (∃ s0 : SnapshotList, s0._max_size = m ∧ start = s0.reset)

/-- The last `m` elements of a list. -/
def lastN (m : Nat) (l : List Int) : List Int := l.drop (l.length - m)

/-- The retained ticks are the `m` largest of the ticks taken: there are `m` of
them, each was taken, and every taken tick that is not retained is smaller
than every retained one. -/
def retains_largest (m : Nat) (taken retained : List Int) : Prop :=
  retained.length = m ∧ (∀ t ∈ retained, t ∈ taken)
  ∧ (∀ a ∈ taken, a ∉ retained → ∀ b ∈ retained, a < b)

/-- The calls of the counterexample to unordered retention: ticks 5 and 3. -/
def descending_calls : List (Int × Option AttributeStore) :=
  [(5, some (dense_store 1 0)), (3, some (dense_store 1 0))]

/-- The list of capacity 2 after snapshots at ticks 1 and 2. -/
def ring2_after_two : SnapshotList :=
  run_snapshots ring2 [(1, some (dense_store 2 100)), (2, some (dense_store 2 200))]

/-- A frame with one node type of 3 instances and two attributes of 1 and 4
slots, over a store of two cells. -/
def small_frame : Frame :=
  { _attr_store := dense_store 2 100
    _nodes := [{ id := 0, name := "n", number := 3 }]
    _attributes := [{ id := 0, name := "a", max_slots := 1 },
      { id := 1, name := "b", max_slots := 4 }] }

/-- A list of capacity 2 bound to `small_frame`. -/
def framed_ring2 : SnapshotList := ((SnapshotList.fresh.set_frame (some small_frame)).set_max_size 2).state

/-- Content of the caller's result buffer after `query(result, shape)`: the
buffer returned when the call returns; the buffer as passed when it throws,
since every `throw` of `query` (lines 358-380) precedes the first write (line
441). -/
def buffer_after_query (s : SnapshotList) (buf : List Int) (shape : SnapshotResultShape) :
    List Int :=
  ((s.query (some buf) shape).value).getD buf

/-- The list `framed_ring2` after `prepare` for node 0 and attribute 0, with no
ticks and no node indices passed, while no snapshot is retained. -/
def prepared_empty_ring : SnapshotList :=
  (framed_ring2.prepare 0 none 0 none 0 (some [0]) 1).state

/-- The shape returned by the `prepare` call of `prepared_empty_ring`. -/
def prepared_empty_shape : SnapshotResultShape :=
  { tick_number := 0, max_node_number := 3, attr_number := 1, max_slot_number := 1 }

/-- The list of capacity 2 after snapshots of size 2 at ticks 1, 2 and 3. -/
def ring2_after_three : SnapshotList :=
  run_snapshots ring2
    [(1, some (dense_store 2 100)), (2, some (dense_store 2 200)), (3, some (dense_store 2 300))]

/-- The list of capacity 2 after snapshots of sizes 2, 1, 1, 3, 3 at ticks 1 to 5. -/
def ring2_after_five : SnapshotList :=
  (ring2_after_four.take_snapshot 5 (some (dense_store 3 500))).state

/-- The calls that lead to `ring2_after_five`. -/
def five_calls : List (Int × Option AttributeStore) :=
  [(1, some (dense_store 2 100)), (2, some (dense_store 1 200)), (3, some (dense_store 1 300)),
   (4, some (dense_store 3 400)), (5, some (dense_store 3 500))]

/-- The record of `_tick_attr_map` that `copy_from_attr_store` consults as
"last tick" when `take_snapshot(tick, ..)` reaches it: the record with the
largest tick that is left once the record of `tick` itself (on an overwrite)
or the oldest record (when a new tick meets a full ring) has been removed. -/
def reuse_candidate (s : SnapshotList) (tick : Int) : Option (Int × Nat) :=
  if (s._tick2index_map.find tick).isSome then (s._tick_attr_map.erase tick).rbegin
  else if s._cur_snapshot_num + 1 > s._max_size then
    match s._tick2index_map.begin with
    | none => s._tick_attr_map.rbegin
    | some (oldest, _) => (s._tick_attr_map.erase oldest).rbegin
  else s._tick_attr_map.rbegin

/-- The condition under which `take_snapshot(tick, store)` reuses a mapping:
there is a reuse candidate, the store is not dirty, and the candidate's mapping
has as many entries as the store. -/
def reuses_mapping (s : SnapshotList) (tick : Int) (st : AttributeStore) : Prop :=
  ∃ t0 id, reuse_candidate s tick = some (t0, id) ∧ st.is_dirty = false
    ∧ (s._mappings.getD id []).length = st.size

/-- The calls of the first counterexample to the reuse rule: ticks 1 and 2 from
stores of the same shape, on a list of capacity 1. -/
def same_shape_calls : List (Int × Option AttributeStore) :=
  [(1, some (dense_store 2 100)), (2, some (dense_store 2 200))]

/-- The list of capacity 3 after tick 5 (store of size 2) and tick 3 (store of
size 1), taken in this order. -/
def ring3_after_5_3 : SnapshotList :=
  run_snapshots (SnapshotList.fresh.set_max_size 3).state
    [(5, some (dense_store 2 100)), (3, some (dense_store 1 200))]

/-- A step `F` on `(result_index, result)` pairs writes a block of `B` cells:
it advances the index by `B`, and the element at `q` becomes the converted
cell `c (q - r)` when `q` lies in the block `[r, r + B)`, inside the buffer,
and the cell is not NaN, and is left as it was otherwise. -/
def WritesBlock (F : Nat × List Int → Nat × List Int) (B : Nat) (c : Nat → Attribute) : Prop :=
  ∀ (r : Nat) (buf : List Int),
    (F (r, buf)).1 = r + B
    ∧ ∀ q : Nat, (F (r, buf)).2[q]? =
        if r ≤ q ∧ q < r + B ∧ (c (q - r)).is_nan = false then
          (buf[q]?).map (fun _ => (c (q - r)).toFloat)
        else buf[q]?

/-- The list of capacity 2 bound to `small_frame` after a snapshot of the
frame's store at tick 1. -/
def framed_ring2_after_one : SnapshotList := (framed_ring2.take_snapshot 1 none).state

/-- The list `framed_ring2_after_one` after `prepare` for node 0 and attribute 0
with no ticks and no node indices passed (one tick is retained), followed by a
snapshot of the frame's store at tick 2. -/
def prepared_then_snapshot : SnapshotList :=
  ((framed_ring2_after_one.prepare 0 none 0 none 0 (some [0]) 1).state.take_snapshot 2
    none).state

/-- The shape returned by the `prepare` call of `prepared_then_snapshot`. -/
def prepared_one_tick_shape : SnapshotResultShape :=
  { tick_number := 1, max_node_number := 3, attr_number := 1, max_slot_number := 1 }

/-- Invariant of a ring all of whose snapshots have size `sz`, on a list of
capacity `m`: no hole, every region has size `sz` and starts at a multiple of
`sz` below `end_index`, distinct ticks have distinct offsets, `end_index` is
the number of retained ticks times `sz`, and while the ring has never been
full the last tick taken ends at `end_index`. -/
structure Steady (sz m : Nat) (s : SnapshotList) : Prop where
  wf : WF s
  max : s._max_size = m
  hole : s._empty_slots_length = 0
  sizes : ∀ t n, s._tick2size_map.find t = some n → n = sz
  offsets : ∀ t o, s._tick2index_map.find t = some o → sz ∣ o ∧ o + sz ≤ s._end_index
  inj : ∀ t1 t2 o, s._tick2index_map.find t1 = some o → s._tick2index_map.find t2 = some o →
    t1 = t2
  end_eq : s._end_index = s._tick2index_map.keys.length * sz
  tail : s._cur_snapshot_num ≤ m →
    ∀ o, s._tick2index_map.find s._last_tick = some o → o + sz = s._end_index

/-- A list of capacity 2 bound to `small_frame` that was reset after one
snapshot, so that its backing vector has 4 cells. -/
def steady_start : SnapshotList := framed_ring2_after_one.reset

/-- Calls with stores of size 2 throughout: new ticks out of order, an
overwrite of the last tick, and snapshots of the frame. -/
def steady_calls : List (Int × Option AttributeStore) :=
  [(5, none), (2, some (dense_store 2 200)), (7, none), (7, some (dense_store 2 300)),
   (1, none), (1, none)]

/-- The retained ticks after one more tick was taken, as `take_snapshot` keeps
them: a retained tick changes nothing; a new tick is inserted, after the
smallest retained tick was dropped when `m` ticks are retained. -/
def retain_tick (m : Nat) (retained : List Int) (tick : Int) : List Int :=
  if tick ∈ retained then retained
  else insertKey tick (if retained.length = m then retained.tail else retained)

/-- The retained ticks are the largest of the ticks taken, up to `m` of them:
each retained tick was taken, and a taken tick is missing from the retained
ones only when `m` ticks are retained and each of them is larger. -/
def retains_largest_so_far (m : Nat) (taken retained : List Int) : Prop :=
  (∀ t ∈ retained, t ∈ taken)
  ∧ (∀ a ∈ taken, a ∉ retained → retained.length = m ∧ ∀ b ∈ retained, a < b)

/-- Whether the call `take_snapshot(tick, store)` in state `s` spares every
tick larger than `tick`: the call throws, or fewer than `max_size()` ticks are
retained, or the smallest retained tick is not above `tick`. -/
def spares_larger (s : SnapshotList) (tick : Int) (store : Option AttributeStore) : Bool :=
  decide ((s.take_snapshot tick store).thrown ≠ none) || decide (s.size < s.max_size)
    || (match s.get_ticks with
        | [] => true
        | oldest :: _ => decide (oldest ≤ tick))

/-- Whether every call of a sequence of `take_snapshot` calls spares the ticks
larger than its own, in the state it is made in. -/
def spares_larger_throughout (s : SnapshotList) : List (Int × Option AttributeStore) → Bool
  | [] => true
  | (tick, store) :: rest =>
    spares_larger s tick store
      && spares_larger_throughout (s.take_snapshot tick store).state rest

/-- Calls with out-of-order ticks and an overwrite that never take a tick
below the smallest retained one at a full ring of capacity 2. -/
def sparing_calls : List (Int × Option AttributeStore) :=
  [(1, some (dense_store 1 0)), (5, some (dense_store 1 0)), (5, some (dense_store 1 0)),
   (3, some (dense_store 1 0))]

/-- Calls with the ascending ticks 3 and 5. -/
def ascending_calls : List (Int × Option AttributeStore) :=
  [(3, some (dense_store 1 0)), (5, some (dense_store 1 0))]

/-! ## Lemmas -/

theorem TickMap.keys_erase (m : TickMap α) (k : Int) : (m.erase k).keys = removeKey k m.keys := by
  induction m with
  | nil => rfl
  | cons p rest ih =>
    obtain ⟨k', v'⟩ := p
    simp only [erase, keys, List.map_cons, removeKey] at ih ⊢
    split_ifs <;> simp [ih]

theorem TickMap.keys_assign (m : TickMap α) (k : Int) (v : α) :
    (m.assign k v).keys = insertKey k m.keys := by
  induction m with
  | nil => rfl
  | cons p rest ih =>
    obtain ⟨k', v'⟩ := p
    simp only [assign, keys, List.map_cons, insertKey] at ih ⊢
    split_ifs <;> simp [ih]

theorem TickMap.find_eq_none_iff (m : TickMap α) (k : Int) : m.find k = none ↔ k ∉ m.keys := by
  induction m with
  | nil => simp [find, keys]
  | cons p rest ih =>
    obtain ⟨k', v'⟩ := p
    simp only [find, keys, List.map_cons, List.mem_cons, not_or] at ih ⊢
    by_cases h : k' = k
    · simp [h]
    · simp [h, ih, Ne.symm h]

theorem TickMap.find_isSome_iff (m : TickMap α) (k : Int) : (m.find k).isSome ↔ k ∈ m.keys := by
  rw [← not_iff_not, ← find_eq_none_iff]
  cases m.find k <;> simp

theorem TickMap.begin_keys (m : TickMap α) : m.begin.map Prod.fst = m.keys.head? := by
  cases m <;> rfl

theorem mem_insertKey {k x : Int} {l : List Int} : x ∈ insertKey k l ↔ x = k ∨ x ∈ l := by
  induction l with
  | nil => simp [insertKey]
  | cons a rest ih =>
    simp only [insertKey]
    split_ifs with h1 h2
    · simp
    · subst h2; simp
    · simp [ih]; tauto

theorem mem_removeKey {k x : Int} {l : List Int} : x ∈ removeKey k l ↔ x ≠ k ∧ x ∈ l := by
  induction l with
  | nil => simp [removeKey]
  | cons a rest ih =>
    simp only [removeKey]
    split_ifs with h1
    · subst h1
      simp only [ih, List.mem_cons]
      constructor
      · rintro ⟨h, hm⟩; exact ⟨h, Or.inr hm⟩
      · rintro ⟨h, hm | hm⟩
        · exact absurd hm h
        · exact ⟨h, hm⟩
    · simp only [List.mem_cons, ih]
      constructor
      · rintro (rfl | ⟨h, hm⟩)
        · exact ⟨h1, Or.inl rfl⟩
        · exact ⟨h, Or.inr hm⟩
      · rintro ⟨h, rfl | hm⟩
        · exact Or.inl rfl
        · exact Or.inr ⟨h, hm⟩

theorem pairwise_insertKey {k : Int} {l : List Int} (h : l.Pairwise (· < ·)) :
    (insertKey k l).Pairwise (· < ·) := by
  induction l with
  | nil => simp [insertKey]
  | cons a rest ih =>
    rw [List.pairwise_cons] at h
    simp only [insertKey]
    split_ifs with h1 h2
    · refine List.pairwise_cons.2 ⟨?_, List.pairwise_cons.2 h⟩
      intro x hx
      rcases List.mem_cons.1 hx with rfl | hx
      · exact h1
      · exact lt_trans h1 (h.1 x hx)
    · subst h2; exact List.pairwise_cons.2 h
    · refine List.pairwise_cons.2 ⟨?_, ih h.2⟩
      intro x hx
      rcases mem_insertKey.1 hx with rfl | hx
      · omega
      · exact h.1 x hx

theorem pairwise_removeKey {k : Int} {l : List Int} (h : l.Pairwise (· < ·)) :
    (removeKey k l).Pairwise (· < ·) := by
  induction l with
  | nil => simp [removeKey]
  | cons a rest ih =>
    rw [List.pairwise_cons] at h
    simp only [removeKey]
    split_ifs with h1
    · exact ih h.2
    · exact List.pairwise_cons.2 ⟨fun x hx => h.1 x (mem_removeKey.1 hx).2, ih h.2⟩

theorem length_insertKey_of_not_mem {k : Int} {l : List Int} (h : k ∉ l) :
    (insertKey k l).length = l.length + 1 := by
  induction l with
  | nil => rfl
  | cons a rest ih =>
    simp only [List.mem_cons, not_or] at h
    simp only [insertKey]
    split_ifs with h1 h2
    · rfl
    · exact absurd h2 h.1
    · simp [ih h.2]

theorem removeKey_of_not_mem {k : Int} {l : List Int} (h : k ∉ l) : removeKey k l = l := by
  induction l with
  | nil => rfl
  | cons a rest ih =>
    simp only [List.mem_cons, not_or] at h
    have h1 : ¬ a = k := fun e => h.1 e.symm
    simp [removeKey, h1, ih h.2]

theorem insertKey_removeKey_self {k : Int} {l : List Int} (h : l.Pairwise (· < ·))
    (hk : k ∈ l) : insertKey k (removeKey k l) = l := by
  induction l with
  | nil => simp at hk
  | cons a rest ih =>
    rw [List.pairwise_cons] at h
    by_cases hak : a = k
    · subst hak
      have hn : a ∉ rest := fun hm => lt_irrefl _ (h.1 a hm)
      simp only [removeKey, ↓reduceIte, removeKey_of_not_mem hn]
      cases rest with
      | nil => rfl
      | cons b rest2 =>
        have hab : a < b := h.1 b (List.mem_cons_self _ _)
        simp [insertKey, hab]
    · have hk2 : k ∈ rest := by
        rcases List.mem_cons.1 hk with rfl | hk
        · exact absurd rfl hak
        · exact hk
      have hlt : a < k := h.1 k hk2
      have h1 : ¬ k < a := by omega
      have h2 : ¬ k = a := fun e => hak e.symm
      simp only [removeKey, hak, ↓reduceIte, insertKey, h1, h2, ih h.2 hk2]

theorem length_removeKey_of_mem {k : Int} {l : List Int} (h : l.Pairwise (· < ·))
    (hk : k ∈ l) : (removeKey k l).length + 1 = l.length := by
  have h1 := insertKey_removeKey_self h hk
  have h2 : k ∉ removeKey k l := fun hm => (mem_removeKey.1 hm).1 rfl
  have h3 := length_insertKey_of_not_mem h2
  rw [h1] at h3
  omega

theorem dropOldest_eq_tail {l : List Int} (h : l.Pairwise (· < ·)) : dropOldest l = l.tail := by
  cases l with
  | nil => rfl
  | cons a rest =>
    rw [List.pairwise_cons] at h
    have hn : a ∉ rest := fun hm => lt_irrefl _ (h.1 a hm)
    simp [dropOldest, removeKey, removeKey_of_not_mem hn]

theorem insertKey_of_forall_lt {k : Int} {l : List Int} (h : ∀ x ∈ l, x < k) :
    insertKey k l = l ++ [k] := by
  induction l with
  | nil => rfl
  | cons a rest ih =>
    have ha : a < k := h a (List.mem_cons_self _ _)
    have h1 : ¬ k < a := by omega
    have h2 : ¬ k = a := by omega
    simp only [insertKey, h1, h2, ↓reduceIte, List.cons_append]
    rw [ih (fun x hx => h x (List.mem_cons_of_mem _ hx))]

theorem SnapshotList.copy_from_attr_store_fields (s : SnapshotList) (st : AttributeStore) (t : Int) (i : Nat) :
    (s.copy_from_attr_store st t i)._tick2index_map = s._tick2index_map
    ∧ (s.copy_from_attr_store st t i)._tick2size_map = s._tick2size_map
    ∧ (s.copy_from_attr_store st t i)._tick_attr_map.keys = insertKey t s._tick_attr_map.keys
    ∧ (s.copy_from_attr_store st t i)._cur_snapshot_num = s._cur_snapshot_num
    ∧ (s.copy_from_attr_store st t i)._max_size = s._max_size
    ∧ (s.copy_from_attr_store st t i)._frame = s._frame
    ∧ (s.copy_from_attr_store st t i)._end_index = s._end_index
    ∧ (s.copy_from_attr_store st t i)._first_empty_slot_index = s._first_empty_slot_index
    ∧ (s.copy_from_attr_store st t i)._empty_slots_length = s._empty_slots_length
    ∧ (s.copy_from_attr_store st t i)._is_prepared = s._is_prepared
    ∧ (s.copy_from_attr_store st t i)._query_parameters = s._query_parameters := by
  unfold copy_from_attr_store
  by_cases h : s.is_copy_mapping st = true <;> simp [h, TickMap.keys_assign]

theorem SnapshotList.append_to_end_fields (s : SnapshotList) (st : AttributeStore) (t : Int) :
    (s.append_to_end st t)._tick2index_map.keys = insertKey t s._tick2index_map.keys
    ∧ (s.append_to_end st t)._tick2size_map.keys = insertKey t s._tick2size_map.keys
    ∧ (s.append_to_end st t)._tick_attr_map.keys = insertKey t s._tick_attr_map.keys
    ∧ (s.append_to_end st t)._cur_snapshot_num = s._cur_snapshot_num
    ∧ (s.append_to_end st t)._max_size = s._max_size
    ∧ (s.append_to_end st t)._frame = s._frame
    ∧ (s.append_to_end st t)._is_prepared = s._is_prepared
    ∧ (s.append_to_end st t)._query_parameters = s._query_parameters := by
  unfold append_to_end
  by_cases h : s._end_index + st.size > s._attr_store.length <;>
    simp [h, TickMap.keys_assign, copy_from_attr_store_fields]

theorem SnapshotList.write_to_empty_slots_fields (s : SnapshotList) (st : AttributeStore) (t : Int) :
    (s.write_to_empty_slots st t)._tick2index_map.keys = insertKey t s._tick2index_map.keys
    ∧ (s.write_to_empty_slots st t)._tick2size_map.keys = insertKey t s._tick2size_map.keys
    ∧ (s.write_to_empty_slots st t)._tick_attr_map.keys = insertKey t s._tick_attr_map.keys
    ∧ (s.write_to_empty_slots st t)._cur_snapshot_num = s._cur_snapshot_num
    ∧ (s.write_to_empty_slots st t)._max_size = s._max_size
    ∧ (s.write_to_empty_slots st t)._frame = s._frame
    ∧ (s.write_to_empty_slots st t)._is_prepared = s._is_prepared
    ∧ (s.write_to_empty_slots st t)._query_parameters = s._query_parameters := by
  unfold write_to_empty_slots
  simp [TickMap.keys_assign, copy_from_attr_store_fields]

theorem SnapshotList.remove_existing_fields (s : SnapshotList) (t : Int) (i : Nat) :
    (s.remove_existing t i)._tick2index_map.keys = removeKey t s._tick2index_map.keys
    ∧ (s.remove_existing t i)._tick2size_map.keys = removeKey t s._tick2size_map.keys
    ∧ (s.remove_existing t i)._tick_attr_map.keys = removeKey t s._tick_attr_map.keys
    ∧ (s.remove_existing t i)._cur_snapshot_num = s._cur_snapshot_num - 1
    ∧ (s.remove_existing t i)._max_size = s._max_size
    ∧ (s.remove_existing t i)._frame = s._frame
    ∧ (s.remove_existing t i)._is_prepared = s._is_prepared
    ∧ (s.remove_existing t i)._query_parameters = s._query_parameters := by
  unfold remove_existing
  by_cases h : i + (s._tick2size_map.find t).getD 0 = s._end_index <;>
    simp [h, TickMap.keys_erase]

theorem SnapshotList.erase_oldest_fields (s : SnapshotList) :
    (s.erase_oldest)._tick2index_map.keys = dropOldest s._tick2index_map.keys
    ∧ (s._tick2size_map.keys = s._tick2index_map.keys →
        (s.erase_oldest)._tick2size_map.keys = dropOldest s._tick2index_map.keys)
    ∧ (s._tick_attr_map.keys = s._tick2index_map.keys →
        (s.erase_oldest)._tick_attr_map.keys = dropOldest s._tick2index_map.keys)
    ∧ (s.erase_oldest)._cur_snapshot_num = s._cur_snapshot_num
    ∧ (s.erase_oldest)._max_size = s._max_size
    ∧ (s.erase_oldest)._frame = s._frame
    ∧ (s.erase_oldest)._is_prepared = s._is_prepared
    ∧ (s.erase_oldest)._query_parameters = s._query_parameters := by
  unfold erase_oldest
  cases hm : s._tick2index_map with
  | nil => simp [hm, TickMap.begin, TickMap.keys, dropOldest]
  | cons p rest =>
    obtain ⟨k, v⟩ := p
    have hk : TickMap.keys ((k, v) :: rest) = k :: TickMap.keys rest := rfl
    have hd : dropOldest (k :: TickMap.keys rest) = removeKey k (k :: TickMap.keys rest) := rfl
    simp only [TickMap.begin, List.head?_cons]
    by_cases h0 : s._empty_slots_length = 0 <;>
      simp only [h0, ↓reduceIte, TickMap.keys_erase, hm, hk, hd, true_and, and_true] <;>
      exact ⟨fun h => by rw [h], fun h => by rw [h]⟩

theorem SnapshotList.place_snapshot_fields (s : SnapshotList) (t : Int) (st : AttributeStore) (skip : Bool)
    (hs : s._tick2size_map.keys = s._tick2index_map.keys)
    (ha : s._tick_attr_map.keys = s._tick2index_map.keys) :
    (s.place_snapshot t st skip)._tick2index_map.keys
        = insertKey t (if s._cur_snapshot_num + 1 > s._max_size ∧ skip = false
            then dropOldest s._tick2index_map.keys else s._tick2index_map.keys)
    ∧ (s.place_snapshot t st skip)._tick2size_map.keys
        = (s.place_snapshot t st skip)._tick2index_map.keys
    ∧ (s.place_snapshot t st skip)._tick_attr_map.keys
        = (s.place_snapshot t st skip)._tick2index_map.keys
    ∧ (s.place_snapshot t st skip)._cur_snapshot_num = s._cur_snapshot_num + 1
    ∧ (s.place_snapshot t st skip)._max_size = s._max_size
    ∧ (s.place_snapshot t st skip)._frame = s._frame
    ∧ (s.place_snapshot t st skip)._last_tick = t
    ∧ (s.place_snapshot t st skip)._is_prepared = s._is_prepared
    ∧ (s.place_snapshot t st skip)._query_parameters = s._query_parameters := by
  unfold place_snapshot
  by_cases hc : s._cur_snapshot_num + 1 > s._max_size
  · cases skip
    · have he := erase_oldest_fields { s with _cur_snapshot_num := s._cur_snapshot_num + 1 }
      simp only [] at he
      obtain ⟨e1, e2, e3, e4, e5, e6, e7, e8⟩ := he
      have e2 := e2 hs
      have e3 := e3 ha
      by_cases hw : ({ s with _cur_snapshot_num := s._cur_snapshot_num + 1 } :
          SnapshotList).erase_oldest._empty_slots_length ≥ st.size
      · simp [hc, hw, write_to_empty_slots_fields, e1, e2, e3, e4, e5, e6, e7, e8]
      · simp [hc, hw, append_to_end_fields, e1, e2, e3, e4, e5, e6, e7, e8]
    · by_cases hw : s._empty_slots_length ≥ st.size
      · simp [hc, hw, write_to_empty_slots_fields, hs, ha]
      · simp [hc, hw, append_to_end_fields, hs, ha]
  · simp [hc, append_to_end_fields, hs, ha]

theorem SnapshotList.prepare_memory_eq (s : SnapshotList) :
    ∃ a, s.prepare_memory = { s with _attr_store := a } := by
  obtain ⟨fr, ms, cur, cells, m1, m2, m3, mp, fe, el, ei, lt, ip, qp⟩ := s
  cases fr with
  | none => exact ⟨cells, rfl⟩
  | some f =>
    by_cases h : cells.length = 0
    · exact ⟨resize cells (f._attr_store.size * ms), by simp [prepare_memory, h]⟩
    · exact ⟨cells, by simp [prepare_memory, h]⟩

theorem SnapshotList.prepare_memory_fields (s : SnapshotList) :
    s.prepare_memory._tick2index_map = s._tick2index_map
    ∧ s.prepare_memory._tick2size_map = s._tick2size_map
    ∧ s.prepare_memory._tick_attr_map = s._tick_attr_map
    ∧ s.prepare_memory._cur_snapshot_num = s._cur_snapshot_num
    ∧ s.prepare_memory._max_size = s._max_size
    ∧ s.prepare_memory._frame = s._frame
    ∧ s.prepare_memory._last_tick = s._last_tick
    ∧ s.prepare_memory._is_prepared = s._is_prepared
    ∧ s.prepare_memory._query_parameters = s._query_parameters
    ∧ s.prepare_memory._mappings = s._mappings
    ∧ s.prepare_memory._end_index = s._end_index
    ∧ s.prepare_memory._first_empty_slot_index = s._first_empty_slot_index
    ∧ s.prepare_memory._empty_slots_length = s._empty_slots_length := by
  obtain ⟨a, e⟩ := prepare_memory_eq s
  rw [e]
  simp

/-- The four ways in which the body of `take_snapshot` can end. -/
theorem SnapshotList.take_snapshot_of_cases (s : SnapshotList) (t : Int) (st : AttributeStore) :
    (s._max_size = 0 ∧ s.take_snapshot_of t st = .threw .InvalidSnapshotSize s)
    ∨ (s._max_size ≠ 0 ∧ t ∈ s._tick2index_map.keys ∧ s._last_tick ≠ t
        ∧ s.take_snapshot_of t st = .threw .InvalidSnapshotTick s.prepare_memory)
    ∨ (s._max_size ≠ 0 ∧ t ∈ s._tick2index_map.keys ∧ s._last_tick = t
        ∧ ∃ i, s.take_snapshot_of t st
            = .returned () ((s.prepare_memory.remove_existing t i).place_snapshot t st true))
    ∨ (s._max_size ≠ 0 ∧ t ∉ s._tick2index_map.keys
        ∧ s.take_snapshot_of t st = .returned () (s.prepare_memory.place_snapshot t st false)) := by
  obtain ⟨p1, -, -, -, -, -, p7, -⟩ := prepare_memory_fields s
  unfold take_snapshot_of
  by_cases h0 : s._max_size = 0
  · exact Or.inl ⟨h0, by simp [h0]⟩
  · right
    simp only [h0, ↓reduceIte, p1, p7]
    cases hf : s._tick2index_map.find t with
    | none =>
      right; right
      exact ⟨h0, (TickMap.find_eq_none_iff _ _).1 hf, rfl⟩
    | some i =>
      have hm : t ∈ s._tick2index_map.keys := by
        rw [← TickMap.find_isSome_iff, hf]; rfl
      by_cases hl : s._last_tick = t
      · right; left
        exact ⟨h0, hm, hl, i, by simp [hl]⟩
      · left
        exact ⟨h0, hm, hl, by simp [hl]⟩

theorem WF.prepare_memory {s : SnapshotList} (h : WF s) : WF s.prepare_memory := by
  obtain ⟨p1, p2, p3, p4, p5, -⟩ := SnapshotList.prepare_memory_fields s
  exact ⟨by rw [p1]; exact h.sorted, by rw [p1, p2]; exact h.size_keys,
    by rw [p1, p3]; exact h.attr_keys, by rw [p1, p4, p5]; exact h.count,
    by rw [p4, p5]; exact h.unset⟩

/-- One call of the body of `take_snapshot` on a well-formed list: what it does
to the retained ticks and the counters. -/
theorem take_snapshot_of_step (s : SnapshotList) (t : Int) (st : AttributeStore) (h : WF s) :
    WF (s.take_snapshot_of t st).state
    ∧ (s.take_snapshot_of t st).state._max_size = s._max_size
    ∧ (s.take_snapshot_of t st).state._frame = s._frame
    ∧ ((s.take_snapshot_of t st).thrown ≠ none →
        (s.take_snapshot_of t st).state._tick2index_map.keys = s._tick2index_map.keys
        ∧ (s.take_snapshot_of t st).state._cur_snapshot_num = s._cur_snapshot_num)
    ∧ ((s.take_snapshot_of t st).thrown = none →
        (s.take_snapshot_of t st).state._last_tick = t
        ∧ (t ∈ s._tick2index_map.keys →
            (s.take_snapshot_of t st).state._tick2index_map.keys = s._tick2index_map.keys
            ∧ (s.take_snapshot_of t st).state._cur_snapshot_num = s._cur_snapshot_num)
        ∧ (t ∉ s._tick2index_map.keys →
            (s.take_snapshot_of t st).state._tick2index_map.keys
              = insertKey t (if s._cur_snapshot_num + 1 > s._max_size
                  then s._tick2index_map.keys.tail else s._tick2index_map.keys)
            ∧ (s.take_snapshot_of t st).state._cur_snapshot_num = s._cur_snapshot_num + 1)) := by
  have hpm := h.prepare_memory
  obtain ⟨p1, p2, p3, p4, p5, p6, -⟩ := SnapshotList.prepare_memory_fields s
  rcases SnapshotList.take_snapshot_of_cases s t st with
    ⟨h0, e⟩ | ⟨h0, hm, hl, e⟩ | ⟨h0, hm, hl, i, e⟩ | ⟨h0, hm, e⟩
  · rw [e]
    simp [Outcome.state, Outcome.thrown, h]
  · rw [e]
    simp [Outcome.state, Outcome.thrown, hpm, p1, p4, p5, p6]
  · rw [e]
    simp only [Outcome.state, Outcome.thrown, ne_eq, not_true_eq_false, false_implies, true_implies]
    obtain ⟨r1, r2, r3, r4, r5, r6, -⟩ :=
      SnapshotList.remove_existing_fields s.prepare_memory t i
    have hs1 : (s.prepare_memory.remove_existing t i)._tick2size_map.keys
        = (s.prepare_memory.remove_existing t i)._tick2index_map.keys := by
      rw [r1, r2, hpm.size_keys]
    have ha1 : (s.prepare_memory.remove_existing t i)._tick_attr_map.keys
        = (s.prepare_memory.remove_existing t i)._tick2index_map.keys := by
      rw [r1, r3, hpm.attr_keys]
    obtain ⟨q1, q2, q3, q4, q5, q6, q7, -⟩ :=
      SnapshotList.place_snapshot_fields (s.prepare_memory.remove_existing t i) t st true hs1 ha1
    have hk : ((s.prepare_memory.remove_existing t i).place_snapshot t st true)._tick2index_map.keys
        = s._tick2index_map.keys := by
      rw [q1]
      simp only [Bool.true_eq_false, and_false, ↓reduceIte, r1, p1]
      exact insertKey_removeKey_self h.sorted hm
    have hpos : 1 ≤ s._cur_snapshot_num := by
      have := h.count
      have hl : 0 < s._tick2index_map.keys.length := List.length_pos_of_mem hm
      omega
    have hc : ((s.prepare_memory.remove_existing t i).place_snapshot t st true)._cur_snapshot_num
        = s._cur_snapshot_num := by
      rw [q4, r4, p4]; omega
    have hmx : ((s.prepare_memory.remove_existing t i).place_snapshot t st true)._max_size
        = s._max_size := by
      rw [q5, r5, p5]
    refine ⟨⟨?_, ?_, ?_, ?_, ?_⟩, hmx, ?_, trivial, q7, fun _ => ⟨hk, hc⟩, fun hn => absurd hm hn⟩
    · rw [hk]; exact h.sorted
    · exact q2
    · exact q3
    · rw [hk, hc, hmx]; exact h.count
    · intro hz; rw [hmx] at hz; exact absurd hz h0
    · rw [q6, r6, p6]
  · rw [e]
    simp only [Outcome.state, Outcome.thrown, ne_eq, not_true_eq_false, false_implies, true_implies]
    obtain ⟨q1, q2, q3, q4, q5, q6, q7, -⟩ :=
      SnapshotList.place_snapshot_fields s.prepare_memory t st false hpm.size_keys hpm.attr_keys
    have hk : (s.prepare_memory.place_snapshot t st false)._tick2index_map.keys
        = insertKey t (if s._cur_snapshot_num + 1 > s._max_size
            then s._tick2index_map.keys.tail else s._tick2index_map.keys) := by
      rw [q1]
      simp only [and_true, p1, p4, p5, dropOldest_eq_tail h.sorted]
    have hc : (s.prepare_memory.place_snapshot t st false)._cur_snapshot_num
        = s._cur_snapshot_num + 1 := by
      rw [q4, p4]
    have hmx : (s.prepare_memory.place_snapshot t st false)._max_size = s._max_size := by
      rw [q5, p5]
    have htail : s._tick2index_map.keys.tail.Pairwise (· < ·) :=
      h.sorted.sublist (List.tail_sublist _)
    have hnt : t ∉ s._tick2index_map.keys.tail := fun hx => hm (List.mem_of_mem_tail hx)
    refine ⟨⟨?_, ?_, ?_, ?_, ?_⟩, hmx, ?_, trivial, q7, fun hx => absurd hx hm, fun _ => ⟨hk, hc⟩⟩
    · rw [hk]
      split_ifs
      · exact pairwise_insertKey htail
      · exact pairwise_insertKey h.sorted
    · exact q2
    · exact q3
    · rw [hk, hc, hmx]
      have hcount := h.count
      split_ifs with hgt
      · rw [length_insertKey_of_not_mem hnt, List.length_tail]
        omega
      · rw [length_insertKey_of_not_mem hm]
        omega
    · intro hz; rw [hmx] at hz; exact absurd hz h0
    · rw [q6, p6]

/-- The call `take_snapshot(tick, store)` either throws for want of a source
store, or behaves as its body on the resolved store, up to the content of the
bound frame. -/
theorem SnapshotList.take_snapshot_resolve (s : SnapshotList) (t : Int) (store : Option AttributeStore) :
    (store = none ∧ s._frame = none
      ∧ s.take_snapshot t store = .threw .SnapshotInvalidFrameState s)
    ∨ (∃ st fr, (store = some st ∨ (store = none ∧ ∃ f, s._frame = some f ∧ st = f._attr_store))
        ∧ (s.take_snapshot t store).thrown = (s.take_snapshot_of t st).thrown
        ∧ (s.take_snapshot t store).state = { (s.take_snapshot_of t st).state with _frame := fr }
        ∧ fr.isSome = (s.take_snapshot_of t st).state._frame.isSome) := by
  cases store with
  | some st =>
    right
    exact ⟨st, (s.take_snapshot_of t st).state._frame, Or.inl rfl, rfl, rfl, rfl⟩
  | none =>
    cases hf : s._frame with
    | none =>
      left
      exact ⟨rfl, rfl, by simp [take_snapshot, hf]⟩
    | some f =>
      right
      cases ho : s.take_snapshot_of t f._attr_store with
      | returned v s1 =>
        cases hf1 : s1._frame with
        | none =>
          refine ⟨f._attr_store, none, Or.inr ⟨rfl, f, rfl, rfl⟩, ?_, ?_, ?_⟩
          · simp [take_snapshot, hf, ho, Outcome.thrown]
          · simp [take_snapshot, hf, ho, Outcome.state, arrange_frame, hf1]
            rw [← hf1]
          · simp [ho, Outcome.state, hf1]
        | some f1 =>
          refine ⟨f._attr_store, some { f1 with _attr_store := f1._attr_store.arrange },
            Or.inr ⟨rfl, f, rfl, rfl⟩, ?_, ?_, ?_⟩
          · simp [take_snapshot, hf, ho, Outcome.thrown]
          · simp [take_snapshot, hf, ho, Outcome.state, arrange_frame, hf1]
          · simp [ho, Outcome.state, hf1]
      | threw e s1 =>
        refine ⟨f._attr_store, s1._frame, Or.inr ⟨rfl, f, rfl, rfl⟩, ?_, ?_, ?_⟩
        · simp [take_snapshot, hf, ho, Outcome.thrown]
        · simp [take_snapshot, hf, ho, Outcome.state]
        · simp [ho, Outcome.state]

theorem WF.with_frame {s : SnapshotList} (h : WF s) (fr : Option Frame) :
    WF { s with _frame := fr } :=
  ⟨h.sorted, h.size_keys, h.attr_keys, h.count, h.unset⟩

/-- One call of `take_snapshot` on a well-formed list: what it does to the
retained ticks and the counters. -/
theorem take_snapshot_step (s : SnapshotList) (t : Int) (store : Option AttributeStore)
    (h : WF s) :
    WF (s.take_snapshot t store).state
    ∧ (s.take_snapshot t store).state._max_size = s._max_size
    ∧ (s.take_snapshot t store).state._frame.isSome = s._frame.isSome
    ∧ ((s.take_snapshot t store).thrown ≠ none →
        (s.take_snapshot t store).state._tick2index_map.keys = s._tick2index_map.keys
        ∧ (s.take_snapshot t store).state._cur_snapshot_num = s._cur_snapshot_num)
    ∧ ((s.take_snapshot t store).thrown = none →
        (s.take_snapshot t store).state._last_tick = t
        ∧ (t ∈ s._tick2index_map.keys →
            (s.take_snapshot t store).state._tick2index_map.keys = s._tick2index_map.keys
            ∧ (s.take_snapshot t store).state._cur_snapshot_num = s._cur_snapshot_num)
        ∧ (t ∉ s._tick2index_map.keys →
            (s.take_snapshot t store).state._tick2index_map.keys
              = insertKey t (if s._cur_snapshot_num + 1 > s._max_size
                  then s._tick2index_map.keys.tail else s._tick2index_map.keys)
            ∧ (s.take_snapshot t store).state._cur_snapshot_num = s._cur_snapshot_num + 1)) := by
  rcases SnapshotList.take_snapshot_resolve s t store with ⟨-, -, e⟩ | ⟨st, fr, -, e1, e2, e3⟩
  · rw [e]
    simp [Outcome.state, Outcome.thrown, h]
  · obtain ⟨w, m, f, a, b⟩ := take_snapshot_of_step s t st h
    rw [e1, e2]
    refine ⟨w.with_frame fr, m, ?_, a, b⟩
    rw [← f, ← e3]

/-- The call `take_snapshot(tick, store)` returns whenever a source store is
available, the capacity is set and the tick is new or the last one taken. -/
theorem take_snapshot_returns (s : SnapshotList) (t : Int) (store : Option AttributeStore)
    (hstore : store.isSome ∨ s._frame.isSome) (hmax : s._max_size ≠ 0)
    (htick : t ∈ s._tick2index_map.keys → s._last_tick = t) :
    (s.take_snapshot t store).thrown = none := by
  rcases SnapshotList.take_snapshot_resolve s t store with ⟨e1, e2, -⟩ | ⟨st, fr, -, e1, -, -⟩
  · simp [e1, e2] at hstore
  · rw [e1]
    rcases SnapshotList.take_snapshot_of_cases s t st with
      ⟨h0, -⟩ | ⟨-, hm, hl, -⟩ | ⟨-, -, -, i, e⟩ | ⟨-, -, e⟩
    · exact absurd h0 hmax
    · exact absurd (htick hm) hl
    · rw [e]; rfl
    · rw [e]; rfl

/-- The call `prepare` touches nothing but the prepared flag and the stored
query parameters. -/
theorem SnapshotList.prepare_state_eq (s : SnapshotList) (node_id : Nat) (ticks : Option (List Int))
    (tick_length : Nat) (node_indices : Option (List Nat)) (node_length : Nat)
    (attributes : Option (List Nat)) (attr_length : Nat) :
    ∃ qp ip, (s.prepare node_id ticks tick_length node_indices node_length attributes
      attr_length).state = { s with _query_parameters := qp, _is_prepared := ip } := by
  obtain ⟨fr, ms, cur, cells, m1, m2, m3, mp, fe, el, ei, lt, ip, qp⟩ := s
  unfold prepare
  cases attributes with
  | none => exact ⟨qp, ip, rfl⟩
  | some attrs =>
    by_cases h0 : ms = 0
    · exact ⟨qp, ip, by simp [h0, Outcome.state]⟩
    · cases fr with
      | none => exact ⟨qp, ip, by simp [h0, Outcome.state]⟩
      | some f =>
        by_cases hn : f.ensure_node_id node_id = true
        · exact ⟨_, true, by simp [h0, hn, Outcome.state]; rfl⟩
        · exact ⟨qp, ip, by simp [h0, hn, Outcome.state]⟩

/-- The call `query` touches nothing but the prepared flag and the stored query
parameters. -/
theorem SnapshotList.query_state_eq (s : SnapshotList) (result : Option (List Int))
    (shape : SnapshotResultShape) :
    ∃ qp ip, (s.query result shape).state
      = { s with _query_parameters := qp, _is_prepared := ip } := by
  obtain ⟨fr, ms, cur, cells, m1, m2, m3, mp, fe, el, ei, lt, ip, qp⟩ := s
  unfold query
  cases result with
  | none => exact ⟨qp, ip, rfl⟩
  | some buf =>
    by_cases hp : ip = true
    · by_cases hz : shape.attr_number = 0 ∨ shape.max_node_number = 0
          ∨ shape.max_slot_number = 0 ∨ shape.tick_number = 0
      · exact ⟨qp, ip, by simp [hp, hz, Outcome.state]⟩
      · by_cases h0 : ms = 0
        · exact ⟨qp, ip, by simp [hp, hz, h0, Outcome.state]⟩
        · cases fr with
          | none => exact ⟨qp, ip, by simp [hp, hz, h0, Outcome.state]⟩
          | some f => exact ⟨qp.reset, false, by simp [hp, hz, h0, Outcome.state]⟩
    · exact ⟨qp, ip, by simp [hp, Outcome.state]⟩

/-- The call `set_max_size(n)` leaves the list as it is, or sets the capacity
of a list that had none. -/
theorem SnapshotList.set_max_size_state (s : SnapshotList) (n : Nat) :
    (s.set_max_size n).state = s
    ∨ (n ≠ 0 ∧ s._max_size = 0 ∧ (s.set_max_size n).state = { s with _max_size := n }) := by
  obtain ⟨fr, ms, cur, cells, m1, m2, m3, mp, fe, el, ei, lt, ip, qp⟩ := s
  unfold set_max_size
  by_cases hn : n = 0
  · left; simp [hn, Outcome.state]
  · by_cases h0 : ms = 0
    · right; exact ⟨hn, h0, by simp [hn, h0, Outcome.state]⟩
    · left; simp [hn, h0, Outcome.state]

theorem WF.fresh : WF SnapshotList.fresh :=
  ⟨List.Pairwise.nil, rfl, rfl, rfl, fun _ => rfl⟩

theorem wf_reset (s : SnapshotList) : WF s.reset :=
  ⟨List.Pairwise.nil, rfl, rfl, by simp [SnapshotList.reset, TickMap.keys], fun _ => rfl⟩

theorem WF.set_max_size {s : SnapshotList} (h : WF s) (n : Nat) : WF (s.set_max_size n).state := by
  rcases SnapshotList.set_max_size_state s n with e | ⟨hn, h0, e⟩
  · rw [e]; exact h
  · rw [e]
    have hc := h.unset h0
    have hl := h.count
    refine ⟨h.sorted, h.size_keys, h.attr_keys, ?_, fun hz => absurd hz hn⟩
    simp only [hc, h0] at hl ⊢
    simpa using hl

/-- The bookkeeping invariant is kept by every public member function. -/
theorem reachableFrom_wf {s0 s : SnapshotList} (h : ReachableFrom s0 s) (h0 : WF s0) : WF s := by
  induction h with
  | start => exact h0
  | set_frame s frame _ ih => exact ih.with_frame frame
  | set_max_size s n _ ih => exact ih.set_max_size n
  | take_snapshot s tick store _ ih => exact (take_snapshot_step s tick store ih).1
  | reset s _ _ => exact wf_reset s
  | prepare s node_id ticks tick_length node_indices node_length attributes attr_length _ ih =>
    obtain ⟨qp, ip, e⟩ := SnapshotList.prepare_state_eq s node_id ticks tick_length node_indices
      node_length attributes attr_length
    rw [e]
    exact ⟨ih.sorted, ih.size_keys, ih.attr_keys, ih.count, ih.unset⟩
  | query s result shape _ ih =>
    obtain ⟨qp, ip, e⟩ := SnapshotList.query_state_eq s result shape
    rw [e]
    exact ⟨ih.sorted, ih.size_keys, ih.attr_keys, ih.count, ih.unset⟩

/-- Every reachable list satisfies the bookkeeping invariant. -/
theorem reachable_wf {s : SnapshotList} (h : Reachable s) : WF s :=
  reachableFrom_wf h WF.fresh

/-- Counting invariant of a run: the counter is at least the number of
distinct ticks taken so far, and only taken ticks are retained. -/
theorem run_snapshots_count (calls : List (Int × Option AttributeStore)) :
    ∀ (s : SnapshotList) (T : Finset Int), WF s →
      (∀ k ∈ s._tick2index_map.keys, k ∈ T) → T.card ≤ s._cur_snapshot_num →
      WF (run_snapshots s calls)
      ∧ (run_snapshots s calls)._max_size = s._max_size
      ∧ (T ∪ (succeeded_ticks s calls).toFinset).card ≤ (run_snapshots s calls)._cur_snapshot_num := by
  induction calls with
  | nil =>
    intro s T h _ hc
    simp [run_snapshots, succeeded_ticks, h, hc]
  | cons c rest ih =>
    obtain ⟨t, store⟩ := c
    intro s T h hk hc
    obtain ⟨w, m, -, a, b⟩ := take_snapshot_step s t store h
    simp only [run_snapshots, succeeded_ticks]
    by_cases hth : (s.take_snapshot t store).thrown = none
    · obtain ⟨-, b1, b2⟩ := b hth
      simp only [hth, ↓reduceIte, List.toFinset_cons]
      have hk' : ∀ k ∈ (s.take_snapshot t store).state._tick2index_map.keys, k ∈ insert t T := by
        intro k hkm
        by_cases hm : t ∈ s._tick2index_map.keys
        · rw [(b1 hm).1] at hkm
          exact Finset.mem_insert_of_mem (hk k hkm)
        · rw [(b2 hm).1] at hkm
          rcases mem_insertKey.1 hkm with rfl | hkm
          · exact Finset.mem_insert_self _ _
          · refine Finset.mem_insert_of_mem (hk k ?_)
            split_ifs at hkm
            · exact List.mem_of_mem_tail hkm
            · exact hkm
      have hc' : (insert t T).card ≤ (s.take_snapshot t store).state._cur_snapshot_num := by
        by_cases hm : t ∈ s._tick2index_map.keys
        · rw [(b1 hm).2, Finset.insert_eq_of_mem (hk t hm)]
          exact hc
        · rw [(b2 hm).2]
          exact le_trans (Finset.card_insert_le _ _) (Nat.succ_le_succ hc)
      obtain ⟨r1, r2, r3⟩ := ih _ (insert t T) w hk' hc'
      refine ⟨r1, by rw [r2, m], ?_⟩
      have e : T ∪ insert t (succeeded_ticks (s.take_snapshot t store).state rest).toFinset
          = insert t T ∪ (succeeded_ticks (s.take_snapshot t store).state rest).toFinset := by
        ext x; simp only [Finset.mem_union, Finset.mem_insert]; tauto
      rw [e]
      exact r3
    · obtain ⟨a1, a2⟩ := a hth
      simp only [hth, ↓reduceIte]
      obtain ⟨r1, r2, r3⟩ := ih _ T w (by rw [a1]; exact hk) (by rw [a2]; exact hc)
      exact ⟨r1, by rw [r2, m], r3⟩

theorem size_le_max_size (s : SnapshotList) : s.size ≤ s.max_size := by
  unfold SnapshotList.size SnapshotList.max_size
  split_ifs <;> omega

theorem wf_fresh_with (frame : Option Frame) (m : Nat) :
    WF ((SnapshotList.fresh.set_frame frame).set_max_size m).state :=
  (WF.fresh.with_frame frame).set_max_size m

theorem Cleared.facts {m : Nat} {start : SnapshotList} (hm : 0 < m) (h : Cleared m start) :
    WF start ∧ start._max_size = m ∧ start._cur_snapshot_num = 0
    ∧ start._tick2index_map.keys = [] := by
  rcases h with ⟨frame, rfl⟩ | ⟨s0, h0, rfl⟩
  · refine ⟨wf_fresh_with frame m, ?_, ?_, ?_⟩
    · have hne : m ≠ 0 := by omega
      simp [SnapshotList.set_max_size, hne, SnapshotList.set_frame, SnapshotList.fresh,
        Outcome.state]
    · simp only [SnapshotList.set_max_size]
      split_ifs <;> rfl
    · simp only [SnapshotList.set_max_size]
      split_ifs <;> rfl
  · exact ⟨wf_reset s0, h0, rfl, rfl⟩

theorem lastN_lastN_append (m : Nat) (a b : List Int) :
    lastN m (lastN m a ++ b) = lastN m (a ++ b) := by
  unfold lastN
  have h1 : List.drop (a.length - m) a ++ b = List.drop (a.length - m) (a ++ b) := by
    rw [List.drop_append_of_le_length (by omega)]
  rw [h1, List.drop_drop]
  congr 1
  simp only [List.length_drop, List.length_append]
  omega

theorem lastN_of_length_le {m : Nat} {l : List Int} (h : l.length ≤ m) : lastN m l = l := by
  unfold lastN
  have : l.length - m = 0 := by omega
  rw [this, List.drop_zero]

theorem lastN_snoc {m : Nat} {K : List Int} (t : Int) (hm : 0 < m) (hK : K.length ≤ m) :
    (if K.length = m then K.tail else K) ++ [t] = lastN m (K ++ [t]) := by
  unfold lastN
  split_ifs with h
  · have : (K ++ [t]).length - m = 1 := by simp; omega
    rw [this]
    cases K with
    | nil => simp at h; omega
    | cons a rest => simp
  · have : (K ++ [t]).length - m = 0 := by simp; omega
    rw [this, List.drop_zero]

/-- Retention invariant of a run with ascending ticks: every call returns and
the retained ticks are the last `m` of those retained before followed by those
taken. -/
theorem run_snapshots_ascending (m : Nat) (hm : 0 < m)
    (calls : List (Int × Option AttributeStore)) :
    ∀ s : SnapshotList, WF s → s._max_size = m →
      (∀ c ∈ calls, c.2.isSome ∨ s._frame.isSome) →
      (s._tick2index_map.keys ++ calls.map Prod.fst).Pairwise (· < ·) →
      succeeded_ticks s calls = calls.map Prod.fst
      ∧ (run_snapshots s calls)._tick2index_map.keys
          = lastN m (s._tick2index_map.keys ++ calls.map Prod.fst) := by
  induction calls with
  | nil =>
    intro s w hmax _ _
    have hK : s._tick2index_map.keys.length ≤ m := by
      have := w.count; omega
    simp [run_snapshots, succeeded_ticks, lastN_of_length_le hK]
  | cons c rest ih =>
    obtain ⟨t, store⟩ := c
    intro s w hmax hst hsorted
    have hK : s._tick2index_map.keys.length ≤ m := by
      have := w.count; omega
    simp only [List.map_cons] at hsorted
    have hlt : ∀ k ∈ s._tick2index_map.keys, k < t := by
      intro k hk
      exact (List.pairwise_append.1 hsorted).2.2 k hk t (List.mem_cons_self _ _)
    have hnot : t ∉ s._tick2index_map.keys := fun hk => lt_irrefl _ (hlt t hk)
    have hret : (s.take_snapshot t store).thrown = none :=
      take_snapshot_returns s t store (hst (t, store) (List.mem_cons_self _ _))
        (by omega) (fun hk => absurd hk hnot)
    obtain ⟨w', m', f', -, b⟩ := take_snapshot_step s t store w
    obtain ⟨-, -, b2⟩ := b hret
    obtain ⟨k1, -⟩ := b2 hnot
    have hcond : (s._cur_snapshot_num + 1 > s._max_size) ↔ s._tick2index_map.keys.length = m := by
      have := w.count
      constructor <;> intro hx <;> omega
    have hkeys : (s.take_snapshot t store).state._tick2index_map.keys
        = lastN m (s._tick2index_map.keys ++ [t]) := by
      rw [k1, ← lastN_snoc t hm hK]
      by_cases hfull : s._tick2index_map.keys.length = m
      · have hgt := hcond.2 hfull
        simp only [hgt, hfull, ↓reduceIte]
        exact insertKey_of_forall_lt (fun x hx => hlt x (List.mem_of_mem_tail hx))
      · have hgt : ¬ (s._cur_snapshot_num + 1 > s._max_size) := fun hx => hfull (hcond.1 hx)
        simp only [hgt, hfull, ↓reduceIte]
        exact insertKey_of_forall_lt hlt
    have hsorted' : ((s.take_snapshot t store).state._tick2index_map.keys
        ++ rest.map Prod.fst).Pairwise (· < ·) := by
      rw [hkeys]
      have hsub : (lastN m (s._tick2index_map.keys ++ [t]) ++ rest.map Prod.fst).Sublist
          ((s._tick2index_map.keys ++ [t]) ++ rest.map Prod.fst) :=
        List.Sublist.append (List.drop_sublist _ _) (List.Sublist.refl _)
      refine List.Pairwise.sublist hsub ?_
      simpa using hsorted
    have hst' : ∀ c ∈ rest, c.2.isSome ∨ (s.take_snapshot t store).state._frame.isSome := by
      intro c hc
      rw [f']
      exact hst c (List.mem_cons_of_mem _ hc)
    obtain ⟨r1, r2⟩ := ih (s.take_snapshot t store).state w' (by rw [m', hmax]) hst' hsorted'
    simp only [succeeded_ticks, run_snapshots, hret, ↓reduceIte, r1, r2, List.map_cons, hkeys,
      lastN_lastN_append, true_and]
    simp

theorem retains_largest_lastN {m : Nat} {l : List Int} (hs : l.Pairwise (· < ·))
    (hl : m < l.length) : retains_largest m l (lastN m l) := by
  unfold lastN
  have hsplit : l.take (l.length - m) ++ l.drop (l.length - m) = l := List.take_append_drop _ _
  refine ⟨by simp; omega, fun t ht => List.mem_of_mem_drop ht, ?_⟩
  intro a ha hna b hb
  rw [← hsplit] at hs ha
  rcases List.mem_append.1 ha with h1 | h1
  · exact (List.pairwise_append.1 hs).2.2 a h1 b hb
  · exact absurd h1 hna

theorem WF.max_size_ne_zero_of_mem {s : SnapshotList} (h : WF s) {t : Int}
    (ht : t ∈ s._tick2index_map.keys) : s._max_size ≠ 0 := by
  have hc := h.count
  have hl : 0 < s._tick2index_map.keys.length := List.length_pos_of_mem ht
  omega

theorem reachable_run_snapshots {s0 s : SnapshotList} (h : ReachableFrom s0 s)
    (calls : List (Int × Option AttributeStore)) : ReachableFrom s0 (run_snapshots s calls) := by
  induction calls generalizing s with
  | nil => exact h
  | cons c rest ih => exact ih (ReachableFrom.take_snapshot s c.1 c.2 h)

theorem reachable_ring (m : Nat) : Reachable (SnapshotList.fresh.set_max_size m).state :=
  ReachableFrom.set_max_size _ m ReachableFrom.start

theorem get_of_not_retained (s : SnapshotList) (tick : Int) (key : Nat)
    (h : tick ∉ s._tick2index_map.keys) : s.get tick key = Attribute.nan := by
  unfold SnapshotList.get
  rw [(TickMap.find_eq_none_iff _ _).2 h]
  rfl

theorem reachableFrom_max_size {s0 s : SnapshotList} (h : ReachableFrom s0 s) (hw : WF s0)
    (h0 : s0._max_size ≠ 0) : s._max_size = s0._max_size := by
  induction h with
  | start => rfl
  | set_frame s frame _ ih => exact ih
  | set_max_size s n _ ih =>
    rcases SnapshotList.set_max_size_state s n with e | ⟨-, hz, -⟩
    · rw [e]; exact ih
    · rw [ih] at hz; exact absurd hz h0
  | take_snapshot s tick store hs ih =>
    rw [(take_snapshot_step s tick store (reachableFrom_wf hs hw)).2.1]; exact ih
  | reset s _ ih => exact ih
  | prepare s node_id ticks tick_length node_indices node_length attributes attr_length _ ih =>
    obtain ⟨qp, ip, e⟩ := SnapshotList.prepare_state_eq s node_id ticks tick_length node_indices
      node_length attributes attr_length
    rw [e]; exact ih
  | query s result shape _ ih =>
    obtain ⟨qp, ip, e⟩ := SnapshotList.query_state_eq s result shape
    rw [e]; exact ih

theorem foldl_max_range_le (g : Nat → Nat) (n i : Nat) (hi : i < n) :
    g i ≤ (List.range n).foldl (fun acc j => max (g j) acc) 0 := by
  induction n with
  | zero => omega
  | succ n ih =>
    rw [List.range_succ, List.foldl_append]
    simp only [List.foldl_cons, List.foldl_nil]
    by_cases h : i < n
    · exact le_trans (ih h) (le_max_right _ _)
    · have : i = n := by omega
      subst this
      exact le_max_left _ _

theorem foldl_max_range_attained (g : Nat → Nat) (n : Nat) (hn : 0 < n) :
    ∃ i, i < n ∧ g i = (List.range n).foldl (fun acc j => max (g j) acc) 0 := by
  induction n with
  | zero => omega
  | succ n ih =>
    rw [List.range_succ, List.foldl_append]
    simp only [List.foldl_cons, List.foldl_nil]
    by_cases h0 : n = 0
    · subst h0
      exact ⟨0, by omega, by simp⟩
    · obtain ⟨i, hi, e⟩ := ih (by omega)
      by_cases hle : (List.range n).foldl (fun acc j => max (g j) acc) 0 ≤ g n
      · exact ⟨n, by omega, by rw [max_eq_left hle]⟩
      · exact ⟨i, by omega, by rw [max_eq_right (by omega)]; exact e⟩

theorem size_eq_min (s : SnapshotList) : s.size = min s._cur_snapshot_num s._max_size := by
  unfold SnapshotList.size
  split_ifs <;> omega

theorem TickMap.find_assign_self {α : Type} (m : TickMap α) (k : Int) (v : α) :
    (m.assign k v).find k = some v := by
  induction m with
  | nil => simp [TickMap.assign, TickMap.find]
  | cons p rest ih =>
    obtain ⟨k', v'⟩ := p
    simp only [TickMap.assign]
    split_ifs with h1 h2
    · simp [TickMap.find]
    · simp [TickMap.find]
    · have hne : ¬ k' = k := fun e => h2 e.symm
      simp [TickMap.find, hne, ih]

theorem SnapshotList.append_to_end_tail (s : SnapshotList) (st : AttributeStore) (t : Int) :
    (s.append_to_end st t)._tick2index_map.find t = some s._end_index
    ∧ (s.append_to_end st t)._tick2size_map.find t = some st.size
    ∧ (s.append_to_end st t)._end_index = s._end_index + st.size := by
  unfold SnapshotList.append_to_end
  by_cases h : s._end_index + st.size > s._attr_store.length <;>
    simp [h, TickMap.find_assign_self, SnapshotList.copy_from_attr_store_fields]

theorem SnapshotList.write_to_empty_slots_tail (s : SnapshotList) (st : AttributeStore)
    (t : Int) :
    (s.write_to_empty_slots st t)._tick2index_map.find t = some s._first_empty_slot_index
    ∧ (s.write_to_empty_slots st t)._tick2size_map.find t = some st.size
    ∧ (s.write_to_empty_slots st t)._first_empty_slot_index
        = s._first_empty_slot_index + st.size := by
  unfold SnapshotList.write_to_empty_slots
  simp [TickMap.find_assign_self, SnapshotList.copy_from_attr_store_fields]

/-- After a snapshot is placed, it ends at `end_index` or at the start of the
hole. -/
theorem SnapshotList.place_snapshot_tail (s : SnapshotList) (t : Int) (st : AttributeStore)
    (skip : Bool) :
    (s.place_snapshot t st skip)._last_tick = t
    ∧ ∃ index size,
        (s.place_snapshot t st skip)._tick2index_map.find t = some index
        ∧ (s.place_snapshot t st skip)._tick2size_map.find t = some size
        ∧ size = st.size
        ∧ (index + size = (s.place_snapshot t st skip)._end_index
          ∨ index + size = (s.place_snapshot t st skip)._first_empty_slot_index) := by
  have happ : ∀ x : SnapshotList, ∃ index size,
      (x.append_to_end st t)._tick2index_map.find t = some index
      ∧ (x.append_to_end st t)._tick2size_map.find t = some size
      ∧ size = st.size
      ∧ (index + size = (x.append_to_end st t)._end_index
        ∨ index + size = (x.append_to_end st t)._first_empty_slot_index) := by
    intro x
    obtain ⟨a, b, c⟩ := SnapshotList.append_to_end_tail x st t
    exact ⟨_, _, a, b, rfl, Or.inl c.symm⟩
  have hwr : ∀ x : SnapshotList, ∃ index size,
      (x.write_to_empty_slots st t)._tick2index_map.find t = some index
      ∧ (x.write_to_empty_slots st t)._tick2size_map.find t = some size
      ∧ size = st.size
      ∧ (index + size = (x.write_to_empty_slots st t)._end_index
        ∨ index + size = (x.write_to_empty_slots st t)._first_empty_slot_index) := by
    intro x
    obtain ⟨a, b, c⟩ := SnapshotList.write_to_empty_slots_tail x st t
    exact ⟨_, _, a, b, rfl, Or.inr c.symm⟩
  unfold SnapshotList.place_snapshot
  refine ⟨rfl, ?_⟩
  simp only []
  by_cases h1 : s._cur_snapshot_num + 1 > s._max_size
  · simp only [h1, ↓reduceIte]
    cases skip
    · simp only [Bool.not_false, ↓reduceIte]
      split_ifs
      · exact hwr _
      · exact happ _
    · simp only [Bool.not_true, Bool.false_eq_true, ↓reduceIte]
      split_ifs
      · exact hwr _
      · exact happ _
  · simp only [h1, ↓reduceIte]
    exact happ _

theorem SnapshotList.is_copy_mapping_eq_false_iff (x : SnapshotList) (st : AttributeStore) :
    x.is_copy_mapping st = false ↔
      ∃ t0 id, x._tick_attr_map.rbegin = some (t0, id) ∧ st.is_dirty = false
        ∧ (x._mappings.getD id []).length = st.size := by
  unfold SnapshotList.is_copy_mapping
  cases hr : x._tick_attr_map.rbegin with
  | none => simp
  | some p =>
    obtain ⟨t0, id⟩ := p
    by_cases hd : st.is_dirty = true
    · simp [hd]
    · have hd' : st.is_dirty = false := by simpa using hd
      rw [hd']
      simp only [Bool.false_eq_true, ↓reduceIte, ne_eq, decide_not, Bool.not_eq_false',
        decide_eq_true_eq]
      constructor
      · intro h
        exact ⟨t0, id, rfl, trivial, h⟩
      · rintro ⟨t1, id1, he, -, h⟩
        simp only [Option.some.injEq, Prod.mk.injEq] at he
        rw [he.2]
        exact h

/-- What `copy_from_attr_store` does to the mappings and to the mapping id of
the tick. -/
theorem SnapshotList.copy_from_attr_store_mapping (x : SnapshotList) (st : AttributeStore)
    (t : Int) (i : Nat) :
    (x.is_copy_mapping st = true →
      (x.copy_from_attr_store st t i)._mappings = x._mappings ++ [st.copy_to.2]
      ∧ (x.copy_from_attr_store st t i)._tick_attr_map.find t = some x._mappings.length)
    ∧ (x.is_copy_mapping st = false →
      (x.copy_from_attr_store st t i)._mappings = x._mappings
      ∧ ∃ t0 id, x._tick_attr_map.rbegin = some (t0, id)
        ∧ (x.copy_from_attr_store st t i)._tick_attr_map.find t = some id) := by
  constructor
  · intro h
    simp [SnapshotList.copy_from_attr_store, h, TickMap.find_assign_self]
  · intro h
    obtain ⟨t0, id, hr, -, -⟩ := (SnapshotList.is_copy_mapping_eq_false_iff x st).1 h
    simp [SnapshotList.copy_from_attr_store, h, TickMap.find_assign_self, hr]

/-- The effect of `copy_from_attr_store` on the mappings depends only on the
mappings and on `_tick_attr_map`. -/
theorem SnapshotList.copy_from_attr_store_congr (x y : SnapshotList) (st : AttributeStore)
    (t : Int) (i j : Nat) (h1 : x._tick_attr_map = y._tick_attr_map)
    (h2 : x._mappings = y._mappings) :
    (x.copy_from_attr_store st t i)._mappings = (y.copy_from_attr_store st t j)._mappings
    ∧ (x.copy_from_attr_store st t i)._tick_attr_map
        = (y.copy_from_attr_store st t j)._tick_attr_map := by
  have hc : x.is_copy_mapping st = y.is_copy_mapping st := by
    simp [SnapshotList.is_copy_mapping, h1, h2]
  unfold SnapshotList.copy_from_attr_store
  rw [hc, h1, h2]
  by_cases h : y.is_copy_mapping st = true <;> simp [h]

theorem SnapshotList.append_to_end_mapping (x : SnapshotList) (st : AttributeStore) (t : Int) :
    (x.append_to_end st t)._mappings = (x.copy_from_attr_store st t 0)._mappings
    ∧ (x.append_to_end st t)._tick_attr_map = (x.copy_from_attr_store st t 0)._tick_attr_map := by
  unfold SnapshotList.append_to_end
  simp only []
  split_ifs
  · exact SnapshotList.copy_from_attr_store_congr _ x st t _ 0 rfl rfl
  · exact SnapshotList.copy_from_attr_store_congr _ x st t _ 0 rfl rfl

theorem SnapshotList.write_to_empty_slots_mapping (x : SnapshotList) (st : AttributeStore)
    (t : Int) :
    (x.write_to_empty_slots st t)._mappings = (x.copy_from_attr_store st t 0)._mappings
    ∧ (x.write_to_empty_slots st t)._tick_attr_map
        = (x.copy_from_attr_store st t 0)._tick_attr_map := by
  unfold SnapshotList.write_to_empty_slots
  exact SnapshotList.copy_from_attr_store_congr _ x st t _ 0 rfl rfl

theorem SnapshotList.erase_oldest_mapping (x : SnapshotList) :
    x.erase_oldest._mappings = x._mappings
    ∧ x.erase_oldest._tick_attr_map
        = (match x._tick2index_map.begin with
          | none => x._tick_attr_map
          | some (oldest, _) => x._tick_attr_map.erase oldest) := by
  unfold SnapshotList.erase_oldest
  cases x._tick2index_map.begin with
  | none => exact ⟨rfl, rfl⟩
  | some p =>
    obtain ⟨k, v⟩ := p
    simp only []
    split_ifs <;> exact ⟨rfl, rfl⟩

/-- The state whose mappings and `_tick_attr_map` the copy step of
`place_snapshot` works on. -/
theorem SnapshotList.place_snapshot_mapping (s : SnapshotList) (t : Int) (st : AttributeStore)
    (skip : Bool) :
    ∃ x : SnapshotList, x._mappings = s._mappings
      ∧ x._tick_attr_map
          = (if s._cur_snapshot_num + 1 > s._max_size ∧ skip = false then
              (match s._tick2index_map.begin with
                | none => s._tick_attr_map
                | some (oldest, _) => s._tick_attr_map.erase oldest)
            else s._tick_attr_map)
      ∧ (s.place_snapshot t st skip)._mappings = (x.copy_from_attr_store st t 0)._mappings
      ∧ (s.place_snapshot t st skip)._tick_attr_map
          = (x.copy_from_attr_store st t 0)._tick_attr_map := by
  unfold SnapshotList.place_snapshot
  simp only []
  by_cases h1 : s._cur_snapshot_num + 1 > s._max_size
  · simp only [h1, ↓reduceIte, true_and]
    cases skip
    · obtain ⟨e1, e2⟩ := SnapshotList.erase_oldest_mapping
        { s with _cur_snapshot_num := s._cur_snapshot_num + 1 }
      refine ⟨({ s with _cur_snapshot_num := s._cur_snapshot_num + 1 } :
        SnapshotList).erase_oldest, e1, by simpa using e2, ?_⟩
      simp only [Bool.not_false, ↓reduceIte]
      split_ifs
      · exact SnapshotList.write_to_empty_slots_mapping _ st t
      · exact SnapshotList.append_to_end_mapping _ st t
    · refine ⟨{ s with _cur_snapshot_num := s._cur_snapshot_num + 1 }, rfl, by simp, ?_⟩
      simp only [Bool.not_true, Bool.false_eq_true, ↓reduceIte]
      split_ifs
      · exact SnapshotList.write_to_empty_slots_mapping _ st t
      · exact SnapshotList.append_to_end_mapping _ st t
  · simp only [h1, ↓reduceIte, false_and]
    exact ⟨{ s with _cur_snapshot_num := s._cur_snapshot_num + 1 }, rfl, rfl,
      SnapshotList.append_to_end_mapping _ st t⟩

theorem SnapshotList.remove_existing_mapping (s : SnapshotList) (t : Int) (i : Nat) :
    (s.remove_existing t i)._mappings = s._mappings
    ∧ (s.remove_existing t i)._tick_attr_map = s._tick_attr_map.erase t := by
  unfold SnapshotList.remove_existing
  simp only []
  split_ifs <;> exact ⟨rfl, rfl⟩

/-- The mapping rule of one placement, in terms of the record consulted. -/
theorem SnapshotList.place_snapshot_rule (y : SnapshotList) (t : Int) (st : AttributeStore)
    (skip : Bool) (cand : Option (Int × Nat))
    (hcand : (if y._cur_snapshot_num + 1 > y._max_size ∧ skip = false then
        (match y._tick2index_map.begin with
          | none => y._tick_attr_map
          | some (oldest, _) => y._tick_attr_map.erase oldest)
      else y._tick_attr_map).rbegin = cand) :
    ((∃ t0 id, cand = some (t0, id) ∧ st.is_dirty = false
        ∧ (y._mappings.getD id []).length = st.size) →
      (y.place_snapshot t st skip)._mappings = y._mappings
      ∧ ∃ t0 id, cand = some (t0, id)
        ∧ (y.place_snapshot t st skip)._tick_attr_map.find t = some id)
    ∧ (¬ (∃ t0 id, cand = some (t0, id) ∧ st.is_dirty = false
        ∧ (y._mappings.getD id []).length = st.size) →
      (y.place_snapshot t st skip)._mappings = y._mappings ++ [st.copy_to.2]
      ∧ (y.place_snapshot t st skip)._tick_attr_map.find t = some y._mappings.length) := by
  obtain ⟨x, hx1, hx2, hx3, hx4⟩ := SnapshotList.place_snapshot_mapping y t st skip
  rw [← hx2] at hcand
  obtain ⟨c1, c2⟩ := SnapshotList.copy_from_attr_store_mapping x st t 0
  have hiff := SnapshotList.is_copy_mapping_eq_false_iff x st
  rw [hcand, hx1] at hiff
  rw [hx3, hx4]
  constructor
  · intro hR
    obtain ⟨e1, t0, id, e2, e3⟩ := c2 (hiff.2 hR)
    rw [hcand] at e2
    exact ⟨by rw [e1, hx1], t0, id, e2, e3⟩
  · intro hR
    have hc : x.is_copy_mapping st = true := by
      cases h : x.is_copy_mapping st with
      | true => rfl
      | false => exact absurd (hiff.1 h) hR
    obtain ⟨e1, e2⟩ := c1 hc
    rw [hx1] at e1 e2
    exact ⟨e1, e2⟩

/-- The mapping rule of the body of `take_snapshot`. -/
theorem take_snapshot_of_rule (s : SnapshotList) (tick : Int) (st : AttributeStore)
    (hret : (s.take_snapshot_of tick st).thrown = none) :
    (reuses_mapping s tick st →
      (s.take_snapshot_of tick st).state._mappings = s._mappings
      ∧ ∃ t0 id, reuse_candidate s tick = some (t0, id)
        ∧ (s.take_snapshot_of tick st).state._tick_attr_map.find tick = some id)
    ∧ (¬ reuses_mapping s tick st →
      (s.take_snapshot_of tick st).state._mappings = s._mappings ++ [st.copy_to.2]
      ∧ (s.take_snapshot_of tick st).state._tick_attr_map.find tick = some s._mappings.length) := by
  obtain ⟨p1, -, p3, p4, p5, -, -, -, -, p10, -⟩ := SnapshotList.prepare_memory_fields s
  unfold reuses_mapping
  rcases SnapshotList.take_snapshot_of_cases s tick st with
    ⟨-, e⟩ | ⟨-, -, -, e⟩ | ⟨-, hm, -, i, e⟩ | ⟨-, hm, e⟩
  · rw [e] at hret; simp [Outcome.thrown] at hret
  · rw [e] at hret; simp [Outcome.thrown] at hret
  · rw [e]
    simp only [Outcome.state]
    obtain ⟨r1, r2⟩ := SnapshotList.remove_existing_mapping s.prepare_memory tick i
    have hc : reuse_candidate s tick = (s._tick_attr_map.erase tick).rbegin := by
      have : (s._tick2index_map.find tick).isSome = true := (TickMap.find_isSome_iff _ _).2 hm
      simp [reuse_candidate, this]
    have h := SnapshotList.place_snapshot_rule (s.prepare_memory.remove_existing tick i) tick st
      true (reuse_candidate s tick) (by simp [r2, p3, hc])
    rw [r1, p10] at h
    exact h
  · rw [e]
    simp only [Outcome.state]
    have hc : reuse_candidate s tick
        = (if s._cur_snapshot_num + 1 > s._max_size ∧ false = false then
            (match s._tick2index_map.begin with
              | none => s._tick_attr_map
              | some (oldest, _) => s._tick_attr_map.erase oldest)
          else s._tick_attr_map).rbegin := by
      have : (s._tick2index_map.find tick).isSome = false := by
        rw [(TickMap.find_eq_none_iff _ _).2 hm]; rfl
      simp only [reuse_candidate, this, Bool.false_eq_true, ↓reduceIte, and_true]
      split_ifs
      · cases s._tick2index_map.begin with
        | none => rfl
        | some p => rfl
      · rfl
    have h := SnapshotList.place_snapshot_rule s.prepare_memory tick st false
      (reuse_candidate s tick) (by rw [p1, p3, p4, p5]; exact hc.symm)
    rw [p10] at h
    exact h

theorem WritesBlock.congr {F : Nat × List Int → Nat × List Int} {B B' : Nat}
    {c c' : Nat → Attribute} (h : WritesBlock F B c) (hB : B = B') (hc : ∀ t, t < B → c t = c' t) :
    WritesBlock F B' c' := by
  subst hB
  intro r buf
  obtain ⟨h1, h2⟩ := h r buf
  refine ⟨h1, fun q => ?_⟩
  rw [h2 q]
  by_cases hq : r ≤ q ∧ q < r + B
  · rw [hc (q - r) (by omega)]
  · have e1 : ¬ (r ≤ q ∧ q < r + B ∧ (c (q - r)).is_nan = false) := fun h => hq ⟨h.1, h.2.1⟩
    have e2 : ¬ (r ≤ q ∧ q < r + B ∧ (c' (q - r)).is_nan = false) := fun h => hq ⟨h.1, h.2.1⟩
    rw [if_neg e1, if_neg e2]

theorem div_mod_block (a B u : Nat) (hu : u < B) : (a * B + u) / B = a ∧ (a * B + u) % B = u := by
  have hB : 0 < B := by omega
  constructor
  · rw [Nat.add_comm, Nat.add_mul_div_right _ _ hB, Nat.div_eq_of_lt hu, Nat.zero_add]
  · rw [Nat.add_comm, Nat.add_mul_mod_self_right, Nat.mod_eq_of_lt hu]

theorem block_index_lt (a n B u : Nat) (ha : a < n) (hu : u < B) : a * B + u < n * B := by
  have h1 : (a + 1) * B ≤ n * B := Nat.mul_le_mul_right B ha
  have h2 : (a + 1) * B = a * B + B := by ring
  omega

/-- A loop over `n` steps that each write a block of `B` cells writes a block
of `n * B` cells. -/
theorem WritesBlock.loop (F : Nat → Nat × List Int → Nat × List Int) (B : Nat)
    (c : Nat → Nat → Attribute) (n : Nat) (h : ∀ i, i < n → WritesBlock (F i) B (c i)) :
    WritesBlock (fun acc => (List.range n).foldl (fun acc i => F i acc) acc) (n * B)
      (fun t => c (t / B) (t % B)) := by
  induction n with
  | zero =>
    intro r buf
    refine ⟨by simp, fun q => ?_⟩
    have e : ¬ (r ≤ q ∧ q < r + 0 * B ∧ (c ((q - r) / B) ((q - r) % B)).is_nan = false) :=
      fun hx => by omega
    simp only [List.range_zero, List.foldl_nil]
    rw [if_neg e]
  | succ n ih =>
    have ih' := ih (fun i hi => h i (by omega))
    intro r buf
    simp only [List.range_succ, List.foldl_append, List.foldl_cons, List.foldl_nil]
    obtain ⟨a1, a2⟩ := ih' r buf
    simp only [] at a1 a2
    obtain ⟨b1, b2⟩ := h n (by omega)
      ((List.range n).foldl (fun acc i => F i acc) (r, buf)).1
      ((List.range n).foldl (fun acc i => F i acc) (r, buf)).2
    simp only [Prod.mk.eta] at b1 b2
    have hmul : (n + 1) * B = n * B + B := by ring
    refine ⟨by rw [b1, a1, hmul]; omega, fun q => ?_⟩
    rw [b2 q, a1, a2 q, hmul]
    by_cases hq1 : r + n * B ≤ q ∧ q < r + n * B + B
    · -- the cell lies in the last block
      obtain ⟨d1, d2⟩ := div_mod_block n B (q - (r + n * B)) (by omega)
      have hqr : q - r = n * B + (q - (r + n * B)) := by omega
      have e0 : ¬ (r ≤ q ∧ q < r + n * B ∧ (c ((q - r) / B) ((q - r) % B)).is_nan = false) :=
        fun hx => by omega
      rw [if_neg e0, hqr, d1, d2]
      by_cases hn : (c n (q - (r + n * B))).is_nan = false
      · have e1 : r + n * B ≤ q ∧ q < r + n * B + B ∧ (c n (q - (r + n * B))).is_nan = false :=
          ⟨hq1.1, hq1.2, hn⟩
        have e2 : r ≤ q ∧ q < r + (n * B + B) ∧ (c n (q - (r + n * B))).is_nan = false :=
          ⟨by omega, by omega, hn⟩
        rw [if_pos e1, if_pos e2]
      · have e1 : ¬ (r + n * B ≤ q ∧ q < r + n * B + B
            ∧ (c n (q - (r + n * B))).is_nan = false) := fun hx => hn hx.2.2
        have e2 : ¬ (r ≤ q ∧ q < r + (n * B + B) ∧ (c n (q - (r + n * B))).is_nan = false) :=
          fun hx => hn hx.2.2
        rw [if_neg e1, if_neg e2]
    · have e1 : ¬ (r + n * B ≤ q ∧ q < r + n * B + B
          ∧ (c n (q - (r + n * B))).is_nan = false) := fun hx => hq1 ⟨hx.1, hx.2.1⟩
      rw [if_neg e1]
      by_cases hq2 : r ≤ q ∧ q < r + n * B
      · by_cases hn : (c ((q - r) / B) ((q - r) % B)).is_nan = false
        · have e2 : r ≤ q ∧ q < r + n * B ∧ (c ((q - r) / B) ((q - r) % B)).is_nan = false :=
            ⟨hq2.1, hq2.2, hn⟩
          have e3 : r ≤ q ∧ q < r + (n * B + B)
              ∧ (c ((q - r) / B) ((q - r) % B)).is_nan = false := ⟨hq2.1, by omega, hn⟩
          rw [if_pos e2, if_pos e3]
        · have e2 : ¬ (r ≤ q ∧ q < r + n * B
              ∧ (c ((q - r) / B) ((q - r) % B)).is_nan = false) := fun hx => hn hx.2.2
          have e3 : ¬ (r ≤ q ∧ q < r + (n * B + B)
              ∧ (c ((q - r) / B) ((q - r) % B)).is_nan = false) := fun hx => hn hx.2.2
          rw [if_neg e2, if_neg e3]
      · have e2 : ¬ (r ≤ q ∧ q < r + n * B
            ∧ (c ((q - r) / B) ((q - r) % B)).is_nan = false) := fun hx => hq2 ⟨hx.1, hx.2.1⟩
        have e3 : ¬ (r ≤ q ∧ q < r + (n * B + B)
            ∧ (c ((q - r) / B) ((q - r) % B)).is_nan = false) := fun hx => by omega
        rw [if_neg e2, if_neg e3]

/-- The body of the slot loop writes one cell. -/
theorem writesBlock_cell (attr : Attribute) :
    WritesBlock (fun acc => (acc.1 + 1,
      if (!attr.is_nan) = true then acc.2.set acc.1 attr.toFloat else acc.2)) 1 (fun _ => attr) := by
  intro r buf
  refine ⟨rfl, fun q => ?_⟩
  simp only []
  cases hn : attr.is_nan with
  | true => simp
  | false =>
    simp only [Bool.not_false, ↓reduceIte, and_true]
    rw [List.getElem?_set]
    by_cases hq : r = q
    · subst hq
      by_cases hl : r < buf.length
      · simp [hl]
      · simp [hl, List.getElem?_eq_none (Nat.le_of_not_lt hl)]
    · have e : ¬ (r ≤ q ∧ q < r + 1) := fun hx => hq (by omega)
      simp [hq, e]

theorem WritesBlock.length_eq {F : Nat × List Int → Nat × List Int} {B : Nat}
    {c : Nat → Attribute} (h : WritesBlock F B c) (r : Nat) (buf : List Int) :
    (F (r, buf)).2.length = buf.length := by
  have hs : ∀ q : Nat, ((F (r, buf)).2[q]?).isSome = (buf[q]?).isSome := by
    intro q
    rw [(h r buf).2 q]
    split_ifs <;> simp
  apply le_antisymm
  · by_contra hlt
    have h1 := hs buf.length
    rw [List.getElem?_eq_none (le_refl _), List.getElem?_eq_getElem (by omega)] at h1
    simp at h1
  · by_contra hlt
    have h1 := hs (F (r, buf)).2.length
    rw [List.getElem?_eq_none (le_refl _), List.getElem?_eq_getElem (by omega)] at h1
    simp at h1

theorem writesBlock_slots (s : SnapshotList) (tick : Int) (node_id node_index attr_id S : Nat) :
    WritesBlock (s.query_slots tick node_id node_index attr_id S) S
      (fun sl => s.call tick node_id node_index attr_id sl) := by
  have h := WritesBlock.loop
    (fun sl acc => (acc.1 + 1,
      if (!(s.call tick node_id node_index attr_id sl).is_nan) = true then
        acc.2.set acc.1 (s.call tick node_id node_index attr_id sl).toFloat
      else acc.2)) 1
    (fun sl _ => s.call tick node_id node_index attr_id sl) S
    (fun sl _ => writesBlock_cell _)
  exact h.congr (by simp) (fun t _ => by simp)

theorem writesBlock_attrs (s : SnapshotList) (tick : Int) (node_id node_index : Nat)
    (attrs : List Nat) (A S : Nat) :
    WritesBlock
      (fun acc => (List.range A).foldl
        (fun acc k => s.query_slots tick node_id node_index (attrs.getD k 0) S acc) acc)
      (A * S) (fun t => s.call tick node_id node_index (attrs.getD (t / S) 0) (t % S)) :=
  WritesBlock.loop (fun k => s.query_slots tick node_id node_index (attrs.getD k 0) S) S
    (fun k sl => s.call tick node_id node_index (attrs.getD k 0) sl) A
    (fun k _ => writesBlock_slots s tick node_id node_index (attrs.getD k 0) S)

theorem writesBlock_nodes (s : SnapshotList) (tick : Int) (node_id : Nat)
    (node_indices : List Nat) (attrs : List Nat) (N A S : Nat) :
    WritesBlock
      (fun acc => (List.range N).foldl
        (fun acc j => (List.range A).foldl
          (fun acc k => s.query_slots tick node_id (node_indices.getD j 0) (attrs.getD k 0) S acc)
          acc) acc)
      (N * (A * S))
      (fun t => s.call tick node_id (node_indices.getD (t / (A * S)) 0)
        (attrs.getD (t % (A * S) / S) 0) (t % (A * S) % S)) :=
  WritesBlock.loop
    (fun j acc => (List.range A).foldl
      (fun acc k => s.query_slots tick node_id (node_indices.getD j 0) (attrs.getD k 0) S acc) acc)
    (A * S)
    (fun j t => s.call tick node_id (node_indices.getD j 0) (attrs.getD (t / S) 0) (t % S)) N
    (fun j _ => writesBlock_attrs s tick node_id (node_indices.getD j 0) attrs A S)

theorem writesBlock_ticks (s : SnapshotList) (node_id : Nat) (ticks : List Int)
    (node_indices : List Nat) (attrs : List Nat) (T N A S : Nat) :
    WritesBlock
      (fun acc => (List.range T).foldl
        (fun acc i => (List.range N).foldl
          (fun acc j => (List.range A).foldl
            (fun acc k => s.query_slots (ticks.getD i 0) node_id (node_indices.getD j 0)
              (attrs.getD k 0) S acc) acc) acc) acc)
      (T * (N * (A * S)))
      (fun t => s.call (ticks.getD (t / (N * (A * S))) 0) node_id
        (node_indices.getD (t % (N * (A * S)) / (A * S)) 0)
        (attrs.getD (t % (N * (A * S)) % (A * S) / S) 0) (t % (N * (A * S)) % (A * S) % S)) :=
  WritesBlock.loop
    (fun i acc => (List.range N).foldl
      (fun acc j => (List.range A).foldl
        (fun acc k => s.query_slots (ticks.getD i 0) node_id (node_indices.getD j 0)
          (attrs.getD k 0) S acc) acc) acc)
    (N * (A * S))
    (fun i t => s.call (ticks.getD i 0) node_id (node_indices.getD (t / (A * S)) 0)
      (attrs.getD (t % (A * S) / S) 0) (t % (A * S) % S)) T
    (fun i _ => writesBlock_nodes s (ticks.getD i 0) node_id node_indices attrs N A S)

/-- The result buffer after the loop nest of `query`, cell by cell. -/
theorem query_loops_cell (s : SnapshotList) (node_id : Nat) (ticks : List Int)
    (node_indices : List Nat) (attrs : List Nat) (T N A S : Nat) (buf : List Int)
    (i j k sl : Nat) (hi : i < T) (hj : j < N) (hk : k < A) (hsl : sl < S) :
    (s.query_loops node_id ticks T node_indices N attrs A S buf).2.length = buf.length
    ∧ (s.query_loops node_id ticks T node_indices N attrs A S buf).2[((i * N + j) * A + k) * S
        + sl]?
      = if (s.call (ticks.getD i 0) node_id (node_indices.getD j 0) (attrs.getD k 0) sl).is_nan
        then buf[((i * N + j) * A + k) * S + sl]?
        else (buf[((i * N + j) * A + k) * S + sl]?).map
          (fun _ => (s.call (ticks.getD i 0) node_id (node_indices.getD j 0) (attrs.getD k 0)
            sl).toFloat) := by
  have hw := writesBlock_ticks s node_id ticks node_indices attrs T N A S
  refine ⟨hw.length_eq 0 buf, ?_⟩
  have h := (hw 0 buf).2 (((i * N + j) * A + k) * S + sl)
  have hp : ((i * N + j) * A + k) * S + sl = i * (N * (A * S)) + (j * (A * S) + (k * S + sl)) := by
    ring
  have hv : k * S + sl < A * S := block_index_lt k A S sl hk hsl
  have hu : j * (A * S) + (k * S + sl) < N * (A * S) := block_index_lt j N (A * S) _ hj hv
  have hlt : i * (N * (A * S)) + (j * (A * S) + (k * S + sl)) < T * (N * (A * S)) :=
    block_index_lt i T (N * (A * S)) _ hi hu
  obtain ⟨d1, d2⟩ := div_mod_block i (N * (A * S)) _ hu
  obtain ⟨d3, d4⟩ := div_mod_block j (A * S) _ hv
  obtain ⟨d5, d6⟩ := div_mod_block k S sl hsl
  unfold SnapshotList.query_loops
  simp only [] at h
  rw [h, hp]
  simp only [Nat.sub_zero, d1, d2, d3, d4, d5, d6, Nat.zero_le, Nat.zero_add, hlt, true_and]
  cases (s.call (ticks.getD i 0) node_id (node_indices.getD j 0) (attrs.getD k 0) sl).is_nan <;>
    simp

theorem query_loops_length (s : SnapshotList) (node_id : Nat) (ticks : List Int)
    (node_indices : List Nat) (attrs : List Nat) (T N A S : Nat) (buf : List Int) :
    (s.query_loops node_id ticks T node_indices N attrs A S buf).2.length = buf.length :=
  (writesBlock_ticks s node_id ticks node_indices attrs T N A S).length_eq 0 buf

/-- What a returning `prepare` leaves behind: the shape and the stored query
parameters. -/
theorem prepare_returned (s : SnapshotList) (node_id : Nat) (ticks : Option (List Int))
    (tick_length : Nat) (node_indices : Option (List Nat)) (node_length : Nat)
    (attributes : Option (List Nat)) (attr_length : Nat) (shape : SnapshotResultShape)
    (h : (s.prepare node_id ticks tick_length node_indices node_length attributes
      attr_length).value = some shape) :
    ∃ (f : Frame) (attrs : List Nat),
      s._frame = some f ∧ attributes = some attrs ∧ s._max_size ≠ 0
      ∧ shape =
        { max_slot_number := SnapshotList.prepare_max_slot_number f attrs attr_length
          max_node_number := if node_indices.isNone then (f.node node_id).number else node_length
          tick_number := if ticks.isNone then s._tick2index_map.size else tick_length
          attr_number := attr_length }
      ∧ (s.prepare node_id ticks tick_length node_indices node_length attributes
          attr_length).state =
        { s with
          _query_parameters :=
            { attributes := some attrs
              attr_length := attr_length
              node_id := node_id
              node_indices := node_indices
              node_length := if node_indices.isNone then (f.node node_id).number else node_length
              ticks := ticks
              tick_length := if ticks.isNone then s._tick2index_map.size else tick_length }
          _is_prepared := true } := by
  unfold SnapshotList.prepare at h ⊢
  cases attributes with
  | none => simp [Outcome.value] at h
  | some attrs =>
    by_cases h0 : s._max_size = 0
    · simp [h0, Outcome.value] at h
    · cases hf : s._frame with
      | none => simp [h0, hf, Outcome.value] at h
      | some f =>
        by_cases hn : f.ensure_node_id node_id = true
        · simp only [h0, ↓reduceIte, hf, hn, Bool.not_true, Bool.false_eq_true, Outcome.value,
            Option.some.injEq] at h
          refine ⟨f, attrs, rfl, rfl, h0, h.symm, ?_⟩
          simp [h0, hn, Outcome.state]
        · simp [h0, hf, hn, Outcome.value] at h

/-- The value returned by `query` on a prepared list when no dimension of the
shape is zero. -/
theorem query_returned (x : SnapshotList) (f : Frame) (buf : List Int)
    (shape : SnapshotResultShape) (hp : x._is_prepared = true)
    (hz : ¬ (shape.attr_number = 0 ∨ shape.max_node_number = 0 ∨ shape.max_slot_number = 0
      ∨ shape.tick_number = 0))
    (h0 : x._max_size ≠ 0) (hf : x._frame = some f) :
    (x.query (some buf) shape).value = some
      (x.query_loops x._query_parameters.node_id
        (x._query_parameters.ticks.getD x._tick2index_map.keys)
        (if x._query_parameters.ticks.isNone then x._tick2index_map.size
          else x._query_parameters.tick_length)
        (x._query_parameters.node_indices.getD
          (List.range (f.node x._query_parameters.node_id).number))
        (if x._query_parameters.node_indices.isNone then
          (f.node x._query_parameters.node_id).number
          else x._query_parameters.node_length)
        (x._query_parameters.attributes.getD []) x._query_parameters.attr_length
        shape.max_slot_number buf).2 := by
  unfold SnapshotList.query
  simp only [hp, Bool.not_true, Bool.false_eq_true, ↓reduceIte]
  rw [if_neg hz, if_neg h0]
  simp only [hf, Outcome.value]

theorem TickMap.find_assign_ne {α : Type} (m : TickMap α) (t k : Int) (v : α) (h : k ≠ t) :
    (m.assign t v).find k = m.find k := by
  induction m with
  | nil =>
    have : ¬ t = k := fun e => h e.symm
    simp [TickMap.assign, TickMap.find, this]
  | cons p rest ih =>
    obtain ⟨k', v'⟩ := p
    simp only [TickMap.assign]
    split_ifs with h1 h2
    · have : ¬ t = k := fun e => h e.symm
      simp [TickMap.find, this]
    · subst h2
      have : ¬ t = k := fun e => h e.symm
      simp [TickMap.find, this]
    · simp [TickMap.find, ih]

theorem TickMap.find_erase_self {α : Type} (m : TickMap α) (t : Int) :
    (m.erase t).find t = none := by
  induction m with
  | nil => rfl
  | cons p rest ih =>
    obtain ⟨k', v'⟩ := p
    simp only [TickMap.erase]
    split_ifs with h1
    · exact ih
    · simp [TickMap.find, h1, ih]

theorem TickMap.find_erase_ne {α : Type} (m : TickMap α) (t k : Int) (h : k ≠ t) :
    (m.erase t).find k = m.find k := by
  induction m with
  | nil => rfl
  | cons p rest ih =>
    obtain ⟨k', v'⟩ := p
    simp only [TickMap.erase]
    split_ifs with h1
    · subst h1
      have : ¬ k' = k := fun e => h e.symm
      simp [TickMap.find, this, ih]
    · simp [TickMap.find, ih]

theorem TickMap.begin_find {α : Type} (m : TickMap α) (t0 : Int) (v0 : α)
    (h : m.begin = some (t0, v0)) : m.find t0 = some v0 := by
  cases m with
  | nil => simp [TickMap.begin] at h
  | cons p rest =>
    simp only [TickMap.begin, List.head?_cons, Option.some.injEq] at h
    subst h
    simp [TickMap.find]

theorem TickMap.find_isSome_of_keys_eq {α β : Type} (m : TickMap α) (m' : TickMap β)
    (h : m.keys = m'.keys) (t : Int) (v : β) (hf : m'.find t = some v) :
    ∃ w, m.find t = some w := by
  have h1 : (m'.find t).isSome = true := by rw [hf]; rfl
  have h2 : t ∈ m.keys := by rw [h]; exact (TickMap.find_isSome_iff _ _).1 h1
  have h3 := (TickMap.find_isSome_iff m t).2 h2
  exact Option.isSome_iff_exists.1 h3

theorem SnapshotList.copy_from_attr_store_layout (x : SnapshotList) (st : AttributeStore)
    (t : Int) (i : Nat) :
    (x.copy_from_attr_store st t i)._tick2index_map = x._tick2index_map
    ∧ (x.copy_from_attr_store st t i)._tick2size_map = x._tick2size_map
    ∧ (x.copy_from_attr_store st t i)._end_index = x._end_index
    ∧ (x.copy_from_attr_store st t i)._first_empty_slot_index = x._first_empty_slot_index
    ∧ (x.copy_from_attr_store st t i)._empty_slots_length = x._empty_slots_length := by
  obtain ⟨a, b, -, -, -, -, c, d, e, -⟩ := SnapshotList.copy_from_attr_store_fields x st t i
  exact ⟨a, b, c, d, e⟩

/-- The layout left by `append_to_end`. -/
theorem SnapshotList.append_to_end_layout (x : SnapshotList) (st : AttributeStore) (t : Int) :
    (x.append_to_end st t)._tick2index_map = x._tick2index_map.assign t x._end_index
    ∧ (x.append_to_end st t)._tick2size_map = x._tick2size_map.assign t st.size
    ∧ (x.append_to_end st t)._end_index = x._end_index + st.size
    ∧ (x.append_to_end st t)._first_empty_slot_index = x._first_empty_slot_index
    ∧ (x.append_to_end st t)._empty_slots_length = x._empty_slots_length := by
  unfold SnapshotList.append_to_end
  by_cases h : x._end_index + st.size > x._attr_store.length <;>
    simp [h, SnapshotList.copy_from_attr_store_layout]

/-- The layout left by `write_to_empty_slots`. -/
theorem SnapshotList.write_to_empty_slots_layout (x : SnapshotList) (st : AttributeStore)
    (t : Int) :
    (x.write_to_empty_slots st t)._tick2index_map
        = x._tick2index_map.assign t x._first_empty_slot_index
    ∧ (x.write_to_empty_slots st t)._tick2size_map = x._tick2size_map.assign t st.size
    ∧ (x.write_to_empty_slots st t)._end_index = x._end_index
    ∧ (x.write_to_empty_slots st t)._first_empty_slot_index
        = x._first_empty_slot_index + st.size
    ∧ (x.write_to_empty_slots st t)._empty_slots_length = x._empty_slots_length - st.size := by
  unfold SnapshotList.write_to_empty_slots
  simp [SnapshotList.copy_from_attr_store_layout]

/-- The layout left by the eviction of the oldest tick when there is no hole. -/
theorem SnapshotList.erase_oldest_layout (x : SnapshotList) (t0 : Int) (o0 : Nat)
    (hb : x._tick2index_map.begin = some (t0, o0)) (hel : x._empty_slots_length = 0) :
    x.erase_oldest._tick2index_map = x._tick2index_map.erase t0
    ∧ x.erase_oldest._tick2size_map = x._tick2size_map.erase t0
    ∧ x.erase_oldest._end_index = x._end_index
    ∧ x.erase_oldest._first_empty_slot_index = o0
    ∧ x.erase_oldest._empty_slots_length = (x._tick2size_map.find t0).getD 0 := by
  unfold SnapshotList.erase_oldest
  simp [hb, hel]

/-- The layout left by the removal of the record of an overwritten tick. -/
theorem SnapshotList.remove_existing_layout (x : SnapshotList) (t : Int) (i : Nat) :
    (x.remove_existing t i)._tick2index_map = x._tick2index_map.erase t
    ∧ (x.remove_existing t i)._tick2size_map = x._tick2size_map.erase t
    ∧ (x.remove_existing t i)._cur_snapshot_num = x._cur_snapshot_num - 1
    ∧ (x.remove_existing t i)._max_size = x._max_size
    ∧ (i + (x._tick2size_map.find t).getD 0 = x._end_index →
        (x.remove_existing t i)._end_index = i
        ∧ (x.remove_existing t i)._first_empty_slot_index = x._first_empty_slot_index
        ∧ (x.remove_existing t i)._empty_slots_length = x._empty_slots_length)
    ∧ (i + (x._tick2size_map.find t).getD 0 ≠ x._end_index →
        (x.remove_existing t i)._end_index = x._end_index
        ∧ (x.remove_existing t i)._first_empty_slot_index = i
        ∧ (x.remove_existing t i)._empty_slots_length
            = x._empty_slots_length + (x._tick2size_map.find t).getD 0) := by
  unfold SnapshotList.remove_existing
  by_cases h : i + (x._tick2size_map.find t).getD 0 = x._end_index <;> simp [h]

/-- Placement by appending: the ring is not full, or the tick is overwritten
and the hole is too small. -/
theorem SnapshotList.place_snapshot_append (x : SnapshotList) (t : Int) (st : AttributeStore)
    (skip : Bool)
    (h : ¬ (x._cur_snapshot_num + 1 > x._max_size)
      ∨ (skip = true ∧ ¬ (x._empty_slots_length ≥ st.size))) :
    (x.place_snapshot t st skip)._tick2index_map = x._tick2index_map.assign t x._end_index
    ∧ (x.place_snapshot t st skip)._tick2size_map = x._tick2size_map.assign t st.size
    ∧ (x.place_snapshot t st skip)._end_index = x._end_index + st.size
    ∧ (x.place_snapshot t st skip)._first_empty_slot_index = x._first_empty_slot_index
    ∧ (x.place_snapshot t st skip)._empty_slots_length = x._empty_slots_length := by
  have happ := SnapshotList.append_to_end_layout
    { x with _cur_snapshot_num := x._cur_snapshot_num + 1 } st t
  unfold SnapshotList.place_snapshot
  simp only []
  by_cases h1 : x._cur_snapshot_num + 1 > x._max_size
  · rcases h with h | ⟨hs, hel⟩
    · exact absurd h1 h
    · subst hs
      simp only [h1, ↓reduceIte, Bool.not_true, Bool.false_eq_true, hel]
      exact happ
  · simp only [h1, ↓reduceIte]
    exact happ

/-- Placement of an overwritten tick into the hole. -/
theorem SnapshotList.place_snapshot_hole (x : SnapshotList) (t : Int) (st : AttributeStore)
    (h1 : x._cur_snapshot_num + 1 > x._max_size) (h2 : x._empty_slots_length ≥ st.size) :
    (x.place_snapshot t st true)._tick2index_map
        = x._tick2index_map.assign t x._first_empty_slot_index
    ∧ (x.place_snapshot t st true)._tick2size_map = x._tick2size_map.assign t st.size
    ∧ (x.place_snapshot t st true)._end_index = x._end_index
    ∧ (x.place_snapshot t st true)._first_empty_slot_index
        = x._first_empty_slot_index + st.size
    ∧ (x.place_snapshot t st true)._empty_slots_length = x._empty_slots_length - st.size := by
  have hwr := SnapshotList.write_to_empty_slots_layout
    { x with _cur_snapshot_num := x._cur_snapshot_num + 1 } st t
  unfold SnapshotList.place_snapshot
  simp only [h1, ↓reduceIte, Bool.not_true, Bool.false_eq_true, h2]
  exact hwr

/-- Placement of a new tick on a full ring without hole, when the evicted
region is large enough: the new tick takes the place of the oldest one. -/
theorem SnapshotList.place_snapshot_evict (x : SnapshotList) (t : Int) (st : AttributeStore)
    (t0 : Int) (o0 : Nat) (h1 : x._cur_snapshot_num + 1 > x._max_size)
    (hb : x._tick2index_map.begin = some (t0, o0)) (hel : x._empty_slots_length = 0)
    (hsz : (x._tick2size_map.find t0).getD 0 ≥ st.size) :
    (x.place_snapshot t st false)._tick2index_map = (x._tick2index_map.erase t0).assign t o0
    ∧ (x.place_snapshot t st false)._tick2size_map = (x._tick2size_map.erase t0).assign t st.size
    ∧ (x.place_snapshot t st false)._end_index = x._end_index
    ∧ (x.place_snapshot t st false)._first_empty_slot_index = o0 + st.size
    ∧ (x.place_snapshot t st false)._empty_slots_length
        = (x._tick2size_map.find t0).getD 0 - st.size := by
  obtain ⟨e1, e2, e3, e4, e5⟩ := SnapshotList.erase_oldest_layout
    { x with _cur_snapshot_num := x._cur_snapshot_num + 1 } t0 o0 hb hel
  obtain ⟨w1, w2, w3, w4, w5⟩ := SnapshotList.write_to_empty_slots_layout
    ({ x with _cur_snapshot_num := x._cur_snapshot_num + 1 } : SnapshotList).erase_oldest st t
  have hge : ({ x with _cur_snapshot_num := x._cur_snapshot_num + 1 } :
      SnapshotList).erase_oldest._empty_slots_length ≥ st.size := by
    rw [e5]; exact hsz
  unfold SnapshotList.place_snapshot
  simp only [h1, ↓reduceIte, Bool.not_false, hge]
  rw [w1, w2, w3, w4, w5, e1, e2, e3, e4, e5]
  exact ⟨rfl, rfl, rfl, rfl, rfl⟩

/-- The invariant is kept when a tick `t` takes over the offset of a tick `a`. -/
theorem Steady.replace {sz m : Nat} {s o : SnapshotList} (h : Steady sz m s) (a t : Int)
    (oa : Nat) (ha : s._tick2index_map.find a = some oa) (hw : WF o) (hmax : o._max_size = m)
    (hel : o._empty_slots_length = 0)
    (hi : o._tick2index_map = (s._tick2index_map.erase a).assign t oa)
    (hz : o._tick2size_map = (s._tick2size_map.erase a).assign t sz)
    (he : o._end_index = s._end_index)
    (hk : o._tick2index_map.keys.length = s._tick2index_map.keys.length)
    (htail : o._cur_snapshot_num ≤ m →
      ∀ x, o._tick2index_map.find o._last_tick = some x → x + sz = o._end_index) :
    Steady sz m o := by
  have hfind : ∀ k x, k ≠ t → o._tick2index_map.find k = some x →
      k ≠ a ∧ s._tick2index_map.find k = some x := by
    intro k x hkt hf
    rw [hi, TickMap.find_assign_ne _ _ _ _ hkt] at hf
    by_cases hka : k = a
    · subst hka; rw [TickMap.find_erase_self] at hf; simp at hf
    · rw [TickMap.find_erase_ne _ _ _ hka] at hf; exact ⟨hka, hf⟩
  have hft : o._tick2index_map.find t = some oa := by rw [hi, TickMap.find_assign_self]
  refine ⟨hw, hmax, hel, ?_, ?_, ?_, ?_, htail⟩
  · intro k n hf
    rw [hz] at hf
    by_cases hkt : k = t
    · subst hkt
      rw [TickMap.find_assign_self] at hf
      exact (Option.some.inj hf).symm
    · rw [TickMap.find_assign_ne _ _ _ _ hkt] at hf
      by_cases hka : k = a
      · subst hka; rw [TickMap.find_erase_self] at hf; simp at hf
      · rw [TickMap.find_erase_ne _ _ _ hka] at hf; exact h.sizes k n hf
  · intro k x hf
    rw [he]
    by_cases hkt : k = t
    · subst hkt
      rw [hft] at hf
      rw [← Option.some.inj hf]
      exact h.offsets a oa ha
    · exact h.offsets k x (hfind k x hkt hf).2
  · intro t1 t2 x h1 h2
    by_cases e1 : t1 = t
    · by_cases e2 : t2 = t
      · rw [e1, e2]
      · subst e1
        rw [hft] at h1
        obtain ⟨n2, f2⟩ := hfind t2 x e2 h2
        rw [← Option.some.inj h1] at f2
        exact absurd (h.inj t2 a oa f2 ha) n2
    · by_cases e2 : t2 = t
      · subst e2
        rw [hft] at h2
        obtain ⟨n1, f1⟩ := hfind t1 x e1 h1
        rw [← Option.some.inj h2] at f1
        exact absurd (h.inj t1 a oa f1 ha) n1
      · exact h.inj t1 t2 x (hfind t1 x e1 h1).2 (hfind t2 x e2 h2).2
  · rw [he, hk]; exact h.end_eq

/-- The invariant is kept when a tick `t` is appended at `end_index`. -/
theorem Steady.append {sz m : Nat} {s o : SnapshotList} (h : Steady sz m s) (hsz : 0 < sz)
    (t : Int) (hw : WF o) (hmax : o._max_size = m) (hel : o._empty_slots_length = 0)
    (hi : o._tick2index_map = s._tick2index_map.assign t s._end_index)
    (hz : o._tick2size_map = s._tick2size_map.assign t sz)
    (he : o._end_index = s._end_index + sz)
    (hk : o._tick2index_map.keys.length = s._tick2index_map.keys.length + 1)
    (hlast : o._last_tick = t) :
    Steady sz m o := by
  have hfind : ∀ k x, k ≠ t → o._tick2index_map.find k = some x →
      s._tick2index_map.find k = some x := by
    intro k x hkt hf
    rw [hi, TickMap.find_assign_ne _ _ _ _ hkt] at hf
    exact hf
  have hft : o._tick2index_map.find t = some s._end_index := by
    rw [hi, TickMap.find_assign_self]
  refine ⟨hw, hmax, hel, ?_, ?_, ?_, ?_, ?_⟩
  · intro k n hf
    rw [hz] at hf
    by_cases hkt : k = t
    · subst hkt
      rw [TickMap.find_assign_self] at hf
      exact (Option.some.inj hf).symm
    · rw [TickMap.find_assign_ne _ _ _ _ hkt] at hf
      exact h.sizes k n hf
  · intro k x hf
    rw [he]
    by_cases hkt : k = t
    · subst hkt
      rw [hft] at hf
      rw [← Option.some.inj hf]
      exact ⟨by rw [h.end_eq]; exact Dvd.intro_left _ rfl, le_refl _⟩
    · obtain ⟨d, b⟩ := h.offsets k x (hfind k x hkt hf)
      exact ⟨d, by omega⟩
  · intro t1 t2 x h1 h2
    by_cases e1 : t1 = t
    · by_cases e2 : t2 = t
      · rw [e1, e2]
      · subst e1
        rw [hft] at h1
        have f2 := hfind t2 x e2 h2
        rw [← Option.some.inj h1] at f2
        have := (h.offsets t2 _ f2).2
        omega
    · by_cases e2 : t2 = t
      · subst e2
        rw [hft] at h2
        have f1 := hfind t1 x e1 h1
        rw [← Option.some.inj h2] at f1
        have := (h.offsets t1 _ f1).2
        omega
      · exact h.inj t1 t2 x (hfind t1 x e1 h1) (hfind t2 x e2 h2)
  · rw [he, hk, h.end_eq]; ring
  · intro _ x hx
    rw [hlast, hft] at hx
    rw [he, ← Option.some.inj hx]

theorem SnapshotList.take_snapshot_of_overwrite (s : SnapshotList) (t : Int)
    (st : AttributeStore) (i : Nat) (h0 : s._max_size ≠ 0)
    (hf : s._tick2index_map.find t = some i) (hl : s._last_tick = t) :
    s.take_snapshot_of t st
      = .returned () ((s.prepare_memory.remove_existing t i).place_snapshot t st true) := by
  obtain ⟨p1, -, -, -, -, -, p7, -⟩ := SnapshotList.prepare_memory_fields s
  unfold SnapshotList.take_snapshot_of
  simp only [h0, ↓reduceIte, p1, p7, hf, hl, ne_eq, not_true_eq_false]

theorem SnapshotList.take_snapshot_of_new (s : SnapshotList) (t : Int) (st : AttributeStore)
    (h0 : s._max_size ≠ 0) (hf : s._tick2index_map.find t = none) :
    s.take_snapshot_of t st = .returned () (s.prepare_memory.place_snapshot t st false) := by
  obtain ⟨p1, -⟩ := SnapshotList.prepare_memory_fields s
  unfold SnapshotList.take_snapshot_of
  simp only [h0, ↓reduceIte, p1, hf]

theorem SnapshotList.take_snapshot_of_rejected (s : SnapshotList) (t : Int)
    (st : AttributeStore) (h : (s.take_snapshot_of t st).thrown ≠ none) :
    (s.take_snapshot_of t st).state = s ∨ (s.take_snapshot_of t st).state = s.prepare_memory := by
  rcases SnapshotList.take_snapshot_of_cases s t st with
    ⟨-, e⟩ | ⟨-, -, -, e⟩ | ⟨-, -, -, i, e⟩ | ⟨-, -, e⟩
  · left; rw [e]; rfl
  · right; rw [e]; rfl
  · rw [e] at h; simp [Outcome.thrown] at h
  · rw [e] at h; simp [Outcome.thrown] at h

theorem Steady.of_prepare_memory {sz m : Nat} {s : SnapshotList} (h : Steady sz m s) :
    Steady sz m s.prepare_memory := by
  have hw := h.wf.prepare_memory
  obtain ⟨a, e⟩ := SnapshotList.prepare_memory_eq s
  rw [e] at hw ⊢
  exact ⟨hw, h.max, h.hole, h.sizes, h.offsets, h.inj, h.end_eq, h.tail⟩

/-- The invariant of the steady ring is kept by the body of `take_snapshot`
when the source store has size `sz`. -/
theorem Steady.of_take_snapshot_of {sz m : Nat} {s : SnapshotList} (h : Steady sz m s)
    (hsz : 0 < sz) (t : Int) (st : AttributeStore) (hst : st.size = sz) :
    Steady sz m (s.take_snapshot_of t st).state := by
  by_cases hth : (s.take_snapshot_of t st).thrown = none
  swap
  · rcases SnapshotList.take_snapshot_of_rejected s t st hth with e | e
    · rw [e]; exact h
    · rw [e]; exact h.of_prepare_memory
  obtain ⟨w', m', -, -, b⟩ := take_snapshot_of_step s t st h.wf
  obtain ⟨last', b1, b2⟩ := b hth
  have hmax' : (s.take_snapshot_of t st).state._max_size = m := by rw [m', h.max]
  have h0 : s._max_size ≠ 0 := by
    intro hz
    rcases SnapshotList.take_snapshot_of_cases s t st with
      ⟨-, e⟩ | ⟨hn, -⟩ | ⟨hn, -⟩ | ⟨hn, -⟩
    · rw [e] at hth; simp [Outcome.thrown] at hth
    · exact hn hz
    · exact hn hz
    · exact hn hz
  have hcount := h.wf.count
  have hcount' := w'.count
  obtain ⟨p1, p2, -, p4, p5, -, -, -, -, -, p11, p12, p13⟩ :=
    SnapshotList.prepare_memory_fields s
  cases hf : s._tick2index_map.find t with
  | some i =>
    -- the tick is overwritten
    have hmem : t ∈ s._tick2index_map.keys := by
      rw [← TickMap.find_isSome_iff, hf]; rfl
    have hl : s._last_tick = t := by
      rcases SnapshotList.take_snapshot_of_cases s t st with
        ⟨-, e⟩ | ⟨-, -, -, e⟩ | ⟨-, -, hl, -⟩ | ⟨-, hn, -⟩
      · rw [e] at hth; simp [Outcome.thrown] at hth
      · rw [e] at hth; simp [Outcome.thrown] at hth
      · exact hl
      · exact absurd hmem hn
    obtain ⟨k1, c1⟩ := b1 hmem
    have e := SnapshotList.take_snapshot_of_overwrite s t st i h0 hf hl
    obtain ⟨n, hn⟩ := TickMap.find_isSome_of_keys_eq s._tick2size_map s._tick2index_map
      h.wf.size_keys t i hf
    have hnsz : n = sz := h.sizes t n hn
    subst hnsz
    obtain ⟨r1, r2, r3, r4, r5, r6⟩ :=
      SnapshotList.remove_existing_layout s.prepare_memory t i
    rw [p2, hn, Option.getD_some, p11] at r5 r6
    rw [p13] at r5 r6
    rw [p12] at r5
    rw [p4] at r3
    rw [p5] at r4
    have hpos : 1 ≤ s._cur_snapshot_num := by
      have hl : 0 < s._tick2index_map.keys.length := List.length_pos_of_mem hmem
      omega
    have hlay : (s.take_snapshot_of t st).state._tick2index_map
          = (s._tick2index_map.erase t).assign t i
        ∧ (s.take_snapshot_of t st).state._tick2size_map
          = (s._tick2size_map.erase t).assign t n
        ∧ (s.take_snapshot_of t st).state._end_index = s._end_index
        ∧ (s.take_snapshot_of t st).state._empty_slots_length = 0 := by
      rw [e]
      simp only [Outcome.state]
      by_cases hend : i + n = s._end_index
      · obtain ⟨q1, q2, q3⟩ := r5 hend
        obtain ⟨a1, a2, a3, -, a5⟩ := SnapshotList.place_snapshot_append
          (s.prepare_memory.remove_existing t i) t st true
          (Or.inr ⟨rfl, by rw [q3, h.hole, hst]; omega⟩)
        rw [a1, a2, a3, a5, r1, r2, q1, q3, p1, p2, hst, h.hole]
        exact ⟨rfl, rfl, hend, rfl⟩
      · obtain ⟨q1, q2, q3⟩ := r6 hend
        have hfull : ¬ s._cur_snapshot_num ≤ m := by
          intro hle
          exact hend (h.tail hle i (by rw [hl]; exact hf))
        obtain ⟨a1, a2, a3, -, a5⟩ := SnapshotList.place_snapshot_hole
          (s.prepare_memory.remove_existing t i) t st
          (by rw [r3, r4, h.max]; omega) (by rw [q3, h.hole, hst]; omega)
        rw [a1, a2, a3, a5, r1, r2, q1, q2, q3, p1, p2, hst, h.hole]
        exact ⟨rfl, rfl, rfl, by omega⟩
    obtain ⟨l1, l2, l3, l4⟩ := hlay
    refine h.replace t t i hf w' hmax' l4 l1 l2 l3 (by rw [k1]) ?_
    intro hle x hx
    rw [last', l1, TickMap.find_assign_self] at hx
    rw [l3, ← Option.some.inj hx]
    rw [c1] at hle
    exact h.tail hle i (by rw [hl]; exact hf)
  | none =>
    -- the tick is new
    have hnm : t ∉ s._tick2index_map.keys := (TickMap.find_eq_none_iff _ _).1 hf
    obtain ⟨k1, c1⟩ := b2 hnm
    have e := SnapshotList.take_snapshot_of_new s t st h0 hf
    by_cases hfull : s._cur_snapshot_num + 1 > s._max_size
    · -- the ring is full: the oldest tick is evicted
      have hlen : 0 < s._tick2index_map.keys.length := by omega
      obtain ⟨t0, o0, hb⟩ : ∃ t0 o0, s._tick2index_map.begin = some (t0, o0) := by
        cases hm : s._tick2index_map with
        | nil => rw [hm] at hlen; simp [TickMap.keys] at hlen
        | cons p rest => exact ⟨p.1, p.2, rfl⟩
      have hf0 := TickMap.begin_find _ _ _ hb
      obtain ⟨n, hn⟩ := TickMap.find_isSome_of_keys_eq s._tick2size_map s._tick2index_map
        h.wf.size_keys t0 o0 hf0
      have hnsz : n = sz := h.sizes t0 n hn
      subst hnsz
      obtain ⟨a1, a2, a3, -, a5⟩ := SnapshotList.place_snapshot_evict s.prepare_memory t st
        t0 o0 (by rw [p4, p5]; exact hfull) (by rw [p1]; exact hb) (by rw [p13]; exact h.hole)
        (by rw [p2, hn, hst]; exact le_refl _)
      rw [p1, p2, p11, hn, hst] at *
      refine h.replace t0 t o0 hf0 w' hmax' ?_ ?_ ?_ ?_ ?_ ?_
      · rw [e]; simp only [Outcome.state]; rw [a5]; simp
      · rw [e]; exact a1
      · rw [e]; exact a2
      · rw [e]; exact a3
      · rw [h.max] at hcount hfull; rw [hmax', c1] at hcount'; omega
      · intro hle
        rw [c1] at hle
        rw [h.max] at hfull
        omega
    · -- the ring is not full: the snapshot is appended
      obtain ⟨a1, a2, a3, -, a5⟩ := SnapshotList.place_snapshot_append s.prepare_memory t st
        false (Or.inl (by rw [p4, p5]; exact hfull))
      rw [p1, p2, p11, p13, hst] at *
      refine h.append hsz t w' hmax' ?_ ?_ ?_ ?_ ?_ last'
      · rw [e]; simp only [Outcome.state]; rw [a5]; exact h.hole
      · rw [e]; exact a1
      · rw [e]; exact a2
      · rw [e]; exact a3
      · rw [h.max] at hcount hfull; rw [hmax', c1] at hcount'; omega

theorem writeCells_length (dest : List Attribute) (start : Nat) (src : List Attribute) :
    (writeCells dest start src).length = dest.length := by
  induction dest generalizing start src with
  | nil => cases start <;> cases src <;> rfl
  | cons c cs ih =>
    cases start with
    | zero =>
      cases src with
      | nil => rfl
      | cons x xs => simp [writeCells, ih]
    | succ n => simp [writeCells, ih]

theorem SnapshotList.copy_from_attr_store_length (x : SnapshotList) (st : AttributeStore)
    (t : Int) (i : Nat) :
    (x.copy_from_attr_store st t i)._attr_store.length = x._attr_store.length := by
  unfold SnapshotList.copy_from_attr_store
  by_cases h : x.is_copy_mapping st = true <;> simp [h, writeCells_length]

/-- The backing vector keeps its length in `append_to_end` unless the record
does not fit behind `_end_index`. -/
theorem SnapshotList.append_to_end_length (x : SnapshotList) (st : AttributeStore) (t : Int)
    (h : x._end_index + st.size ≤ x._attr_store.length) :
    (x.append_to_end st t)._attr_store.length = x._attr_store.length := by
  have hn : ¬ x._end_index + st.size > x._attr_store.length := by omega
  unfold SnapshotList.append_to_end
  simp [hn, SnapshotList.copy_from_attr_store_length]

theorem SnapshotList.write_to_empty_slots_length (x : SnapshotList) (st : AttributeStore)
    (t : Int) :
    (x.write_to_empty_slots st t)._attr_store.length = x._attr_store.length := by
  unfold SnapshotList.write_to_empty_slots
  simp [SnapshotList.copy_from_attr_store_length]

theorem SnapshotList.erase_oldest_store (x : SnapshotList) :
    x.erase_oldest._attr_store = x._attr_store ∧ x.erase_oldest._end_index = x._end_index := by
  unfold SnapshotList.erase_oldest
  cases hb : x._tick2index_map.begin with
  | none => exact ⟨rfl, rfl⟩
  | some p =>
    by_cases hel : x._empty_slots_length = 0 <;> simp [hel]

theorem SnapshotList.remove_existing_store (x : SnapshotList) (t : Int) (i : Nat) :
    (x.remove_existing t i)._attr_store = x._attr_store := by
  unfold SnapshotList.remove_existing
  by_cases h : i + (x._tick2size_map.find t).getD 0 = x._end_index <;> simp [h]

/-- The backing vector keeps its length in the placement of a snapshot, unless
the snapshot is appended behind `_end_index` and does not fit there. -/
theorem SnapshotList.place_snapshot_length (x : SnapshotList) (t : Int) (st : AttributeStore)
    (skip : Bool) :
    (x.place_snapshot t st skip)._attr_store.length = x._attr_store.length
    ∨ ((x.place_snapshot t st skip)._end_index = x._end_index + st.size
        ∧ x._attr_store.length < x._end_index + st.size) := by
  have happ : ∀ y : SnapshotList, y._attr_store = x._attr_store → y._end_index = x._end_index →
      (y.append_to_end st t)._attr_store.length = x._attr_store.length
      ∨ ((y.append_to_end st t)._end_index = x._end_index + st.size
          ∧ x._attr_store.length < x._end_index + st.size) := by
    intro y h1 h2
    by_cases hfit : y._end_index + st.size ≤ y._attr_store.length
    · left
      rw [SnapshotList.append_to_end_length y st t hfit, h1]
    · right
      obtain ⟨-, -, a3, -⟩ := SnapshotList.append_to_end_layout y st t
      rw [a3, h2]
      rw [h1, h2] at hfit
      exact ⟨rfl, by omega⟩
  have hwr : ∀ y : SnapshotList, y._attr_store = x._attr_store →
      (y.write_to_empty_slots st t)._attr_store.length = x._attr_store.length := by
    intro y h1
    rw [SnapshotList.write_to_empty_slots_length, h1]
  unfold SnapshotList.place_snapshot
  simp only []
  by_cases h1 : x._cur_snapshot_num + 1 > x._max_size
  · rw [if_pos h1]
    cases skip with
    | true =>
      simp only [Bool.not_true, Bool.false_eq_true, ↓reduceIte]
      by_cases h2 : x._empty_slots_length ≥ st.size
      · rw [if_pos h2]
        exact Or.inl (hwr _ rfl)
      · rw [if_neg h2]
        exact happ _ rfl rfl
    | false =>
      simp only [Bool.not_false, ↓reduceIte]
      obtain ⟨e1, e2⟩ := SnapshotList.erase_oldest_store
        { x with _cur_snapshot_num := x._cur_snapshot_num + 1 }
      split_ifs
      · exact Or.inl (hwr _ e1)
      · exact happ _ e1 e2
  · rw [if_neg h1]
    exact happ _ rfl rfl

theorem SnapshotList.prepare_memory_store (s : SnapshotList) (h : s._attr_store.length ≠ 0) :
    s.prepare_memory._attr_store = s._attr_store := by
  unfold SnapshotList.prepare_memory
  cases s._frame with
  | none => rfl
  | some f => simp [h]

theorem Steady.end_le {sz m : Nat} {s : SnapshotList} (h : Steady sz m s) :
    s._end_index ≤ sz * m := by
  have hc := h.wf.count
  rw [h.max] at hc
  have hk : s._tick2index_map.keys.length ≤ m := by omega
  rw [h.end_eq, Nat.mul_comm]
  exact Nat.mul_le_mul_left sz hk

/-- On a steady ring whose backing vector has at least `sz * m` cells, the
body of `take_snapshot` never resizes the vector. -/
theorem Steady.store_length {sz m : Nat} {s : SnapshotList} (h : Steady sz m s)
    (hsz : 0 < sz) (hm : 0 < m) (t : Int) (st : AttributeStore) (hst : st.size = sz)
    (hlen : sz * m ≤ s._attr_store.length) :
    (s.take_snapshot_of t st).state._attr_store.length = s._attr_store.length := by
  have hpos : 0 < sz * m := Nat.mul_pos hsz hm
  have hne : s._attr_store.length ≠ 0 := by omega
  have hpm := SnapshotList.prepare_memory_store s hne
  have hafter := (h.of_take_snapshot_of hsz t st hst).end_le
  obtain ⟨-, -, -, -, -, -, -, -, -, -, p11, -⟩ := SnapshotList.prepare_memory_fields s
  have hend := h.end_le
  rcases SnapshotList.take_snapshot_of_cases s t st with
    ⟨-, e⟩ | ⟨-, -, -, e⟩ | ⟨h0, hmem, hl, i, e⟩ | ⟨h0, hn, e⟩
  · rw [e]; rfl
  · rw [e]; simp only [Outcome.state]; rw [hpm]
  · rw [e] at hafter ⊢
    simp only [Outcome.state] at hafter ⊢
    have hr := SnapshotList.remove_existing_store s.prepare_memory t i
    rcases SnapshotList.place_snapshot_length (s.prepare_memory.remove_existing t i) t st true
      with hk | ⟨hk1, hk2⟩
    · rw [hk, hr, hpm]
    · rw [hr, hpm] at hk2
      omega
  · rw [e] at hafter ⊢
    simp only [Outcome.state] at hafter ⊢
    rcases SnapshotList.place_snapshot_length s.prepare_memory t st false
      with hk | ⟨hk1, hk2⟩
    · rw [hk, hpm]
    · rw [hpm] at hk2
      omega

theorem AttributeStore.arrange_size (st : AttributeStore) : st.arrange.size = st.size := by
  simp [AttributeStore.arrange, AttributeStore.size, List.length_insertionSort]

theorem Steady.of_frame {sz m : Nat} {s : SnapshotList} (h : Steady sz m s)
    (fr : Option Frame) : Steady sz m { s with _frame := fr } :=
  ⟨h.wf.with_frame fr, h.max, h.hole, h.sizes, h.offsets, h.inj, h.end_eq, h.tail⟩

/-- The size of the store of the bound frame is not changed by `take_snapshot`. -/
theorem take_snapshot_frame_size (s : SnapshotList) (t : Int) (store : Option AttributeStore)
    (h : WF s) :
    (s.take_snapshot t store).state._frame.map (fun f => f._attr_store.size)
      = s._frame.map (fun f => f._attr_store.size) := by
  cases store with
  | some st =>
    obtain ⟨-, -, f, -⟩ := take_snapshot_of_step s t st h
    simp only [SnapshotList.take_snapshot]
    rw [f]
  | none =>
    cases hf : s._frame with
    | none => simp [SnapshotList.take_snapshot, hf, Outcome.state]
    | some fr =>
      obtain ⟨-, -, f, -⟩ := take_snapshot_of_step s t fr._attr_store h
      cases ho : s.take_snapshot_of t fr._attr_store with
      | returned v s1 =>
        rw [ho] at f
        simp only [Outcome.state] at f
        simp [SnapshotList.take_snapshot, hf, ho, Outcome.state, SnapshotList.arrange_frame,
          f, AttributeStore.arrange_size]
      | threw e s1 =>
        rw [ho] at f
        simp only [Outcome.state] at f
        simp [SnapshotList.take_snapshot, hf, ho, Outcome.state, f]

/-- One call of `take_snapshot` with a source store of size `sz` keeps the
steady ring steady and does not resize a backing vector of `sz * m` cells. -/
theorem Steady.of_take_snapshot {sz m : Nat} {s : SnapshotList} (h : Steady sz m s)
    (hsz : 0 < sz) (hm : 0 < m) (t : Int) (store : Option AttributeStore)
    (hstore : ∀ st, store = some st → st.size = sz)
    (hframe : store = none → ∀ f, s._frame = some f → f._attr_store.size = sz) :
    Steady sz m (s.take_snapshot t store).state
    ∧ (sz * m ≤ s._attr_store.length →
        (s.take_snapshot t store).state._attr_store.length = s._attr_store.length) := by
  rcases SnapshotList.take_snapshot_resolve s t store with ⟨-, -, e⟩ | ⟨st, fr, hsrc, -, e, -⟩
  · rw [e]
    exact ⟨h, fun _ => rfl⟩
  · have hst : st.size = sz := by
      rcases hsrc with hs | ⟨hn, f, hf, rfl⟩
      · exact hstore st hs
      · exact hframe hn f hf
    rw [e]
    exact ⟨(h.of_take_snapshot_of hsz t st hst).of_frame fr,
      fun hlen => h.store_length hsz hm t st hst hlen⟩

/-- A sequence of `take_snapshot` calls with source stores of size `sz` keeps
the steady ring steady and does not resize a backing vector of `sz * m` cells. -/
theorem Steady.of_run_snapshots {sz m : Nat} (hsz : 0 < sz) (hm : 0 < m)
    (calls : List (Int × Option AttributeStore)) :
    ∀ s : SnapshotList, Steady sz m s →
      (∀ c ∈ calls, ∀ st, c.2 = some st → st.size = sz) →
      (∀ c ∈ calls, c.2 = none → ∀ f, s._frame = some f → f._attr_store.size = sz) →
      Steady sz m (run_snapshots s calls)
      ∧ (sz * m ≤ s._attr_store.length →
          (run_snapshots s calls)._attr_store.length = s._attr_store.length) := by
  induction calls with
  | nil => intro s h _ _; exact ⟨h, fun _ => rfl⟩
  | cons c rest ih =>
    intro s h hstores hframe
    obtain ⟨t, store⟩ := c
    obtain ⟨h1, l1⟩ := h.of_take_snapshot hsz hm t store
      (fun st hs => hstores (t, store) (List.mem_cons_self _ _) st hs)
      (fun hn => hframe (t, store) (List.mem_cons_self _ _) hn)
    have hfs := take_snapshot_frame_size s t store h.wf
    obtain ⟨h2, l2⟩ := ih (s.take_snapshot t store).state h1
      (fun c hc => hstores c (List.mem_cons_of_mem _ hc))
      (by
        intro c hc hn f hf
        rw [hf] at hfs
        cases hsf : s._frame with
        | none => rw [hsf] at hfs; simp at hfs
        | some f0 =>
          rw [hsf] at hfs
          simp only [Option.map_some', Option.some.injEq] at hfs
          rw [hfs]
          exact hframe c (List.mem_cons_of_mem _ hc) hn f0 hsf)
    refine ⟨h2, fun hlen => ?_⟩
    simp only [run_snapshots]
    rw [l2 (by rw [l1 hlen]; exact hlen), l1 hlen]

/-- A list that was just constructed or reset is a steady ring for every size. -/
theorem Cleared.steady {m : Nat} {start : SnapshotList} (sz : Nat) (hm : 0 < m)
    (h : Cleared m start) : Steady sz m start := by
  obtain ⟨hw, hmax, hcur, hkeys⟩ := h.facts hm
  have hnone : ∀ t, start._tick2index_map.find t = none := by
    intro t
    rw [TickMap.find_eq_none_iff, hkeys]
    exact List.not_mem_nil _
  have hnone2 : ∀ t, start._tick2size_map.find t = none := by
    intro t
    rw [TickMap.find_eq_none_iff, hw.size_keys, hkeys]
    exact List.not_mem_nil _
  have hlay : start._empty_slots_length = 0 ∧ start._end_index = 0 := by
    rcases h with ⟨frame, rfl⟩ | ⟨s0, -, rfl⟩
    · simp only [SnapshotList.set_max_size]
      split_ifs <;> exact ⟨rfl, rfl⟩
    · exact ⟨rfl, rfl⟩
  refine ⟨hw, hmax, hlay.1, ?_, ?_, ?_, ?_, ?_⟩
  · intro t n hn; rw [hnone2] at hn; cases hn
  · intro t o ho; rw [hnone] at ho; cases ho
  · intro t1 t2 o ho; rw [hnone] at ho; cases ho
  · rw [hlay.2, hkeys]; simp
  · intro _ o ho; rw [hnone] at ho; cases ho

/-- The retained ticks after one call of `take_snapshot` on a well-formed list. -/
theorem take_snapshot_retained (s : SnapshotList) (t : Int) (store : Option AttributeStore)
    (w : WF s) :
    (s.take_snapshot t store).state.get_ticks
      = if (s.take_snapshot t store).thrown = none then retain_tick s._max_size s.get_ticks t
        else s.get_ticks := by
  obtain ⟨-, -, -, a, b⟩ := take_snapshot_step s t store w
  unfold SnapshotList.get_ticks
  by_cases hth : (s.take_snapshot t store).thrown = none
  · rw [if_pos hth]
    obtain ⟨-, b1, b2⟩ := b hth
    unfold retain_tick
    by_cases hmem : t ∈ s._tick2index_map.keys
    · rw [if_pos hmem]
      exact (b1 hmem).1
    · rw [if_neg hmem, (b2 hmem).1]
      have hc := w.count
      have hu := w.unset
      by_cases hfull : s._cur_snapshot_num + 1 > s._max_size
      · have hl : s._tick2index_map.keys.length = s._max_size := by omega
        rw [if_pos hfull, if_pos hl]
      · have hl : ¬ s._tick2index_map.keys.length = s._max_size := by omega
        rw [if_neg hfull, if_neg hl]
  · rw [if_neg hth]
    exact (a hth).1

/-- The retained ticks after a run of `take_snapshot` calls are those that the
rule `retain_tick` yields on the ticks of the calls that returned. -/
theorem run_snapshots_retained (calls : List (Int × Option AttributeStore)) :
    ∀ s : SnapshotList, WF s →
      (run_snapshots s calls).get_ticks
        = (succeeded_ticks s calls).foldl (retain_tick s._max_size) s.get_ticks := by
  induction calls with
  | nil => intro s _; rfl
  | cons c rest ih =>
    obtain ⟨t, store⟩ := c
    intro s w
    obtain ⟨w', m', -⟩ := take_snapshot_step s t store w
    have hr := take_snapshot_retained s t store w
    simp only [run_snapshots, succeeded_ticks]
    rw [ih _ w', m', hr]
    by_cases hth : (s.take_snapshot t store).thrown = none
    · simp only [hth, ↓reduceIte, List.foldl_cons]
    · simp only [hth, ↓reduceIte]

theorem run_snapshots_wf (calls : List (Int × Option AttributeStore)) :
    ∀ s : SnapshotList, WF s →
      WF (run_snapshots s calls) ∧ (run_snapshots s calls)._max_size = s._max_size := by
  induction calls with
  | nil => intro s w; exact ⟨w, rfl⟩
  | cons c rest ih =>
    obtain ⟨t, store⟩ := c
    intro s w
    obtain ⟨w', m', -⟩ := take_snapshot_step s t store w
    obtain ⟨w2, m2⟩ := ih _ w'
    exact ⟨w2, by rw [← m', ← m2]; rfl⟩

theorem run_snapshots_append (a b : List (Int × Option AttributeStore)) :
    ∀ s : SnapshotList, run_snapshots s (a ++ b) = run_snapshots (run_snapshots s a) b := by
  induction a with
  | nil => intro s; rfl
  | cons c rest ih =>
    obtain ⟨t, store⟩ := c
    intro s
    simp only [List.cons_append, run_snapshots]
    exact ih _

theorem succeeded_ticks_append (a b : List (Int × Option AttributeStore)) :
    ∀ s : SnapshotList, succeeded_ticks s (a ++ b)
      = succeeded_ticks s a ++ succeeded_ticks (run_snapshots s a) b := by
  induction a with
  | nil => intro s; rfl
  | cons c rest ih =>
    obtain ⟨t, store⟩ := c
    intro s
    simp only [List.cons_append, run_snapshots, succeeded_ticks]
    split_ifs <;> simp [ih]

/-- One call of `take_snapshot` on a list whose retained ticks are the largest
taken so far: they are so afterwards exactly when the call spares the ticks
larger than its own. -/
theorem retains_largest_so_far_step (s : SnapshotList) (t : Int)
    (store : Option AttributeStore) (T : List Int) (w : WF s) (hm : 0 < s._max_size)
    (h : retains_largest_so_far s._max_size T s.get_ticks) :
    retains_largest_so_far s._max_size
        (T ++ succeeded_ticks s [(t, store)]) (s.take_snapshot t store).state.get_ticks
      ↔ spares_larger s t store = true := by
  have hr := take_snapshot_retained s t store w
  have hsize : s.size = s.get_ticks.length := by
    rw [size_eq_min]; exact w.count.symm
  have hsorted : s.get_ticks.Pairwise (· < ·) := w.sorted
  have hlen : s.get_ticks.length ≤ s._max_size := by
    have := w.count
    unfold SnapshotList.get_ticks
    omega
  obtain ⟨h1, h2⟩ := h
  unfold spares_larger
  simp only [succeeded_ticks, SnapshotList.max_size]
  rw [hr, hsize]
  by_cases hth : (s.take_snapshot t store).thrown = none
  swap
  · simp only [hth, ↓reduceIte, List.append_nil, ne_eq, not_false_eq_true, decide_True,
      Bool.true_or, iff_true]
    exact ⟨h1, h2⟩
  simp only [hth, ↓reduceIte, ne_eq, not_true_eq_false, decide_False, Bool.false_or]
  unfold retain_tick
  by_cases hmem : t ∈ s.get_ticks
  · -- an overwrite keeps the retained ticks
    rw [if_pos hmem]
    have hsp : (match s.get_ticks with
        | [] => true
        | oldest :: _ => decide (oldest ≤ t)) = true := by
      cases hk : s.get_ticks with
      | nil => rfl
      | cons k rest =>
        rw [hk] at hmem hsorted
        rw [List.pairwise_cons] at hsorted
        simp only [decide_eq_true_eq]
        rcases List.mem_cons.1 hmem with e | e
        · exact le_of_eq e.symm
        · exact le_of_lt (hsorted.1 t e)
    rw [hsp, Bool.or_true]
    simp only [iff_true]
    refine ⟨fun x hx => List.mem_append_left _ (h1 x hx), ?_⟩
    intro a ha hna
    rcases List.mem_append.1 ha with e | e
    · exact h2 a e hna
    · rw [List.mem_singleton] at e
      exact absurd (e ▸ hmem) hna
  · rw [if_neg hmem]
    by_cases hfull : s.get_ticks.length = s._max_size
    · -- a new tick on a full ring
      rw [if_pos hfull]
      have hnl : ¬ s.get_ticks.length < s._max_size := by omega
      simp only [hnl, decide_False, Bool.false_or]
      cases hk : s.get_ticks with
      | nil => rw [hk] at hfull; simp at hfull; omega
      | cons k rest =>
        rw [hk] at hmem hsorted h1 h2 hfull
        rw [List.pairwise_cons] at hsorted
        simp only [List.tail_cons, decide_eq_true_eq]
        have htk : t ≠ k := fun e => hmem (e ▸ List.mem_cons_self _ _)
        have htr : t ∉ rest := fun e => hmem (List.mem_cons_of_mem _ e)
        have hkr : k ∉ rest := fun e => lt_irrefl _ (hsorted.1 k e)
        constructor
        · intro ⟨g1, g2⟩
          by_contra hlt
          have hkT : k ∈ T ++ [t] := List.mem_append_left _ (h1 k (List.mem_cons_self _ _))
          have hkn : k ∉ insertKey t rest := by
            rw [mem_insertKey]
            rintro (e | e)
            · exact htk e.symm
            · exact hkr e
          have := (g2 k hkT hkn).2 t (mem_insertKey.2 (Or.inl rfl))
          omega
        · intro hle
          have hlt : k < t := lt_of_le_of_ne hle (Ne.symm htk)
          refine ⟨?_, ?_⟩
          · intro x hx
            rcases mem_insertKey.1 hx with e | e
            · exact List.mem_append_right _ (by simp [e])
            · exact List.mem_append_left _ (h1 x (List.mem_cons_of_mem _ e))
          · intro a ha hna
            rw [mem_insertKey, not_or] at hna
            have haT : a ∈ T := by
              rcases List.mem_append.1 ha with e | e
              · exact e
              · rw [List.mem_singleton] at e
                exact absurd e hna.1
            refine ⟨by rw [length_insertKey_of_not_mem htr]; simpa using hfull, ?_⟩
            have hak : a ≤ k := by
              by_cases e : a = k
              · exact le_of_eq e
              · have hnk : a ∉ k :: rest := by
                  rw [List.mem_cons, not_or]
                  exact ⟨e, hna.2⟩
                exact le_of_lt ((h2 a haT hnk).2 k (List.mem_cons_self _ _))
            intro b hb
            rcases mem_insertKey.1 hb with e | e
            · rw [e]; omega
            · have := hsorted.1 b e
              omega
    · -- a new tick on a ring that is not full
      rw [if_neg hfull]
      have hnl : s.get_ticks.length < s._max_size := by omega
      simp only [hnl, decide_True, Bool.true_or, iff_true]
      refine ⟨?_, ?_⟩
      · intro x hx
        rcases mem_insertKey.1 hx with e | e
        · exact List.mem_append_right _ (by simp [e])
        · exact List.mem_append_left _ (h1 x e)
      · intro a ha hna
        rw [mem_insertKey, not_or] at hna
        have haT : a ∈ T := by
          rcases List.mem_append.1 ha with e | e
          · exact e
          · rw [List.mem_singleton] at e
            exact absurd e hna.1
        exact absurd (h2 a haT hna.2).1 hfull

/-- The retained ticks are the largest taken after every call of a run exactly
when every call of the run spares the ticks larger than its own. -/
theorem retains_largest_so_far_run (calls : List (Int × Option AttributeStore)) :
    ∀ (s : SnapshotList) (T : List Int), WF s → 0 < s._max_size →
      retains_largest_so_far s._max_size T s.get_ticks →
      ((∀ n, retains_largest_so_far s._max_size (T ++ succeeded_ticks s (calls.take n))
          (run_snapshots s (calls.take n)).get_ticks)
        ↔ spares_larger_throughout s calls = true) := by
  induction calls with
  | nil =>
    intro s T _ _ h
    simp only [List.take_nil, succeeded_ticks, List.append_nil, run_snapshots,
      spares_larger_throughout, iff_true]
    exact fun _ => h
  | cons c rest ih =>
    obtain ⟨t, store⟩ := c
    intro s T w hm h
    obtain ⟨w', m', -⟩ := take_snapshot_step s t store w
    have hstep := retains_largest_so_far_step s t store T w hm h
    have hshift : ∀ n, T ++ succeeded_ticks s (((t, store) :: rest).take (n + 1))
        = (T ++ succeeded_ticks s [(t, store)])
          ++ succeeded_ticks (s.take_snapshot t store).state (rest.take n) := by
      intro n
      simp only [List.take_succ_cons, succeeded_ticks]
      split_ifs <;> simp
    simp only [spares_larger_throughout, Bool.and_eq_true]
    constructor
    · intro hall
      have h1 := hall 1
      rw [hshift 0] at h1
      simp only [List.take_zero, succeeded_ticks, List.append_nil] at h1
      have h1' : retains_largest_so_far (s.take_snapshot t store).state._max_size
          (T ++ succeeded_ticks s [(t, store)]) (s.take_snapshot t store).state.get_ticks := by
        rw [m']
        simpa [succeeded_ticks, run_snapshots] using h1
      refine ⟨hstep.1 (by rw [← m']; exact h1'), ?_⟩
      refine (ih _ _ w' (by rw [m']; exact hm) h1').1 ?_
      intro n
      have hn := hall (n + 1)
      rw [hshift n] at hn
      rw [m']
      exact hn
    · intro ⟨hs, hrest⟩
      have h1' : retains_largest_so_far (s.take_snapshot t store).state._max_size
          (T ++ succeeded_ticks s [(t, store)]) (s.take_snapshot t store).state.get_ticks := by
        rw [m']
        exact hstep.2 hs
      have hall := (ih _ _ w' (by rw [m']; exact hm) h1').2 hrest
      intro n
      cases n with
      | zero =>
        simp only [List.take_zero, succeeded_ticks, List.append_nil, run_snapshots]
        exact h
      | succ n =>
        rw [hshift n]
        have := hall n
        rw [m'] at this
        exact this

/-- When more than `m` distinct ticks were taken and at most `m` are retained,
retained ticks that are the largest taken so far are the `m` largest taken. -/
theorem retains_largest_of_so_far {m : Nat} {T R : List Int}
    (h : retains_largest_so_far m T R) (hR : R.length ≤ m) (hN : m < T.toFinset.card) :
    retains_largest m T R := by
  obtain ⟨h1, h2⟩ := h
  have hex : ∃ a ∈ T, a ∉ R := by
    by_contra hno
    push_neg at hno
    have hsub : T.toFinset ⊆ R.toFinset := by
      intro x hx
      rw [List.mem_toFinset] at hx ⊢
      exact hno x hx
    have h3 := Finset.card_le_card hsub
    have h4 := List.toFinset_card_le R
    omega
  obtain ⟨a, ha, hna⟩ := hex
  exact ⟨(h2 a ha hna).1, h1, fun x hx hnx => (h2 x hx hnx).2⟩

/-! ## The claims -/

/-- C1, evaluated at a failing input. Snapshot read-back does not hold when the
previous mapping is reused: a list of capacity 2 takes tick 0 from a store
holding instances 0 and 1, then tick 1 from the store in which instance 1 was
replaced by instance 2 (same size, not dirty). The second call returns, the
store holds the value 7 for the key of instance 2, and `get(1, key)` is NaN. -/
theorem C1_reused_mapping_misses_key :
    ((ring2.take_snapshot 0 (some (dense_store 2 5))).state.take_snapshot 1
        (some changed_store)).thrown = none
    ∧ changed_store.cell (attr_index_key 0 2 0 0) = some (Attribute.num 7)
    ∧ ((ring2.take_snapshot 0 (some (dense_store 2 5))).state.take_snapshot 1
        (some changed_store)).state.call 1 0 2 0 0 = Attribute.nan := by
  decide

/-- C2, evaluated at a failing input. Snapshot immutability does not hold when
snapshot sizes vary: after snapshots of sizes 2, 1, 1, 3 at ticks 1 to 4 on a
list of capacity 2, taking tick 5 (size 3) returns and keeps tick 4, yet the
cell of tick 4 for instance 0 reads 400 before the call and 502 after it. -/
theorem C2_later_snapshot_overwrites_retained_tick :
    (ring2_after_four.take_snapshot 5 (some (dense_store 3 500))).thrown = none
    ∧ 4 ∈ (ring2_after_four.take_snapshot 5 (some (dense_store 3 500))).state.get_ticks
    ∧ ring2_after_four.call 4 0 0 0 0 = Attribute.num 400
    ∧ (ring2_after_four.take_snapshot 5 (some (dense_store 3 500))).state.call 4 0 0 0 0
        = Attribute.num 502 := by
  decide

/-- C3. Ring bound on size: on a list that is new or was just reset, with
capacity `m > 0`, once `take_snapshot` has returned for more than `m` pairwise
distinct ticks (whatever other calls were made in between), `size()` is `m`;
and in every reachable state `size()` is at most `max_size()`. -/
theorem C3_ring_bound_on_size :
    (∀ (m : Nat) (start : SnapshotList) (calls : List (Int × Option AttributeStore)),
      0 < m → Cleared m start →
      m < (succeeded_ticks start calls).toFinset.card →
      (run_snapshots start calls).size = m)
    ∧ (∀ s : SnapshotList, Reachable s → s.size ≤ s.max_size) := by
  refine ⟨?_, fun s _ => size_le_max_size s⟩
  intro m start calls hm hc hN
  obtain ⟨w, hmax, hcur, hkeys⟩ := hc.facts hm
  obtain ⟨-, r2, r3⟩ := run_snapshots_count calls start ∅ w (by simp [hkeys]) (by simp)
  simp only [Finset.empty_union] at r3
  unfold SnapshotList.size
  rw [r2, hmax]
  have : m < (run_snapshots start calls)._cur_snapshot_num := lt_of_lt_of_le hN r3
  simp [this]

/-- Instance of C3: two distinct ticks on a list of capacity 1. -/
theorem C3_ring_bound_on_size_witness :
    (run_snapshots ring1 [(1, some (dense_store 1 0)), (2, some (dense_store 1 0))]).size = 1
    ∧ (ring1.take_snapshot 1 (some (dense_store 1 0))).state.size
        ≤ (ring1.take_snapshot 1 (some (dense_store 1 0))).state.max_size :=
  ⟨C3_ring_bound_on_size.1 1 ring1 [(1, some (dense_store 1 0)), (2, some (dense_store 1 0))]
      (by decide) (Or.inl ⟨none, rfl⟩) (by decide),
    C3_ring_bound_on_size.2 _
      (ReachableFrom.take_snapshot _ 1 (some (dense_store 1 0))
        (ReachableFrom.set_max_size _ 1 ReachableFrom.start))⟩

/-- C4, as stated, fails: on a new list of capacity 1 the two distinct ticks 5
and 3 are taken in this order; both calls return, and the tick retained is 3,
not the largest tick 5. -/
theorem C4_ring_retention_counterexample :
    succeeded_ticks ring1 descending_calls = [5, 3]
    ∧ (run_snapshots ring1 descending_calls).get_ticks = [3]
    ∧ ¬ retains_largest 1 (succeeded_ticks ring1 descending_calls)
        (run_snapshots ring1 descending_calls).get_ticks := by
  refine ⟨by decide, by decide, ?_⟩
  intro h
  have e1 : succeeded_ticks ring1 descending_calls = [5, 3] := by decide
  have e2 : (run_snapshots ring1 descending_calls).get_ticks = [3] := by decide
  rw [e1, e2] at h
  have := h.2.2 5 (by decide) (by decide) 3 (by decide)
  exact absurd this (by decide)

/-- C4, amended. Ring retention on a list that is new or was just reset, with
capacity `m > 0`, after any sequence of `take_snapshot` calls. (1) The retained
ticks are those that the rule `retain_tick` yields on the ticks of the calls
that returned, in call order. (2) A returning call for a tick that is not
retained drops the smallest retained tick when `m` ticks are retained, and
nothing otherwise, and then retains the new tick, whatever its value. (3) The
retained ticks are the largest ticks taken after every call of the sequence if
and only if no returning call takes a tick below the smallest retained tick
while `m` ticks are retained. (4) In that case, once more than `m` distinct
ticks were taken, the retained ticks are the `m` largest ticks taken. (5) When
more than `m` ticks are taken in strictly ascending order, each with a source
store available, every call returns and the retained ticks are the last `m`
ticks, which are the `m` largest. -/
theorem C4_ring_retention_rule (m : Nat) (start : SnapshotList)
    (calls : List (Int × Option AttributeStore)) (hm : 0 < m) (hstart : Cleared m start) :
    (run_snapshots start calls).get_ticks
        = (succeeded_ticks start calls).foldl (retain_tick m) []
    ∧ (∀ tick store, ((run_snapshots start calls).take_snapshot tick store).thrown = none →
        tick ∉ (run_snapshots start calls).get_ticks →
        ((run_snapshots start calls).take_snapshot tick store).state.get_ticks
            = insertKey tick (if (run_snapshots start calls).get_ticks.length = m
                then (run_snapshots start calls).get_ticks.tail
                else (run_snapshots start calls).get_ticks)
        ∧ tick ∈ ((run_snapshots start calls).take_snapshot tick store).state.get_ticks
        ∧ (∀ oldest ∈ (run_snapshots start calls).get_ticks.head?,
            ∀ k ∈ (run_snapshots start calls).get_ticks.tail, oldest < k))
    ∧ ((∀ n, retains_largest_so_far m (succeeded_ticks start (calls.take n))
          (run_snapshots start (calls.take n)).get_ticks)
        ↔ spares_larger_throughout start calls = true)
    ∧ (spares_larger_throughout start calls = true →
        m < (succeeded_ticks start calls).toFinset.card →
        retains_largest m (succeeded_ticks start calls) (run_snapshots start calls).get_ticks)
    ∧ ((∀ c ∈ calls, c.2.isSome ∨ start._frame.isSome) →
        (calls.map Prod.fst).Pairwise (· < ·) → m < calls.length →
        succeeded_ticks start calls = calls.map Prod.fst
        ∧ (run_snapshots start calls).get_ticks = lastN m (calls.map Prod.fst)
        ∧ retains_largest m (calls.map Prod.fst) (run_snapshots start calls).get_ticks) := by
  obtain ⟨w, hmax, -, hkeys⟩ := hstart.facts hm
  obtain ⟨ws, ms⟩ := run_snapshots_wf calls start w
  have hiff : (∀ n, retains_largest_so_far m (succeeded_ticks start (calls.take n))
        (run_snapshots start (calls.take n)).get_ticks)
      ↔ spares_larger_throughout start calls = true := by
    have h0 : retains_largest_so_far start._max_size [] start.get_ticks := by
      unfold SnapshotList.get_ticks
      rw [hkeys]
      exact ⟨fun t ht => absurd ht (List.not_mem_nil _), fun a ha => absurd ha (List.not_mem_nil _)⟩
    have := retains_largest_so_far_run calls start [] w (by rw [hmax]; exact hm) h0
    simpa only [List.nil_append, hmax] using this
  refine ⟨?_, ?_, hiff, ?_, ?_⟩
  · have := run_snapshots_retained calls start w
    unfold SnapshotList.get_ticks at this ⊢
    rw [this, hmax, hkeys]
  · intro tick store hth hnew
    have hr := take_snapshot_retained (run_snapshots start calls) tick store ws
    rw [if_pos hth, ms, hmax] at hr
    unfold retain_tick at hr
    rw [if_neg hnew] at hr
    refine ⟨hr, ?_, ?_⟩
    · rw [hr]
      exact mem_insertKey.2 (Or.inl rfl)
    · have hsorted : (run_snapshots start calls).get_ticks.Pairwise (· < ·) := ws.sorted
      cases hk : (run_snapshots start calls).get_ticks with
      | nil => intro o ho; simp at ho
      | cons k rest =>
        rw [hk, List.pairwise_cons] at hsorted
        intro o ho x hx
        simp only [List.head?_cons, Option.mem_def, Option.some.injEq] at ho
        rw [← ho]
        exact hsorted.1 x hx
  · intro hsp hN
    have hall := hiff.2 hsp calls.length
    rw [List.take_length] at hall
    refine retains_largest_of_so_far hall ?_ hN
    have := ws.count
    unfold SnapshotList.get_ticks
    rw [ms, hmax] at this
    omega
  · intro hstore hasc hN
    obtain ⟨r1, r2⟩ := run_snapshots_ascending m hm calls start w hmax hstore
      (by rw [hkeys]; simpa using hasc)
    rw [hkeys, List.nil_append] at r2
    refine ⟨r1, r2, ?_⟩
    unfold SnapshotList.get_ticks
    rw [r2]
    exact retains_largest_lastN hasc (by simpa using hN)

/-- Instances of the amended C4: the ticks 1, 5, 5, 3 on a list of capacity 2,
where the retained ticks 3 and 5 are the two largest taken although the ticks
are out of order; and the ascending ticks 3, 5 on a list of capacity 1. -/
theorem C4_ring_retention_rule_witness :
    (Cleared 2 ring2
      ∧ spares_larger_throughout ring2 sparing_calls = true
      ∧ succeeded_ticks ring2 sparing_calls = [1, 5, 5, 3]
      ∧ (run_snapshots ring2 sparing_calls).get_ticks
          = (succeeded_ticks ring2 sparing_calls).foldl (retain_tick 2) []
      ∧ retains_largest 2 (succeeded_ticks ring2 sparing_calls)
          (run_snapshots ring2 sparing_calls).get_ticks)
    ∧ (succeeded_ticks ring1 ascending_calls = ascending_calls.map Prod.fst
      ∧ (run_snapshots ring1 ascending_calls).get_ticks
          = lastN 1 (ascending_calls.map Prod.fst)
      ∧ retains_largest 1 (ascending_calls.map Prod.fst)
          (run_snapshots ring1 ascending_calls).get_ticks) :=
  ⟨⟨Or.inl ⟨none, rfl⟩, by decide, by decide,
      (C4_ring_retention_rule 2 ring2 sparing_calls (by decide) (Or.inl ⟨none, rfl⟩)).1,
      (C4_ring_retention_rule 2 ring2 sparing_calls (by decide) (Or.inl ⟨none, rfl⟩)).2.2.2.1
        (by decide) (by decide)⟩,
    (C4_ring_retention_rule 1 ring1 ascending_calls (by decide)
      (Or.inl ⟨none, rfl⟩)).2.2.2.2 (by decide) (by decide) (by decide)⟩

/-- C5. Overwrite law: in every reachable state whose `last_tick` is retained,
`take_snapshot(last_tick, store)` with a source store available returns, and
`size()` and the retained ticks are the same after the call as before it. -/
theorem C5_overwrite_law (s : SnapshotList) (store : Option AttributeStore)
    (hreach : Reachable s) (hlast : s._last_tick ∈ s.get_ticks)
    (hstore : store.isSome ∨ s._frame.isSome) :
    (s.take_snapshot s._last_tick store).thrown = none
    ∧ (s.take_snapshot s._last_tick store).state.size = s.size
    ∧ (s.take_snapshot s._last_tick store).state.get_ticks = s.get_ticks := by
  have w := reachable_wf hreach
  have hret := take_snapshot_returns s s._last_tick store hstore (w.max_size_ne_zero_of_mem hlast)
    (fun _ => rfl)
  obtain ⟨-, m, -, -, b⟩ := take_snapshot_step s s._last_tick store w
  obtain ⟨-, b1, -⟩ := b hret
  obtain ⟨k, c⟩ := b1 hlast
  refine ⟨hret, ?_, k⟩
  unfold SnapshotList.size
  rw [m, c]

/-- Instance of C5: tick 2 is taken again after ticks 1 and 2. -/
theorem C5_overwrite_law_witness :
    (ring2_after_two.take_snapshot 2 (some (dense_store 2 300))).thrown = none
    ∧ (ring2_after_two.take_snapshot 2 (some (dense_store 2 300))).state.size
        = ring2_after_two.size
    ∧ (ring2_after_two.take_snapshot 2 (some (dense_store 2 300))).state.get_ticks
        = ring2_after_two.get_ticks :=
  C5_overwrite_law ring2_after_two (some (dense_store 2 300))
    (reachable_run_snapshots (reachable_ring 2) _) (by decide) (by decide)

/-- C6. Out-of-order overwrite is rejected: with the capacity set and a source
store available, `take_snapshot(tick, store)` throws `InvalidSnapshotTick`
exactly when `tick` is retained and differs from `last_tick`; a call that
throws leaves the per-tick maps (retained ticks, their regions and mapping
ids), the mappings, `size()`, `end_index`, the hole and `last_tick` unchanged. -/
theorem C6_out_of_order_overwrite_rejected (s : SnapshotList) (tick : Int)
    (store : Option AttributeStore) (hmax : s._max_size ≠ 0)
    (hstore : store.isSome ∨ s._frame.isSome) :
    ((s.take_snapshot tick store).thrown = some SnapshotError.InvalidSnapshotTick
        ↔ tick ∈ s.get_ticks ∧ tick ≠ s._last_tick)
    ∧ ((s.take_snapshot tick store).thrown ≠ none →
        (s.take_snapshot tick store).thrown = some SnapshotError.InvalidSnapshotTick
        ∧ (s.take_snapshot tick store).state._tick2index_map = s._tick2index_map
        ∧ (s.take_snapshot tick store).state._tick2size_map = s._tick2size_map
        ∧ (s.take_snapshot tick store).state._tick_attr_map = s._tick_attr_map
        ∧ (s.take_snapshot tick store).state._mappings = s._mappings
        ∧ (s.take_snapshot tick store).state.size = s.size
        ∧ (s.take_snapshot tick store).state._end_index = s._end_index
        ∧ (s.take_snapshot tick store).state._first_empty_slot_index = s._first_empty_slot_index
        ∧ (s.take_snapshot tick store).state._empty_slots_length = s._empty_slots_length
        ∧ (s.take_snapshot tick store).state._last_tick = s._last_tick) := by
  rcases SnapshotList.take_snapshot_resolve s tick store with
    ⟨e1, e2, -⟩ | ⟨st, fr, -, e1, e2, -⟩
  · simp [e1, e2] at hstore
  · rw [e1, e2]
    obtain ⟨p1, p2, p3, p4, p5, -, p7, -, -, p10, p11, p12, p13⟩ :=
      SnapshotList.prepare_memory_fields s
    rcases SnapshotList.take_snapshot_of_cases s tick st with
      ⟨h0, -⟩ | ⟨-, hm, hl, e⟩ | ⟨-, hm, hl, i, e⟩ | ⟨-, hm, e⟩
    · exact absurd h0 hmax
    · rw [e]
      simp only [Outcome.thrown, Outcome.state, SnapshotList.size, SnapshotList.get_ticks, p1, p2,
        p3, p4, p5, p7, p10, p11, p12, p13, and_self, ne_eq, reduceCtorEq, not_false_eq_true,
        true_implies, true_iff]
      exact ⟨⟨hm, fun h => hl h.symm⟩, trivial⟩
    · rw [e]
      simp only [Outcome.thrown, reduceCtorEq, ne_eq, not_true_eq_false, false_implies, and_true,
        false_iff, not_and, not_not]
      exact fun _ => hl.symm
    · rw [e]
      simp only [Outcome.thrown, reduceCtorEq, ne_eq, not_true_eq_false, false_implies, and_true,
        false_iff, not_and, not_not]
      exact fun h => absurd h hm

/-- Instance of C6: tick 1 is taken again after ticks 1 and 2. -/
theorem C6_out_of_order_overwrite_rejected_witness :
    (ring2_after_two.take_snapshot 1 (some (dense_store 2 300))).thrown
      = some SnapshotError.InvalidSnapshotTick :=
  (C6_out_of_order_overwrite_rejected ring2_after_two 1 (some (dense_store 2 300))
    (by decide) (by decide)).1.2 (by decide)

/-- C7. Reading a snapshot cell: `get(tick, key)` is the NaN sentinel when the
tick is not retained, and when the key is missing from the mapping of the
tick; otherwise it is the cell of the backing vector at
`tick_to_index[tick] + mapping[key]`. In particular it is NaN for every key
after `reset`, and, in a reachable state whose ring is full, taking a new tick
evicts the smallest retained tick, which then reads NaN for every key. -/
theorem C7_get_nan_or_cell :
    (∀ (s : SnapshotList) (tick : Int) (key : Nat),
      tick ∉ s.get_ticks → s.get tick key = Attribute.nan)
    ∧ (∀ (s : SnapshotList) (tick : Int) (key : Nat) (id : Nat) (mapping : AttrMapping),
      s._tick_attr_map.find tick = some id → s._mappings[id]? = some mapping →
      mapping.find key = none → s.get tick key = Attribute.nan)
    ∧ (∀ (s : SnapshotList) (tick : Int) (key : Nat) (index id offset : Nat)
        (mapping : AttrMapping),
      s._tick2index_map.find tick = some index → s._tick_attr_map.find tick = some id →
      s._mappings[id]? = some mapping → mapping.find key = some offset →
      index + offset < s._attr_store.length →
      s._attr_store[index + offset]? = some (s.get tick key))
    ∧ (∀ (s : SnapshotList) (tick : Int) (key : Nat), s.reset.get tick key = Attribute.nan)
    ∧ (∀ (s : SnapshotList) (tick oldest : Int) (store : Option AttributeStore) (key : Nat),
      Reachable s → s.size = s.max_size → s.get_ticks.head? = some oldest →
      tick ∉ s.get_ticks → (s.take_snapshot tick store).thrown = none →
      oldest ∉ (s.take_snapshot tick store).state.get_ticks
      ∧ (s.take_snapshot tick store).state.get oldest key = Attribute.nan) := by
  refine ⟨fun s tick key h => get_of_not_retained s tick key h, ?_, ?_, ?_, ?_⟩
  · intro s tick key id mapping h1 h2 h3
    unfold SnapshotList.get
    cases s._tick2index_map.find tick with
    | none => rfl
    | some index =>
      simp only [h1, Option.getD_some, List.getD_eq_getElem?_getD, h2, h3]
      rfl
  · intro s tick key index id offset mapping h0 h1 h2 h3 h4
    unfold SnapshotList.get
    simp only [h0, h1, Option.getD_some, List.getD_eq_getElem?_getD, h2, h3]
    rw [List.getElem?_eq_getElem h4]
    simp
  · intro s tick key
    exact get_of_not_retained _ _ _ (by simp [SnapshotList.reset, TickMap.keys])
  · intro s tick oldest store key hreach hfull hold hnew hret
    have w := reachable_wf hreach
    obtain ⟨-, -, -, -, b⟩ := take_snapshot_step s tick store w
    obtain ⟨-, -, b2⟩ := b hret
    obtain ⟨k, -⟩ := b2 hnew
    unfold SnapshotList.get_ticks at hold hnew ⊢
    have hmem : oldest ∈ s._tick2index_map.keys := List.mem_of_mem_head? hold
    have hne : s._max_size ≠ 0 := w.max_size_ne_zero_of_mem hmem
    have hgt : s._cur_snapshot_num + 1 > s._max_size := by
      unfold SnapshotList.size SnapshotList.max_size at hfull
      split_ifs at hfull <;> omega
    have hnot : oldest ∉ (s.take_snapshot tick store).state._tick2index_map.keys := by
      rw [k]
      simp only [hgt, ↓reduceIte]
      intro hx
      rcases mem_insertKey.1 hx with rfl | hx
      · exact hnew hmem
      · have hs := w.sorted
        cases hl : s._tick2index_map.keys with
        | nil => rw [hl] at hold; simp at hold
        | cons a rest =>
          rw [hl] at hold hx hs
          simp only [List.head?_cons, Option.some.injEq] at hold
          subst hold
          simp only [List.tail_cons] at hx
          exact lt_irrefl _ ((List.pairwise_cons.1 hs).1 _ hx)
    exact ⟨hnot, get_of_not_retained _ _ _ hnot⟩

/-- Instance of C7: tick 3 evicts tick 1 from a full list of capacity 2. -/
theorem C7_get_nan_or_cell_witness :
    1 ∉ (ring2_after_two.take_snapshot 3 (some (dense_store 2 300))).state.get_ticks
    ∧ (ring2_after_two.take_snapshot 3 (some (dense_store 2 300))).state.get 1
        (attr_index_key 0 0 0 0) = Attribute.nan :=
  C7_get_nan_or_cell.2.2.2.2 ring2_after_two 3 1 (some (dense_store 2 300))
    (attr_index_key 0 0 0 0) (reachable_run_snapshots (reachable_ring 2) _) (by decide)
    (by decide) (by decide) (by decide)

/-- C8, as stated, fails: after `set_max_size(3)` on a new list, the later call
`set_max_size(0)` does not return without error, it throws
`InvalidSnapshotSize`. -/
theorem C8_set_max_size_zero_counterexample :
    ((SnapshotList.fresh.set_max_size 3).state.set_max_size 0).thrown
      = some SnapshotError.InvalidSnapshotSize := by
  decide

/-- C8, amended. `max_size` is immutable once set: in every state reached after
`set_max_size(m)` with `m > 0` on a new list, `max_size()` is `m`; a call
`set_max_size(n)` with `n > 0` returns and leaves the whole state unchanged, a
call `set_max_size(0)` throws `InvalidSnapshotSize` and leaves the whole state
unchanged; and `take_snapshot`, `prepare`, `query` and `reset` leave
`max_size()` at `m`. -/
theorem C8_max_size_immutable (m : Nat) (s : SnapshotList) (hm : 0 < m)
    (hreach : ReachableFrom (SnapshotList.fresh.set_max_size m).state s) :
    s.max_size = m
    ∧ (∀ n : Nat, 0 < n → s.set_max_size n = Outcome.returned () s)
    ∧ s.set_max_size 0 = Outcome.threw SnapshotError.InvalidSnapshotSize s
    ∧ (∀ (tick : Int) (store : Option AttributeStore),
        (s.take_snapshot tick store).state.max_size = m)
    ∧ (∀ (node_id : Nat) (ticks : Option (List Int)) (tick_length : Nat)
        (node_indices : Option (List Nat)) (node_length : Nat) (attributes : Option (List Nat))
        (attr_length : Nat),
        (s.prepare node_id ticks tick_length node_indices node_length attributes
          attr_length).state.max_size = m)
    ∧ (∀ (result : Option (List Int)) (shape : SnapshotResultShape),
        (s.query result shape).state.max_size = m)
    ∧ s.reset.max_size = m := by
  have hne : m ≠ 0 := by omega
  have hstart : (SnapshotList.fresh.set_max_size m).state._max_size = m := by
    simp [SnapshotList.set_max_size, hne, SnapshotList.fresh, Outcome.state]
  have hw : WF (SnapshotList.fresh.set_max_size m).state := WF.fresh.set_max_size m
  have key : ∀ s', ReachableFrom (SnapshotList.fresh.set_max_size m).state s' →
      s'._max_size = m := by
    intro s' h'
    rw [reachableFrom_max_size h' hw (by rw [hstart]; exact hne), hstart]
  have hs := key s hreach
  refine ⟨hs, ?_, ?_, ?_, ?_, ?_, ?_⟩
  · intro n hn
    have hn0 : n ≠ 0 := by omega
    have hs0 : s._max_size ≠ 0 := by rw [hs]; exact hne
    simp [SnapshotList.set_max_size, hn0, hs0]
  · simp [SnapshotList.set_max_size]
  · intro tick store
    exact key _ (ReachableFrom.take_snapshot s tick store hreach)
  · intro node_id ticks tick_length node_indices node_length attributes attr_length
    exact key _ (ReachableFrom.prepare s node_id ticks tick_length node_indices node_length
      attributes attr_length hreach)
  · intro result shape
    exact key _ (ReachableFrom.query s result shape hreach)
  · exact key _ (ReachableFrom.reset s hreach)

/-- Instance of the amended C8: a list of capacity 2 after two snapshots. -/
theorem C8_max_size_immutable_witness :
    ring2_after_two.max_size = 2
    ∧ ring2_after_two.set_max_size 5 = Outcome.returned () ring2_after_two :=
  ⟨(C8_max_size_immutable 2 ring2_after_two (by decide)
      (reachable_run_snapshots ReachableFrom.start _)).1,
    (C8_max_size_immutable 2 ring2_after_two (by decide)
      (reachable_run_snapshots ReachableFrom.start _)).2.1 5 (by decide)⟩

/-- C9. Preconditions of `take_snapshot`: without a store argument and without
a bound frame it throws `SnapshotInvalidFrameState`; with a source store
available but the capacity never set it throws `InvalidSnapshotSize`; and
`set_max_size(0)` throws `InvalidSnapshotSize`. In each case the list is left
exactly as it was, so no tick is recorded and `size()` is unchanged. -/
theorem C9_take_snapshot_preconditions (s : SnapshotList) (tick : Int) :
    (s._frame = none →
      s.take_snapshot tick none = Outcome.threw SnapshotError.SnapshotInvalidFrameState s)
    ∧ (∀ store : Option AttributeStore, store.isSome ∨ s._frame.isSome → s._max_size = 0 →
      s.take_snapshot tick store = Outcome.threw SnapshotError.InvalidSnapshotSize s)
    ∧ s.set_max_size 0 = Outcome.threw SnapshotError.InvalidSnapshotSize s
    ∧ (∀ (store : Option AttributeStore) (e : SnapshotError),
      (s.take_snapshot tick store).thrown = some e →
      e = SnapshotError.SnapshotInvalidFrameState ∨ e = SnapshotError.InvalidSnapshotSize →
      (s.take_snapshot tick store).state.get_ticks = s.get_ticks
      ∧ (s.take_snapshot tick store).state.size = s.size) := by
  refine ⟨?_, ?_, ?_, ?_⟩
  · intro hf
    simp [SnapshotList.take_snapshot, hf]
  · intro store hstore h0
    cases store with
    | some st => simp [SnapshotList.take_snapshot, SnapshotList.take_snapshot_of, h0]
    | none =>
      cases hf : s._frame with
      | none => simp [hf] at hstore
      | some f => simp [SnapshotList.take_snapshot, SnapshotList.take_snapshot_of, h0, hf]
  · simp [SnapshotList.set_max_size]
  · intro store e he hcase
    rcases SnapshotList.take_snapshot_resolve s tick store with
      ⟨-, -, e0⟩ | ⟨st, fr, -, e1, e2, -⟩
    · rw [e0]; exact ⟨rfl, rfl⟩
    · rw [e1] at he
      rw [e2]
      rcases SnapshotList.take_snapshot_of_cases s tick st with
        ⟨h0, e3⟩ | ⟨-, hm, hl, e3⟩ | ⟨-, hm, hl, i, e3⟩ | ⟨-, hm, e3⟩
      · rw [e3]; exact ⟨rfl, rfl⟩
      · rw [e3] at he
        simp only [Outcome.thrown, Option.some.injEq] at he
        subst he
        rcases hcase with h | h <;> exact absurd h (by decide)
      · rw [e3] at he; simp [Outcome.thrown] at he
      · rw [e3] at he; simp [Outcome.thrown] at he

/-- Instance of C9: a new list without frame and without capacity. -/
theorem C9_take_snapshot_preconditions_witness :
    SnapshotList.fresh.take_snapshot 7 none
        = Outcome.threw SnapshotError.SnapshotInvalidFrameState SnapshotList.fresh
    ∧ SnapshotList.fresh.take_snapshot 7 (some (dense_store 2 100))
        = Outcome.threw SnapshotError.InvalidSnapshotSize SnapshotList.fresh :=
  ⟨(C9_take_snapshot_preconditions SnapshotList.fresh 7).1 rfl,
    (C9_take_snapshot_preconditions SnapshotList.fresh 7).2.1 (some (dense_store 2 100))
      (by decide) rfl⟩

/-- C10. Query shape: whenever `prepare` returns, the shape it returns has
`tick_number` equal to `tick_length` if `ticks` was given and to the number of
retained ticks otherwise; `max_node_number` equal to `node_length` if
`node_indices` was given and to the instance count of the node type otherwise;
`attr_number` equal to `attr_length`; and `max_slot_number` equal to the
maximum of `max_slots` over the `attr_length` queried attributes (0 if there
is none). -/
theorem C10_query_shape (s : SnapshotList) (node_id : Nat) (ticks : Option (List Int))
    (tick_length : Nat) (node_indices : Option (List Nat)) (node_length : Nat)
    (attributes : Option (List Nat)) (attr_length : Nat) (shape : SnapshotResultShape)
    (h : (s.prepare node_id ticks tick_length node_indices node_length attributes
      attr_length).value = some shape) :
    shape.tick_number = (if ticks.isSome then tick_length else s.get_ticks.length)
    ∧ shape.attr_number = attr_length
    ∧ ∃ (f : Frame) (node : NodeInfo) (attrs : List Nat),
        s._frame = some f ∧ f._nodes[node_id]? = some node ∧ attributes = some attrs
        ∧ shape.max_node_number = (if node_indices.isSome then node_length else node.number)
        ∧ (∀ i, i < attr_length →
            (f.attribute (attrs.getD i 0)).max_slots ≤ shape.max_slot_number)
        ∧ (0 < attr_length → ∃ i, i < attr_length
            ∧ (f.attribute (attrs.getD i 0)).max_slots = shape.max_slot_number)
        ∧ (attr_length = 0 → shape.max_slot_number = 0) := by
  unfold SnapshotList.prepare at h
  cases attributes with
  | none => simp [Outcome.value] at h
  | some attrs =>
    by_cases h0 : s._max_size = 0
    · simp [h0, Outcome.value] at h
    · cases hf : s._frame with
      | none => simp [h0, hf, Outcome.value] at h
      | some f =>
        by_cases hn : f.ensure_node_id node_id = true
        · simp only [h0, ↓reduceIte, hf, hn, Bool.not_true, Bool.false_eq_true, Outcome.value,
            Option.some.injEq] at h
          subst h
          have hlt : node_id < f._nodes.length := by
            simpa [Frame.ensure_node_id] using hn
          refine ⟨?_, rfl, f, f._nodes[node_id], attrs, rfl, List.getElem?_eq_getElem hlt, rfl,
            ?_, ?_, ?_, ?_⟩
          · cases ticks <;> simp [SnapshotList.get_ticks, TickMap.size, TickMap.keys]
          · cases node_indices <;> simp [Frame.node, List.getD_eq_getElem?_getD, hlt]
          · intro i hi
            exact foldl_max_range_le (fun j => (f.attribute (attrs.getD j 0)).max_slots)
              attr_length i hi
          · intro hpos
            exact foldl_max_range_attained (fun j => (f.attribute (attrs.getD j 0)).max_slots)
              attr_length hpos
          · intro hz
            subst hz
            rfl
        · simp [h0, hf, hn, Outcome.value] at h

/-- Instance of C10: a query of two attributes on an empty list bound to a frame. -/
theorem C10_query_shape_witness :
    (0 : Nat) = (if (none : Option (List Int)).isSome then 5 else framed_ring2.get_ticks.length)
    ∧ (2 : Nat) = 2 :=
  ⟨(C10_query_shape framed_ring2 0 none 5 none 0 (some [0, 1]) 2
      { max_slot_number := 4, max_node_number := 3, tick_number := 0, attr_number := 2 }
      (by decide)).1,
    (C10_query_shape framed_ring2 0 none 5 none 0 (some [0, 1]) 2
      { max_slot_number := 4, max_node_number := 3, tick_number := 0, attr_number := 2 }
      (by decide)).2.1⟩

/-- C11. Query round-trip: when `prepare` returns a shape `(T, N, A, S)` and
`query(buf, shape)` follows at once, the query returns, the buffer keeps its
length, and for all `i < T`, `j < N`, `k < A`, `sl < S` the element at
`((i * N + j) * A + k) * S + sl` is the converted cell
`get(tick_i, node_id, node_j, attr_k, sl)` when that cell is not NaN and the
buffer is that long, and is what it was before otherwise. Here `tick_i` is the
`i`-th tick passed (the `i`-th retained tick in ascending order when none was
passed), `node_j` the `j`-th node index passed (`j` itself when none was
passed) and `attr_k` the `k`-th attribute passed. -/
theorem C11_query_round_trip (s : SnapshotList) (node_id : Nat) (ticks : Option (List Int))
    (tick_length : Nat) (node_indices : Option (List Nat)) (node_length : Nat)
    (attributes : Option (List Nat)) (attr_length : Nat) (shape : SnapshotResultShape)
    (buf : List Int)
    (hprep : (s.prepare node_id ticks tick_length node_indices node_length attributes
      attr_length).value = some shape) :
    ∃ (f : Frame) (attrs : List Nat) (result : List Int),
      s._frame = some f ∧ attributes = some attrs
      ∧ ((s.prepare node_id ticks tick_length node_indices node_length attributes
          attr_length).state.query (some buf) shape).value = some result
      ∧ result.length = buf.length
      ∧ ∀ i j k sl : Nat, i < shape.tick_number → j < shape.max_node_number →
          k < shape.attr_number → sl < shape.max_slot_number →
          result[((i * shape.max_node_number + j) * shape.attr_number + k)
              * shape.max_slot_number + sl]?
            = if (s.call ((ticks.getD s.get_ticks).getD i 0) node_id
                  ((node_indices.getD (List.range (f.node node_id).number)).getD j 0)
                  (attrs.getD k 0) sl).is_nan
              then buf[((i * shape.max_node_number + j) * shape.attr_number + k)
                * shape.max_slot_number + sl]?
              else (buf[((i * shape.max_node_number + j) * shape.attr_number + k)
                * shape.max_slot_number + sl]?).map
                  (fun _ => (s.call ((ticks.getD s.get_ticks).getD i 0) node_id
                    ((node_indices.getD (List.range (f.node node_id).number)).getD j 0)
                    (attrs.getD k 0) sl).toFloat) := by
  obtain ⟨f, attrs, hf, ha, h0, hshape, hstate⟩ :=
    prepare_returned s node_id ticks tick_length node_indices node_length attributes attr_length
      shape hprep
  refine ⟨f, attrs, ?_⟩
  rw [hstate]
  by_cases hz : shape.attr_number = 0 ∨ shape.max_node_number = 0 ∨ shape.max_slot_number = 0
      ∨ shape.tick_number = 0
  · refine ⟨buf, hf, ha, ?_, rfl, ?_⟩
    · simp only [SnapshotList.query, Bool.not_true, Bool.false_eq_true, ↓reduceIte]
      rw [if_pos hz]
      rfl
    · intro i j k sl hi hj hk hsl
      rcases hz with h | h | h | h <;> omega
  · have hq := query_returned _ f buf shape
      (show ({ s with
          _query_parameters :=
            { attributes := some attrs
              attr_length := attr_length
              node_id := node_id
              node_indices := node_indices
              node_length := if node_indices.isNone then (f.node node_id).number else node_length
              ticks := ticks
              tick_length := if ticks.isNone then s._tick2index_map.size else tick_length }
          _is_prepared := true } : SnapshotList)._is_prepared = true from rfl) hz h0 hf
    have hT : (if ticks.isNone = true then s._tick2index_map.size
        else (if ticks.isNone then s._tick2index_map.size else tick_length))
        = (if ticks.isNone then s._tick2index_map.size else tick_length) := by
      split_ifs <;> rfl
    have hN : (if node_indices.isNone = true then (f.node node_id).number
        else (if node_indices.isNone then (f.node node_id).number else node_length))
        = (if node_indices.isNone then (f.node node_id).number else node_length) := by
      split_ifs <;> rfl
    simp only [Option.getD_some, hT, hN] at hq
    obtain ⟨T, N, A, S⟩ := shape
    simp only [SnapshotResultShape.mk.injEq] at hshape
    obtain ⟨e1, e2, e3, e4⟩ := hshape
    subst e1 e2 e3 e4
    refine ⟨_, hf, ha, hq, ?_, ?_⟩
    · exact query_loops_length _ node_id _ _ attrs _ _ _ _ buf
    · intro i j k sl hi hj hk hsl
      exact (query_loops_cell _ node_id _ _ attrs _ _ _ _ buf i j k sl hi hj hk hsl).2

/-- Instance of C11: after one snapshot of the frame's store (instances 0 and 1
of attribute 0 hold 100 and 101), a query of attribute 0 for all ticks and all
three node instances into a buffer of three elements. -/
theorem C11_query_round_trip_witness :
    ∃ (f : Frame) (attrs : List Nat) (result : List Int),
      framed_ring2_after_one._frame = some f ∧ some [0] = some attrs
      ∧ ((framed_ring2_after_one.prepare 0 none 0 none 0 (some [0]) 1).state.query
          (some [7, 7, 7])
          { tick_number := 1, max_node_number := 3, attr_number := 1, max_slot_number := 1 }).value
        = some result
      ∧ result.length = [7, 7, 7].length
      ∧ result[((0 * 3 + 1) * 1 + 0) * 1 + 0]?
          = if (framed_ring2_after_one.call
                (((none : Option (List Int)).getD framed_ring2_after_one.get_ticks).getD 0 0) 0
                (((none : Option (List Nat)).getD (List.range (f.node 0).number)).getD 1 0)
                (attrs.getD 0 0) 0).is_nan
            then ([7, 7, 7] : List Int)[((0 * 3 + 1) * 1 + 0) * 1 + 0]?
            else (([7, 7, 7] : List Int)[((0 * 3 + 1) * 1 + 0) * 1 + 0]?).map
              (fun _ => (framed_ring2_after_one.call
                (((none : Option (List Int)).getD framed_ring2_after_one.get_ticks).getD 0 0) 0
                (((none : Option (List Nat)).getD (List.range (f.node 0).number)).getD 1 0)
                (attrs.getD 0 0) 0).toFloat) :=
  match C11_query_round_trip framed_ring2_after_one 0 none 0 none 0 (some [0]) 1
      { tick_number := 1, max_node_number := 3, attr_number := 1, max_slot_number := 1 }
      [7, 7, 7] (by decide) with
  | ⟨f, attrs, result, h1, h2, h3, h4, h5⟩ =>
    ⟨f, attrs, result, h1, h2, h3, h4,
      h5 0 1 0 0 (by decide) (by decide) (by decide) (by decide)⟩

/-- C12. Query requires prepare: on a list whose `is_prepared` is false, in
particular a new list and a list after `reset`, `query(buf, shape)` with a
non-null buffer throws `SnapshotQueryNotPrepared` for every shape, leaves the
list as it is and writes nothing to the buffer. -/
theorem C12_query_requires_prepare :
    (∀ (s : SnapshotList) (buf : List Int) (shape : SnapshotResultShape),
      s._is_prepared = false →
      s.query (some buf) shape = Outcome.threw SnapshotError.SnapshotQueryNotPrepared s
      ∧ buffer_after_query s buf shape = buf)
    ∧ SnapshotList.fresh._is_prepared = false
    ∧ (∀ s : SnapshotList, s.reset._is_prepared = false) := by
  refine ⟨?_, rfl, fun _ => rfl⟩
  intro s buf shape h
  have e : s.query (some buf) shape
      = Outcome.threw SnapshotError.SnapshotQueryNotPrepared s := by
    simp [SnapshotList.query, h]
  exact ⟨e, by simp [buffer_after_query, e, Outcome.value]⟩

/-- Instance of C12: a query on the list `ring2_after_two` after `reset`. -/
theorem C12_query_requires_prepare_witness :
    ring2_after_two.reset.query (some [1, 2, 3]) prepared_empty_shape
      = Outcome.threw SnapshotError.SnapshotQueryNotPrepared ring2_after_two.reset
    ∧ buffer_after_query ring2_after_two.reset [1, 2, 3] prepared_empty_shape = [1, 2, 3] :=
  C12_query_requires_prepare.1 ring2_after_two.reset [1, 2, 3] prepared_empty_shape rfl

/-- C13, evaluated at a failing input. A query that returns normally need not
consume the prepared state: on a list bound to a frame that retains no tick,
`prepare` without ticks returns a shape with `tick_number` 0; `query` with
this shape returns at once, `is_prepared` is still true and the stored query
parameters are still there, and a second `query` returns again instead of
throwing `SnapshotQueryNotPrepared`. -/
theorem C13_query_zero_shape_keeps_prepared :
    (framed_ring2.prepare 0 none 0 none 0 (some [0]) 1).value = some prepared_empty_shape
    ∧ (prepared_empty_ring.query (some [1, 2, 3]) prepared_empty_shape).thrown = none
    ∧ (prepared_empty_ring.query (some [1, 2, 3]) prepared_empty_shape).state._is_prepared = true
    ∧ (prepared_empty_ring.query (some [1, 2, 3]) prepared_empty_shape).state._query_parameters
        ≠ prepared_empty_ring._query_parameters.reset
    ∧ ((prepared_empty_ring.query (some [1, 2, 3]) prepared_empty_shape).state.query
        (some [1, 2, 3]) prepared_empty_shape).thrown = none := by
  decide

/-- C14, evaluated at a failing input. An attribute list without attributes is
not rejected: on a list bound to a frame, `prepare` with a non-null attribute
array and `attr_length` 0 does not throw `SnapshotQueryNoAttributes`; it
returns a shape, sets `is_prepared` and stores the query parameters. -/
theorem C14_prepare_accepts_zero_attributes :
    (framed_ring2.prepare 0 none 0 none 0 (some []) 0).thrown = none
    ∧ (framed_ring2.prepare 0 none 0 none 0 (some []) 0).value
        = some { tick_number := 0, max_node_number := 3, attr_number := 0, max_slot_number := 0 }
    ∧ framed_ring2._is_prepared = false
    ∧ (framed_ring2.prepare 0 none 0 none 0 (some []) 0).state._is_prepared = true
    ∧ (framed_ring2.prepare 0 none 0 none 0 (some []) 0).state._query_parameters.attributes
        = some [] := by
  decide

/-- C15. Ticks written by `get_ticks`: in every reachable state they are exactly
the retained ticks (those that `find` locates in `tick_to_index`), in strictly
ascending order, and their number is `size()`. -/
theorem C15_get_ticks (s : SnapshotList) (hreach : Reachable s) :
    (∀ t : Int, t ∈ s.get_ticks ↔ (s._tick2index_map.find t).isSome)
    ∧ s.get_ticks.Pairwise (· < ·)
    ∧ s.get_ticks.length = s.size := by
  have w := reachable_wf hreach
  refine ⟨fun t => (TickMap.find_isSome_iff _ _).symm, w.sorted, ?_⟩
  rw [size_eq_min]
  exact w.count

/-- Instance of C15: the list of capacity 2 after ticks 1 and 2. -/
theorem C15_get_ticks_witness :
    (∀ t : Int, t ∈ ring2_after_two.get_ticks ↔ (ring2_after_two._tick2index_map.find t).isSome)
    ∧ ring2_after_two.get_ticks.Pairwise (· < ·)
    ∧ ring2_after_two.get_ticks.length = ring2_after_two.size :=
  C15_get_ticks ring2_after_two (reachable_run_snapshots (reachable_ring 2) _)

/-- C16, as stated, fails in two ways. With capacity 1, after tick 1 the call
for tick 2 from a clean store of the same size returns on a list that retains
tick 1, yet a new mapping is appended: the retained tick is evicted before the
mappings are compared. With capacity 3, after tick 5 (size 2) and then tick 3
(size 1), the call for tick 4 from a clean store of size 2 appends no mapping
and points tick 4 at the mapping of tick 5, the largest retained tick, although
the mapping of the most recently taken tick 3 has size 1. -/
theorem C16_mapping_reuse_counterexample :
    (ring1.take_snapshot 1 (some (dense_store 2 100))).state.get_ticks = [1]
    ∧ succeeded_ticks ring1 same_shape_calls = [1, 2]
    ∧ (dense_store 2 200).is_dirty = false
    ∧ (ring1.take_snapshot 1 (some (dense_store 2 100))).state._mappings.map List.length
        = [(dense_store 2 200).size]
    ∧ (run_snapshots ring1 same_shape_calls)._mappings.length = 2
    ∧ ring3_after_5_3._last_tick = 3
    ∧ ring3_after_5_3._tick_attr_map = [(3, 1), (5, 0)]
    ∧ ring3_after_5_3._mappings.map List.length = [2, 1]
    ∧ (dense_store 2 300).is_dirty = false ∧ (dense_store 2 300).size = 2
    ∧ (ring3_after_5_3.take_snapshot 4 (some (dense_store 2 300))).thrown = none
    ∧ (ring3_after_5_3.take_snapshot 4 (some (dense_store 2 300))).state._mappings
        = ring3_after_5_3._mappings
    ∧ (ring3_after_5_3.take_snapshot 4 (some (dense_store 2 300))).state._tick_attr_map.find 4
        = some 0 := by
  decide

/-- C16, amended. Mapping reuse rule: when `take_snapshot(tick, store)` returns,
let the candidate be the record with the largest tick left in `tick_to_mapping`
once the earlier record of `tick` (on an overwrite) or the oldest record (when
a new tick meets a full ring) has been removed. The call appends no mapping and
points `tick` at the candidate's mapping if and only if a candidate exists, the
store is not dirty and that mapping has as many entries as the store; otherwise
it appends exactly one mapping, the `key_to_index` that `copy_to` delivers for
the store, and points `tick` at it. Existing entries of the mappings list are
not modified. -/
theorem C16_mapping_reuse_rule (s : SnapshotList) (tick : Int) (store : Option AttributeStore)
    (st : AttributeStore)
    (hres : store = some st ∨ (store = none ∧ ∃ f, s._frame = some f ∧ f._attr_store = st))
    (hret : (s.take_snapshot tick store).thrown = none) :
    (reuses_mapping s tick st →
      (s.take_snapshot tick store).state._mappings = s._mappings
      ∧ ∃ t0 id, reuse_candidate s tick = some (t0, id)
        ∧ (s.take_snapshot tick store).state._tick_attr_map.find tick = some id)
    ∧ (¬ reuses_mapping s tick st →
      (s.take_snapshot tick store).state._mappings = s._mappings ++ [st.copy_to.2]
      ∧ (s.take_snapshot tick store).state._tick_attr_map.find tick = some s._mappings.length)
    ∧ (∀ i, i < s._mappings.length →
      (s.take_snapshot tick store).state._mappings[i]? = s._mappings[i]?) := by
  rcases SnapshotList.take_snapshot_resolve s tick store with
    ⟨-, -, e⟩ | ⟨st', fr, hst, e1, e2, -⟩
  · rw [e] at hret; simp [Outcome.thrown] at hret
  · have hst' : st' = st := by
      rcases hres with h | ⟨h, f, hf, hfs⟩
      · rcases hst with h' | ⟨h', -⟩
        · rw [h] at h'; exact (Option.some.inj h').symm
        · rw [h] at h'; simp at h'
      · rcases hst with h' | ⟨-, f', hf', hfs'⟩
        · rw [h] at h'; simp at h'
        · rw [hf] at hf'
          rw [hfs', ← Option.some.inj hf', hfs]
    subst hst'
    rw [e1] at hret
    obtain ⟨a, b⟩ := take_snapshot_of_rule s tick st' hret
    rw [e2]
    refine ⟨a, b, ?_⟩
    intro i hi
    by_cases hR : reuses_mapping s tick st'
    · have := (a hR).1
      simp only [this]
    · have := (b hR).1
      simp only [this]
      exact List.getElem?_append_left hi

/-- Instance of the amended C16: tick 2 from a clean store of size 2 on the list
of capacity 2 after tick 1 from a store of size 2; the mapping of tick 1 is
reused. -/
theorem C16_mapping_reuse_rule_witness :
    ((ring2.take_snapshot 1 (some (dense_store 2 100))).state.take_snapshot 2
        (some (dense_store 2 200))).state._mappings
      = (ring2.take_snapshot 1 (some (dense_store 2 100))).state._mappings
    ∧ ∃ t0 id,
        reuse_candidate (ring2.take_snapshot 1 (some (dense_store 2 100))).state 2 = some (t0, id)
        ∧ ((ring2.take_snapshot 1 (some (dense_store 2 100))).state.take_snapshot 2
            (some (dense_store 2 200))).state._tick_attr_map.find 2 = some id :=
  (C16_mapping_reuse_rule (ring2.take_snapshot 1 (some (dense_store 2 100))).state 2
    (some (dense_store 2 200)) (dense_store 2 200) (Or.inl rfl) (by decide)).1
    ⟨1, 0, by decide, by decide, by decide⟩

/-- C17. Effect of `reset`: in every state, reachable or not, after `reset()` no
tick is retained, `size()` is 0, `get(t, k)` is NaN for every tick and key,
`end_index` and the hole are zero, `last_tick` is -1 and `is_prepared` is
false, while `max_size()` and the length of the backing vector are
unchanged. -/
theorem C17_reset (s : SnapshotList) :
    s.reset.get_ticks = []
    ∧ s.reset.size = 0
    ∧ (∀ (t : Int) (k : Nat), s.reset.get t k = Attribute.nan)
    ∧ s.reset._end_index = 0
    ∧ s.reset._first_empty_slot_index = 0
    ∧ s.reset._empty_slots_length = 0
    ∧ s.reset._last_tick = -1
    ∧ s.reset._is_prepared = false
    ∧ s.reset.max_size = s.max_size
    ∧ s.reset._attr_store.length = s._attr_store.length := by
  refine ⟨rfl, ?_, ?_, rfl, rfl, rfl, rfl, rfl, rfl, ?_⟩
  · simp [SnapshotList.size, SnapshotList.reset]
  · intro t k
    exact get_of_not_retained _ _ _ (by simp [SnapshotList.reset, TickMap.keys])
  · simp [SnapshotList.reset]

/-- C18, as stated, fails: on a list of capacity 2, after snapshots of size 2 at
ticks 1, 2 and 3 (all calls return), the snapshot of `last_tick` 3 was written
into the hole left by tick 1: it occupies `[0, 2)` while `end_index` is 4. -/
theorem C18_tail_invariant_counterexample :
    succeeded_ticks ring2
        [(1, some (dense_store 2 100)), (2, some (dense_store 2 200)),
          (3, some (dense_store 2 300))] = [1, 2, 3]
    ∧ ring2_after_three._last_tick = 3
    ∧ ring2_after_three._tick2index_map.find 3 = some 0
    ∧ ring2_after_three._tick2size_map.find 3 = some 2
    ∧ ring2_after_three._end_index = 4
    ∧ ¬ (0 + 2 = ring2_after_three._end_index) := by
  decide

/-- C18, amended. Tail invariant: after every `take_snapshot` that returns, the
snapshot of `last_tick` is recorded with the size of the source store and ends
either at `end_index` (it was appended) or at `first_empty_slot_index` (it
was written into the hole, which now starts right behind it). -/
theorem C18_tail_or_hole_invariant (s : SnapshotList) (tick : Int)
    (store : Option AttributeStore) (hret : (s.take_snapshot tick store).thrown = none) :
    (s.take_snapshot tick store).state._last_tick = tick
    ∧ ∃ index size,
        (s.take_snapshot tick store).state._tick2index_map.find tick = some index
        ∧ (s.take_snapshot tick store).state._tick2size_map.find tick = some size
        ∧ (index + size = (s.take_snapshot tick store).state._end_index
          ∨ index + size = (s.take_snapshot tick store).state._first_empty_slot_index) := by
  rcases SnapshotList.take_snapshot_resolve s tick store with ⟨-, -, e⟩ | ⟨st, fr, -, e1, e2, -⟩
  · rw [e] at hret; simp [Outcome.thrown] at hret
  · rw [e1] at hret
    rw [e2]
    rcases SnapshotList.take_snapshot_of_cases s tick st with
      ⟨-, e⟩ | ⟨-, -, -, e⟩ | ⟨-, -, -, i, e⟩ | ⟨-, -, e⟩
    · rw [e] at hret; simp [Outcome.thrown] at hret
    · rw [e] at hret; simp [Outcome.thrown] at hret
    · rw [e]
      obtain ⟨a, index, size, b, c, -, d⟩ :=
        SnapshotList.place_snapshot_tail (s.prepare_memory.remove_existing tick i) tick st true
      exact ⟨a, index, size, b, c, d⟩
    · rw [e]
      obtain ⟨a, index, size, b, c, -, d⟩ :=
        SnapshotList.place_snapshot_tail s.prepare_memory tick st false
      exact ⟨a, index, size, b, c, d⟩

/-- Instance of the amended C18: tick 3 on the list of capacity 2 after ticks 1 and 2. -/
theorem C18_tail_or_hole_invariant_witness :
    (ring2_after_two.take_snapshot 3 (some (dense_store 2 300))).state._last_tick = 3
    ∧ ∃ index size,
        (ring2_after_two.take_snapshot 3 (some (dense_store 2 300))).state._tick2index_map.find 3
          = some index
        ∧ (ring2_after_two.take_snapshot 3 (some (dense_store 2 300))).state._tick2size_map.find 3
          = some size
        ∧ (index + size
            = (ring2_after_two.take_snapshot 3 (some (dense_store 2 300))).state._end_index
          ∨ index + size
            = (ring2_after_two.take_snapshot 3
                (some (dense_store 2 300))).state._first_empty_slot_index) :=
  C18_tail_or_hole_invariant ring2_after_two 3 (some (dense_store 2 300)) (by decide)

/-- C19, evaluated at a failing input. Regions of distinct retained ticks can
overlap: after snapshots of sizes 2, 1, 1, 3, 3 at ticks 1 to 5 on a list of
capacity 2 (all calls return), tick 4 occupies `[3, 6)` and tick 5 occupies
`[1, 4)`, so offset 3 lies in both regions. -/
theorem C19_retained_regions_overlap :
    succeeded_ticks ring2 five_calls = [1, 2, 3, 4, 5]
    ∧ run_snapshots ring2 five_calls = ring2_after_five
    ∧ ring2_after_five.get_ticks = [4, 5]
    ∧ ring2_after_five._tick2index_map.find 4 = some 3
    ∧ ring2_after_five._tick2size_map.find 4 = some 3
    ∧ ring2_after_five._tick2index_map.find 5 = some 1
    ∧ ring2_after_five._tick2size_map.find 5 = some 3
    ∧ (3 ≤ 3 ∧ 3 < 3 + 3 ∧ 1 ≤ 3 ∧ 3 < 1 + 3) := by
  decide

/-- C20, evaluated at a failing input. The retained regions and the hole need
not cover `[0, end_index)`: after snapshots of sizes 2, 1, 1, 3, 3 at ticks 1
to 5 on a list of capacity 2 (all calls return), `end_index` is 6, the hole is
empty, and the retained ticks 4 and 5 occupy `[3, 6)` and `[1, 4)`: offset 0
belongs to no region and not to the hole. -/
theorem C20_offset_zero_not_covered :
    succeeded_ticks ring2 five_calls = [1, 2, 3, 4, 5]
    ∧ ring2_after_five._end_index = 6
    ∧ ring2_after_five._empty_slots_length = 0
    ∧ ring2_after_five._tick2index_map = [(4, 3), (5, 1)]
    ∧ ring2_after_five._tick2size_map = [(4, 3), (5, 3)]
    ∧ (0 < ring2_after_five._end_index ∧ ¬ (3 ≤ 0) ∧ ¬ (1 ≤ 0)) := by
  decide

/-- C21, evaluated at a failing input. A query can write past the prepared
shape: on a list bound to a frame with one retained tick, `prepare` without
ticks returns the shape `(1, 3, 1, 1)`, whose product is 3; a snapshot at tick
2 follows and leaves `is_prepared` true; `query` with the prepared shape then
walks both retained ticks and writes the cells of tick 2 at the indices 3 and
4 of a buffer of six elements. -/
theorem C21_query_writes_past_prepared_shape :
    (framed_ring2_after_one.prepare 0 none 0 none 0 (some [0]) 1).value
      = some prepared_one_tick_shape
    ∧ ((framed_ring2_after_one.prepare 0 none 0 none 0 (some [0]) 1).state.take_snapshot 2
        none).thrown = none
    ∧ prepared_then_snapshot._is_prepared = true
    ∧ prepared_one_tick_shape.tick_number * prepared_one_tick_shape.max_node_number
        * prepared_one_tick_shape.attr_number * prepared_one_tick_shape.max_slot_number = 3
    ∧ (prepared_then_snapshot.query (some [7, 7, 7, 7, 7, 7]) prepared_one_tick_shape).value
        = some [100, 101, 7, 100, 101, 7] := by
  decide

/-- C22. Steady-state ring: start from a list that was just constructed with
capacity `m > 0` or just reset, and run any sequence of `take_snapshot` calls
(new ticks in any order, overwrites of the last tick, rejected calls) whose
source stores all have the same size `sz > 0`, the store of the bound frame
included when a call passes `nullptr`. Then every retained tick starts at an
offset that is a multiple of `sz`, lies below `sz * m` and leaves room for the
whole record below `sz * m`; distinct retained ticks have distinct offsets; the
hole is empty; `_end_index` is at most `sz * m`; and a backing vector that has
at least `sz * m` cells is never resized. -/
theorem C22_steady_ring_fits_capacity (sz m : Nat) (start : SnapshotList)
    (calls : List (Int × Option AttributeStore)) (hsz : 0 < sz) (hm : 0 < m)
    (hstart : Cleared m start)
    (hstores : ∀ c ∈ calls, ∀ st, c.2 = some st → st.size = sz)
    (hframe : ∀ c ∈ calls, c.2 = none →
      ∀ f, start._frame = some f → f._attr_store.size = sz) :
    (∀ t o, (run_snapshots start calls)._tick2index_map.find t = some o →
        sz ∣ o ∧ o < sz * m ∧ o + sz ≤ sz * m)
    ∧ (∀ t1 t2 o1 o2, (run_snapshots start calls)._tick2index_map.find t1 = some o1 →
        (run_snapshots start calls)._tick2index_map.find t2 = some o2 → t1 ≠ t2 → o1 ≠ o2)
    ∧ (run_snapshots start calls)._empty_slots_length = 0
    ∧ (run_snapshots start calls)._end_index ≤ sz * m
    ∧ (sz * m ≤ start._attr_store.length →
        (run_snapshots start calls)._attr_store.length = start._attr_store.length) := by
  obtain ⟨h, hl⟩ :=
    Steady.of_run_snapshots hsz hm calls start (hstart.steady sz hm) hstores hframe
  have hend := h.end_le
  refine ⟨?_, ?_, h.hole, hend, hl⟩
  · intro t o ho
    obtain ⟨d, b⟩ := h.offsets t o ho
    exact ⟨d, by omega, by omega⟩
  · intro t1 t2 o1 o2 h1 h2 hne heq
    rw [heq] at h1
    exact hne (h.inj t1 t2 o2 h1 h2)

theorem C22_steady_ring_fits_capacity_witness :
    Cleared 2 steady_start
    ∧ 2 * 2 ≤ steady_start._attr_store.length
    ∧ (∀ t o, (run_snapshots steady_start steady_calls)._tick2index_map.find t = some o →
        2 ∣ o ∧ o < 2 * 2 ∧ o + 2 ≤ 2 * 2)
    ∧ (∀ t1 t2 o1 o2,
        (run_snapshots steady_start steady_calls)._tick2index_map.find t1 = some o1 →
        (run_snapshots steady_start steady_calls)._tick2index_map.find t2 = some o2 →
        t1 ≠ t2 → o1 ≠ o2)
    ∧ (run_snapshots steady_start steady_calls)._empty_slots_length = 0
    ∧ (run_snapshots steady_start steady_calls)._end_index ≤ 2 * 2
    ∧ (2 * 2 ≤ steady_start._attr_store.length →
        (run_snapshots steady_start steady_calls)._attr_store.length
          = steady_start._attr_store.length) :=
  ⟨Or.inr ⟨framed_ring2_after_one, by decide, rfl⟩, by decide,
    C22_steady_ring_fits_capacity 2 2 steady_start steady_calls (by decide) (by decide)
      (Or.inr ⟨framed_ring2_after_one, by decide, rfl⟩)
      (by
        intro c hc st h
        simp only [steady_calls, List.mem_cons, List.mem_singleton, List.not_mem_nil,
          or_false] at hc
        rcases hc with rfl | rfl | rfl | rfl | rfl | rfl <;> cases h <;> rfl)
      (by
        intro c _ _ f hf
        cases hf
        rfl)⟩

end maro
